import Mathlib

/-
Verification development for the StockSearch Intel Deep-Dive Pipeline.

Shallow embedding of the pipeline modules under src/app/src/jpswing:
  * intel/priority.py      (priority ranker)
  * intel/budget.py        (budget allocator)
  * intel/schema.py        (intel payload schema validation)
  * intel/llm_client.py    (summarize / validate / repair / fallback chain)
  * intel/search.py        (EDINET evidence extractor file-type loop)
  * intel/edinet_xbrl.py   (XBRL key-fact extraction)
  * fund_intel_orchestrator.py (queue state machine, daily budget, recovery)

Modelling conventions:
  * Python floats are modelled as exact rationals; round(x, 6) is modelled
    as half-even rounding of x * 10^6 (the decimal idealization of the
    Python builtin).
  * Python strings are Lean strings; Python len / slicing count characters.
  * Whitespace for the regex \s and str.strip is the ASCII whitespace set
    (space, tab, newline, carriage return, vertical tab, form feed); the
    repository only manipulates such whitespace.
  * I/O boundaries (HTTP transport, json.loads of model output, zipfile,
    XML parsing) are abstracted as explicit behaviour inputs; every decision
    the repository code itself makes on the returned data is embedded.
-/

namespace StockSearch

/-! ## Python string and numeric primitives shared by the embedding -/

/-- Characters matched by the regex \s and stripped by str.strip (ASCII part). -/
def isPySpace (c : Char) : Bool :=
  c = ' ' || c = '\t' || c = '\n' || c = '\r' || c = '\x0b' || c = '\x0c'

/-- Core of re.sub(r"\s+", " ", s): collapse every run of whitespace to one
space (the Boolean records whether the scan is inside a whitespace run). -/
def collapseGo : Bool → List Char → List Char
  | _, [] => []
  | inRun, c :: rest =>
    if isPySpace c then
      if inRun then collapseGo true rest else ' ' :: collapseGo true rest
    else
      c :: collapseGo false rest

/-- re.sub(r"\s+", " ", s) on a character list. -/
def collapseChars (l : List Char) : List Char :=
  collapseGo false l

/-- Python s.strip() on a character list. -/
def stripChars (l : List Char) : List Char :=
  ((l.dropWhile isPySpace).reverse.dropWhile isPySpace).reverse

/-- Embedding of re.sub(r"\s+", " ", s).strip(). -/
def normSpace (s : String) : String :=
  ⟨stripChars (collapseChars s.data)⟩

/-- Python substring containment needle in hay. -/
def pySubstr (needle hay : String) : Bool :=
  decide (needle.data.IsInfix hay.data)

/-- Python str.upper for the ASCII strings used by the pipeline. -/
def pyUpper (s : String) : String :=
  ⟨s.data.map Char.toUpper⟩

/-- Python round-half-to-even of a rational to an integer (decimal idealization
of the float builtin round). -/
def roundHalfEven (x : ℚ) : ℤ :=
  if x - ⌊x⌋ < 1/2 then ⌊x⌋
  else if (1:ℚ)/2 < x - ⌊x⌋ then ⌊x⌋ + 1
  else if Even ⌊x⌋ then ⌊x⌋ else ⌊x⌋ + 1

/-- Embedding of round(x, 6). -/
def round6 (x : ℚ) : ℚ := (roundHalfEven (x * 1000000) : ℚ) / 1000000

/-! ## intel/priority.py -/

/-- Embedding of the PriorityInput dataclass (intel/priority.py). -/
structure PriorityInput where
  code : String
  fund_state : String
  fund_score : ℚ
  has_new_edinet : Bool
  theme_strength : ℚ
  theme_strength_delta : ℚ
  has_high_signal_tag : Bool
deriving Repr, DecidableEq

/-- Embedding of STATE_WEIGHT.get(item.fund_state.upper(), 0.2); the OUT entry
of the table coincides with the dictionary default 0.2. -/
def stateWeight (s : String) : ℚ :=
  if pyUpper s = "IN" then 1.0
  else if pyUpper s = "WATCH" then 0.6
  else 0.2

/-- Sum of ord(c) over the characters of a code (sum(ord(c) for c in item.code)). -/
def pyCharSum (s : String) : ℕ :=
  (s.data.map Char.toNat).sum

/-- Deterministic tie-break tail: (sum of char codes mod 1000) / 1_000_000. -/
def priorityTail (code : String) : ℚ :=
  ((pyCharSum code % 1000 : ℕ) : ℚ) / 1000000

/-- Embedding of calculate_priority (intel/priority.py lines 21-34). -/
def calculate_priority (item : PriorityInput) : ℚ :=
  let state_w := stateWeight item.fund_state
  let score :=
    state_w * 0.25
    + max 0 (min 1 item.fund_score) * 0.20
    + (if item.has_new_edinet then 0.45 else 0)
    + max 0 (min 1 item.theme_strength) * 0.07
    + max (-1) (min 1 item.theme_strength_delta) * 0.02
    + (if item.has_high_signal_tag then 0.01 else 0)
  round6 (score + priorityTail item.code)

/-- One row of the rank_priorities output. -/
structure PriorityRow where
  code : String
  priority : ℚ
deriving Repr

/-- Order used to model list.sort(key=lambda x: (-priority, code)): priority
descending, then code ascending (keys tie only for equal code and priority, so
stability of the underlying sort is unobservable). -/
def rowLeR (a b : PriorityRow) : Prop :=
  b.priority < a.priority ∨ (a.priority = b.priority ∧ a.code ≤ b.code)

instance : DecidableRel rowLeR := fun _ _ =>
  inferInstanceAs (Decidable (_ ∨ _))

/-- Embedding of rank_priorities (intel/priority.py lines 37-40). -/
def rank_priorities (items : List PriorityInput) : List PriorityRow :=
  (items.map fun i => ⟨i.code, calculate_priority i⟩).insertionSort rowLeR

/-- Spec-side state weight, following the words of the specification:
state_weight(IN)=1.0, WATCH=0.6, OUT=0.2, unknown states weighted as OUT. -/
def specStateWeight (s : String) : ℚ :=
  if s = "IN" then 1.0
  else if s = "WATCH" then 0.6
  else 0.2

/-- Spec-side clamp(x, lo, hi). -/
def specClamp (x lo hi : ℚ) : ℚ := max lo (min hi x)

/-- Spec-side priority formula, written directly from the words of the claim:
state_weight(fund_state)*0.25 + clamp(fund_score,0,1)*0.20 + (0.45 if filing)
+ clamp(theme_strength,0,1)*0.07 + clamp(delta,-1,1)*0.02 + (0.01 if tag). -/
def specPriorityScore (item : PriorityInput) : ℚ :=
  specStateWeight item.fund_state * 0.25
  + specClamp item.fund_score 0 1 * 0.20
  + (if item.has_new_edinet then 0.45 else 0)
  + specClamp item.theme_strength 0 1 * 0.07
  + specClamp item.theme_strength_delta (-1) 1 * 0.02
  + (if item.has_high_signal_tag then 0.01 else 0)

/-! Helper lemmas for the sort order used by rank_priorities. -/

instance : IsTrans PriorityRow rowLeR := by
  constructor
  rintro a b c (hab | ⟨hab, hab2⟩) (hbc | ⟨hbc, hbc2⟩)
  · exact Or.inl (lt_trans hbc hab)
  · exact Or.inl (hbc ▸ hab)
  · exact Or.inl (hab ▸ hbc)
  · exact Or.inr ⟨hab.trans hbc, le_trans hab2 hbc2⟩

instance : IsTotal PriorityRow rowLeR := by
  constructor
  intro a b
  rcases lt_trichotomy a.priority b.priority with h | h | h
  · exact Or.inr (Or.inl h)
  · rcases le_total a.code b.code with hc | hc
    · exact Or.inl (Or.inr ⟨h, hc⟩)
    · exact Or.inr (Or.inr ⟨h.symm, hc⟩)
  · exact Or.inl (Or.inl h)

/-! ## intel/budget.py -/

/-- Embedding of compute_session_allowance (intel/budget.py). -/
def compute_session_allowance (daily_budget session_cap done_total done_session : ℤ) : ℤ :=
  min (max 0 (daily_budget - done_total)) (max 0 (session_cap - done_session))

/-- Embedding of build_idempotency_key (intel/budget.py). -/
def build_idempotency_key (business_date_iso session_name code : String) : String :=
  business_date_iso ++ ":" ++ session_name ++ ":" ++ code

/-! ## fund_intel_orchestrator.py: recovery-sweep day completeness (C8) -/

/-- Status-count map for one session, as grouped from the IntelQueue table
(status name mapped to row count; a SQL group-by yields distinct keys). -/
abbrev StatusCounts := List (String × ℤ)

/-- Embedding of status_counts.get(name, 0) with int(. or 0). -/
def scGet (sc : StatusCounts) (k : String) : ℤ :=
  (sc.lookup k).getD 0

/-- Per-session loop of _is_intel_recovery_day_complete: returns none at the
first failing check (the early return False), otherwise the accumulated
required_done_total. -/
def sessionsCheck (morning_done close_done : ℤ)
    (queue_by_session : List (String × StatusCounts)) :
    List String → Option ℤ
  | [] => some 0
  | session_name :: rest =>
    let status_counts := (queue_by_session.lookup session_name).getD []
    let total_rows := (status_counts.map Prod.snd).sum
    if total_rows ≤ 0 then none
    else if 0 < scGet status_counts "pending" then none
    else if 0 < scGet status_counts "failed" then none
    else
      let queue_done := scGet status_counts "done"
      let budget_done := if session_name = "morning" then morning_done else close_done
      if budget_done < queue_done then none
      else (sessionsCheck morning_done close_done queue_by_session rest).map (queue_done + ·)

/-- Embedding of FundIntelOrchestrator._is_intel_recovery_day_complete
(fund_intel_orchestrator.py lines 1127-1154). -/
def is_intel_recovery_day_complete (sessions : List String)
    (budget : Option (ℤ × ℤ × ℤ))
    (queue_by_session : List (String × StatusCounts)) : Bool :=
  match budget with
  | none => false
  | some (done_total, morning_done, close_done) =>
    match sessionsCheck morning_done close_done queue_by_session sessions with
    | none => false
    | some required_done_total => decide (¬ done_total < required_done_total)

/-! ## fund_intel_orchestrator.py: _intel_deepdive queue and budget effects

The run is modelled on the queue and budget state only; EDINET discovery,
ranking and per-candidate evidence/LLM/persist outcomes enter as explicit
inputs (ranked candidates with their seed document-id sets, and a behaviour
giving the pause signal and the processing outcome of each dequeued row). -/

/-- Queue entry statuses (IntelQueue.status). -/
inductive QStatus where
  | pending
  | done
  | skipped
  | failed
deriving DecidableEq, Repr

/-- Embedding of an IntelQueue row; sources_seed is abstracted to the set of
EDINET document ids it references (_seed_doc_ids). -/
structure IntelQueueEntry where
  business_date : String
  session : String
  code : String
  priority : ℚ
  seed_doc_ids : Finset String
  status : QStatus
  idempotency_key : String
deriving DecidableEq

/-- One ranked candidate as selected for enqueue (code, priority, and the
_seed_doc_ids of its seed payload). -/
structure RankedCandidate where
  code : String
  priority : ℚ
  seed_doc_ids : Finset String

/-- Outcome of processing one dequeued queue row: sources found and record
persisted (status done), no sources at all (status skipped), or an exception
during extraction/persist (status failed). -/
inductive ProcOutcome where
  | ok
  | noSources
  | persistFail
deriving DecidableEq, Repr

/-- Environment behaviour of one run: the cooperative pause check consulted
before the i-th candidate, and the processing outcome of the i-th candidate. -/
structure RunBehaviour where
  pause : ℕ → Bool
  outcome : ℕ → ProcOutcome

/-- Orchestrator configuration fields consulted by _intel_deepdive. -/
structure DeepdiveConfig where
  process_all_candidates : Bool
  daily_budget : ℤ
  morning_cap : ℤ
  close_cap : ℤ

/-- Embedding of the IntelDailyBudget row. -/
structure IntelDailyBudget where
  done_count : ℤ
  morning_done : ℤ
  close_done : ℤ
deriving DecidableEq, Repr

/-- Result of one _intel_deepdive run (budget row, queue table, counters). -/
structure DeepdiveResult where
  budget : IntelDailyBudget
  queue : List IntelQueueEntry
  queued : ℕ
  done : ℕ

/-- Update of the first list entry satisfying p (the row found by the unique
idempotency-key select). -/
def updateFirst (p : IntelQueueEntry → Bool) (f : IntelQueueEntry → IntelQueueEntry) :
    List IntelQueueEntry → List IntelQueueEntry
  | [] => []
  | e :: rest => if p e then f e :: rest else e :: updateFirst p f rest

/-- Embedding of one enqueue-upsert step of _intel_deepdive (lines 950-983):
an existing row gets its priority refreshed, and additionally its seed and a
forced pending status when the seed document ids changed; otherwise a new
pending row is inserted. -/
def upsertCandidate (bd sess : String) (st : List IntelQueueEntry × ℕ)
    (item : RankedCandidate) : List IntelQueueEntry × ℕ :=
  let idem := build_idempotency_key bd sess item.code
  match st.1.find? (fun e => e.idempotency_key == idem) with
  | some ex =>
    if item.seed_doc_ids ≠ ex.seed_doc_ids then
      (updateFirst (fun e => e.idempotency_key == idem)
        (fun e => { e with priority := item.priority,
                           seed_doc_ids := item.seed_doc_ids,
                           status := QStatus.pending }) st.1,
       st.2 + 1)
    else
      (updateFirst (fun e => e.idempotency_key == idem)
        (fun e => { e with priority := item.priority }) st.1, st.2)
  | none =>
    (st.1 ++ [{ business_date := bd, session := sess, code := item.code,
                priority := item.priority, seed_doc_ids := item.seed_doc_ids,
                status := QStatus.pending, idempotency_key := idem }],
     st.2 + 1)

/-- Idempotent enqueue of all selected candidates, with the queued counter. -/
def enqueueSelected (bd sess : String) (q : List IntelQueueEntry)
    (items : List RankedCandidate) : List IntelQueueEntry × ℕ :=
  items.foldl (upsertCandidate bd sess) (q, 0)

/-- Embedding of the start-of-run failed reset (lines 986-1002): failed rows of
the business date (and of the session unless process_all_candidates) become
pending. -/
def failedResetEntry (bd sess : String) (process_all : Bool)
    (e : IntelQueueEntry) : IntelQueueEntry :=
  if e.business_date = bd ∧ e.status = QStatus.failed ∧
      (process_all = true ∨ e.session = sess) then
    { e with status := QStatus.pending }
  else e

/-- Failed reset over the whole queue table. -/
def failedReset (bd sess : String) (process_all : Bool)
    (q : List IntelQueueEntry) : List IntelQueueEntry :=
  q.map (failedResetEntry bd sess process_all)

/-- Pending rows of the run (lines 1004-1015), before the priority ordering. -/
def pendingFilter (bd sess : String) (process_all : Bool)
    (q : List IntelQueueEntry) : List IntelQueueEntry :=
  q.filter (fun e => decide (e.business_date = bd ∧ e.status = QStatus.pending ∧
    (process_all = true ∨ e.session = sess)))

/-- Dequeue order: priority descending, code ascending. -/
def qRowLeR (a b : IntelQueueEntry) : Prop :=
  b.priority < a.priority ∨ (a.priority = b.priority ∧ a.code ≤ b.code)

instance : DecidableRel qRowLeR := fun _ _ =>
  inferInstanceAs (Decidable (_ ∨ _))

/-- Embedding of the processing loop (lines 1020-1117) on the queue slice:
returns the status assignment per idempotency key and the done counter. -/
def processLoop (beh : RunBehaviour) : ℕ → List IntelQueueEntry →
    List (String × QStatus) × ℕ
  | _, [] => ([], 0)
  | idx, r :: rest =>
    if beh.pause idx then ([], 0)
    else
      match beh.outcome idx with
      | ProcOutcome.noSources =>
        let p := processLoop beh (idx + 1) rest
        ((r.idempotency_key, QStatus.skipped) :: p.1, p.2)
      | ProcOutcome.ok =>
        let p := processLoop beh (idx + 1) rest
        ((r.idempotency_key, QStatus.done) :: p.1, p.2 + 1)
      | ProcOutcome.persistFail =>
        let p := processLoop beh (idx + 1) rest
        ((r.idempotency_key, QStatus.failed) :: p.1, p.2)

/-- Write the loop status assignments back into the queue table. -/
def applyStatuses (assigns : List (String × QStatus))
    (q : List IntelQueueEntry) : List IntelQueueEntry :=
  q.map fun e =>
    match assigns.lookup e.idempotency_key with
    | some st => { e with status := st }
    | none => e

/-- Session cap selection (morning_cap for the morning session, else close_cap). -/
def sessionCapOf (cfg : DeepdiveConfig) (sess : String) : ℤ :=
  if sess = "morning" then cfg.morning_cap else cfg.close_cap

/-- Truncation by an optional bound (the ranked[:max_run] and pending[:max_run]
slices; a None bound keeps the whole list). -/
def optTake {α : Type} (n : Option ℕ) (l : List α) : List α :=
  match n with
  | none => l
  | some k => l.take k

/-- Main body of _intel_deepdive after the allowance gate. -/
def intelDeepdiveBody (cfg : DeepdiveConfig) (bd sess : String)
    (budget : IntelDailyBudget) (ranked : List RankedCandidate)
    (queue0 : List IntelQueueEntry) (beh : RunBehaviour)
    (max_run : Option ℤ) : DeepdiveResult :=
  let selected := optTake (max_run.map Int.toNat) ranked
  let enq := enqueueSelected bd sess queue0 selected
  let q2 := failedReset bd sess cfg.process_all_candidates enq.1
  let pending := (pendingFilter bd sess cfg.process_all_candidates q2).insertionSort qRowLeR
  let loop_rows := optTake (max_run.map Int.toNat) pending
  let proc := processLoop beh 0 loop_rows
  { budget := { done_count := budget.done_count + proc.2,
                morning_done := budget.morning_done +
                  (if sess = "morning" then (proc.2 : ℤ) else 0),
                close_done := budget.close_done +
                  (if sess = "morning" then 0 else (proc.2 : ℤ)) },
    queue := applyStatuses proc.1 q2,
    queued := enq.2,
    done := proc.2 }

/-- Embedding of FundIntelOrchestrator._intel_deepdive (lines 887-1125) on the
queue and budget state. -/
def intelDeepdive (cfg : DeepdiveConfig) (bd sess : String)
    (budget0 : Option IntelDailyBudget) (ranked : List RankedCandidate)
    (queue0 : List IntelQueueEntry) (beh : RunBehaviour) : DeepdiveResult :=
  let budget := budget0.getD ⟨0, 0, 0⟩
  if cfg.process_all_candidates = false ∧ 0 < cfg.daily_budget ∧
      0 < sessionCapOf cfg sess then
    let m := compute_session_allowance cfg.daily_budget (sessionCapOf cfg sess)
      budget.done_count
      (if sess = "morning" then budget.morning_done else budget.close_done)
    if m ≤ 0 then { budget := budget, queue := queue0, queued := 0, done := 0 }
    else intelDeepdiveBody cfg bd sess budget ranked queue0 beh (some m)
  else intelDeepdiveBody cfg bd sess budget ranked queue0 beh none

/-- Concrete skipped queue entry used in the counterexamples. -/
def entrySk : IntelQueueEntry :=
  { business_date := "2026-02-13", session := "close", code := "1001",
    priority := 0, seed_doc_ids := ∅, status := QStatus.skipped,
    idempotency_key := "2026-02-13:close:1001" }

/-- Concrete pending queue entry used in the counterexamples. -/
def entryPend : IntelQueueEntry :=
  { business_date := "2026-02-13", session := "close", code := "1001",
    priority := 0, seed_doc_ids := ∅, status := QStatus.pending,
    idempotency_key := "2026-02-13:close:1001" }

/-- Ranked candidate re-discovered with a fresh EDINET document id. -/
def candReseed : RankedCandidate :=
  { code := "1001", priority := 0, seed_doc_ids := {"S100TEST"} }

/-- Behaviour that pauses immediately (no candidate processed). -/
def behPauseNow : RunBehaviour :=
  { pause := fun _ => true, outcome := fun _ => ProcOutcome.ok }

/-- Behaviour that processes every candidate successfully. -/
def behAllOk : RunBehaviour :=
  { pause := fun _ => false, outcome := fun _ => ProcOutcome.ok }

/-- Catch-up configuration: process_all_candidates bypasses the budget gate. -/
def cfgUnlimited : DeepdiveConfig :=
  { process_all_candidates := true, daily_budget := 1, morning_cap := 4,
    close_cap := 4 }

/-- Budget-gated configuration. -/
def cfgGated : DeepdiveConfig :=
  { process_all_candidates := false, daily_budget := 2, morning_cap := 4,
    close_cap := 4 }

/-! ## intel/schema.py and intel/llm_client.py

The model output is a JSON value (JVal); evidence payload rows are the typed
dictionaries built by FundIntelOrchestrator._intel_deepdive (string or null
fields, string-list fields, possibly missing keys). The HTTP transport,
retry loop and json.loads library are the abstraction boundary: a behaviour
supplies, for the initial call and for the repair call, either an exception
message or the parse outcome (parse error or JSON value) of the extracted
content. Every decision made by the repository code after that point is
embedded. -/

/-- JSON values as produced by json.loads on the model output. An object is an
association list with distinct keys (Python dict). -/
inductive JVal where
  | jnull
  | jbool (b : Bool)
  | jnum (n : ℤ)
  | jstr (s : String)
  | jarr (items : List JVal)
  | jobj (fields : List (String × JVal))

/-- Python str.lower for the ASCII strings checked by the pipeline. -/
def pyLower (s : String) : String :=
  ⟨s.data.map Char.toLower⟩

/-- Python str.strip. -/
def pyStrip (s : String) : String :=
  ⟨stripChars s.data⟩

/-- Python str(value or "") for an optional string field (missing key or null
or empty string all give the empty string). -/
def optStr (v : Option String) : String :=
  v.getD ""

/-- Embedding of IntelLlmClient._clean_text. -/
def clean_text (value : String) (limit : ℕ) : String :=
  let text := normSpace value
  if text = "" then ""
  else if text.length ≤ limit then text
  else if limit ≤ 3 then ⟨text.data.take limit⟩
  else (⟨text.data.take (limit - 3)⟩ : String) ++ "..."

/-- Placeholder strings dropped by _normalize_text_list. -/
def normDropList : List String :=
  ["none", "n/a", "na", "null", "unknown", "not available"]

/-- Loop of IntelLlmClient._normalize_text_list: clean each item, drop empties
and placeholders, deduplicate, stop once the limit is reached. -/
def normTextGo (item_limit limit : ℕ) (out : List String) :
    List String → List String
  | [] => out
  | item :: rest =>
    let txt := clean_text item item_limit
    if txt = "" then normTextGo item_limit limit out rest
    else if pyLower txt ∈ normDropList then normTextGo item_limit limit out rest
    else
      let out2 := if txt ∈ out then out else out ++ [txt]
      if limit ≤ out2.length then out2 else normTextGo item_limit limit out2 rest

/-- Embedding of IntelLlmClient._normalize_text_list on a value that is a list
of strings when present (a non-list value yields the empty list). -/
def normalize_text_list (value : Option (List String)) (limit item_limit : ℕ) :
    List String :=
  match value with
  | none => []
  | some items => normTextGo item_limit limit [] items

/-- Error tokens of IntelLlmClient._is_substantive_text. -/
def substantiveErrorTokens : List String :=
  ["not found", "forbidden", "access denied", "invalid_api_key",
   "subscription-key", "wzek0130.aspx", "llm validation failed",
   "fallback summary applied"]

/-- Embedding of IntelLlmClient._is_substantive_text. -/
def is_substantive_text (value : String) : Bool :=
  let text := clean_text value 2000
  if text.length < 24 then false
  else ¬ substantiveErrorTokens.any (fun token => pySubstr token (pyLower text))

/-- Sentence-ending characters of IntelLlmClient._first_sentence. -/
def isSentenceEnd (c : Char) : Bool :=
  c = '。' || c = '！' || c = '？' || c = '!' || c = '?'

/-- Embedding of IntelLlmClient._first_sentence. -/
def first_sentence (value : String) (limit : ℕ) : String :=
  let raw := normSpace value
  if raw = "" then ""
  else
    match (raw.split isSentenceEnd).find?
        (fun piece => 12 ≤ (clean_text piece limit).length) with
    | some piece => clean_text piece limit
    | none => clean_text raw limit

/-- One evidence payload row, as built by the orchestrator from an IntelSource
(dict with possibly missing or null values). -/
structure SourceRow where
  source_url : Option String
  source_type : Option String
  headline : Option String
  published_at : Option String
  full_text : Option String
  snippet : Option String
  xbrl_facts : Option (List String)
  evidence_refs : Option (List String)
deriving DecidableEq

/-- Embedding of IntelLlmClient._has_substantive_full_text. -/
def has_substantive_full_text (sp : List SourceRow) : Bool :=
  sp.any (fun row => is_substantive_text (optStr row.full_text))

/-- Embedding of IntelLlmClient._has_xbrl_facts. -/
def has_xbrl_facts (sp : List SourceRow) : Bool :=
  sp.any (fun row =>
    match row.xbrl_facts with
    | some items => items.any (fun item => ¬ pyStrip item = "")
    | none => false)

/-- Inner loop of _build_deterministic_facts over one row's xbrl_facts; the
Bool flag signals the early return at the limit. -/
def factsXbrlItemsGo (limit : ℕ) (out : List String) :
    List String → List String × Bool
  | [] => (out, false)
  | item :: rest =>
    let txt := clean_text item 96
    if txt = "" then factsXbrlItemsGo limit out rest
    else
      let fact := "XBRL: " ++ txt
      let out2 := if fact ∈ out then out else out ++ [fact]
      if limit ≤ out2.length then (out2, true)
      else factsXbrlItemsGo limit out2 rest

/-- First pass of _build_deterministic_facts (XBRL facts of every row). -/
def factsXbrlRowsGo (limit : ℕ) (out : List String) :
    List SourceRow → List String × Bool
  | [] => (out, false)
  | row :: rest =>
    match row.xbrl_facts with
    | some items =>
      let r := factsXbrlItemsGo limit out items
      if r.2 then r else factsXbrlRowsGo limit r.1 rest
    | none => factsXbrlRowsGo limit out rest

/-- Second pass of _build_deterministic_facts (headline plus first substantive
sentence of full_text or snippet). -/
def factsTextRowsGo (limit : ℕ) (out : List String) :
    List SourceRow → List String
  | [] => out
  | row :: rest =>
    let headline := clean_text (optStr row.headline) 70
    let full_text := optStr row.full_text
    let snippet := optStr row.snippet
    let chosen :=
      if is_substantive_text full_text then first_sentence full_text 108
      else if is_substantive_text snippet then first_sentence snippet 108
      else ""
    if chosen = "" then factsTextRowsGo limit out rest
    else
      let fact := clean_text
        (if headline ≠ "" then headline ++ ": " ++ chosen else chosen) 120
      let out2 := if fact ≠ "" ∧ fact ∉ out then out ++ [fact] else out
      if limit ≤ out2.length then out2 else factsTextRowsGo limit out2 rest

/-- Embedding of IntelLlmClient._build_deterministic_facts. -/
def build_deterministic_facts (sp : List SourceRow) (limit : ℕ) : List String :=
  let r := factsXbrlRowsGo limit [] sp
  if r.2 then r.1 else factsTextRowsGo limit r.1 sp

/-- Accumulator of the _resolve_source_meta row loop. -/
structure MetaAcc where
  source_url : String
  source_type : String
  published_at : Option String
  headline : String
  evidence_refs : List String

/-- Inner evidence_refs loop of _resolve_source_meta (no cap inside a row). -/
def metaRefsGo (acc : List String) : List String → List String
  | [] => acc
  | ref :: rest =>
    let t := clean_text ref 240
    if t ≠ "" ∧ t ∉ acc then metaRefsGo (acc ++ [t]) rest
    else metaRefsGo acc rest

/-- Evidence-reference accumulation of one _resolve_source_meta row (the row
URL, then the row's own evidence_refs list; no cap applies inside a row). -/
def rowRefsStep (refs : List String) (row : SourceRow) : List String :=
  let row_url := clean_text (optStr row.source_url) 240
  let refs2 := if row_url ≠ "" ∧ row_url ∉ refs then refs ++ [row_url] else refs
  match row.evidence_refs with
  | some rr => metaRefsGo refs2 rr
  | none => refs2

/-- Row loop of IntelLlmClient._resolve_source_meta, with the early break once
five evidence references have been collected. -/
def resolveMetaGo (acc : MetaAcc) : List SourceRow → MetaAcc
  | [] => acc
  | row :: rest =>
    let row_url := clean_text (optStr row.source_url) 240
    let row_type := clean_text (optStr row.source_type) 40
    let row_headline := clean_text (optStr row.headline) 160
    let row_published := clean_text (optStr row.published_at) 40
    let acc2 : MetaAcc :=
      { source_url := if acc.source_url = "" ∧ row_url ≠ "" then row_url
          else acc.source_url,
        source_type := if acc.source_type = "" ∧ row_type ≠ "" then row_type
          else acc.source_type,
        published_at := if acc.published_at = none ∧ row_published ≠ "" then
            some row_published
          else acc.published_at,
        headline := if acc.headline = "" ∧ row_headline ≠ "" then row_headline
          else acc.headline,
        evidence_refs := rowRefsStep acc.evidence_refs row }
    if 5 ≤ (rowRefsStep acc.evidence_refs row).length then acc2
    else resolveMetaGo acc2 rest

/-- Resolved evidence metadata. -/
structure SourceMeta where
  source_url : String
  source_type : String
  published_at : Option String
  headline : String
  evidence_refs : List String

/-- Embedding of IntelLlmClient._resolve_source_meta. -/
def resolve_source_meta (sp : List SourceRow) : SourceMeta :=
  let acc := resolveMetaGo ⟨"", "", none, "", []⟩ sp
  let source_url := if acc.source_url = "" then "unknown" else acc.source_url
  let source_type := if acc.source_type = "" then "unknown" else acc.source_type
  let evidence_refs :=
    if acc.evidence_refs = [] ∧ source_url ≠ "unknown" then [source_url]
    else acc.evidence_refs
  { source_url := source_url, source_type := source_type,
    published_at := acc.published_at, headline := acc.headline,
    evidence_refs := evidence_refs.take 5 }

/-- Embedding of IntelLlmClient._build_deterministic_summary. -/
def build_deterministic_summary (code : String) (sp : List SourceRow)
    (meta : SourceMeta) (facts : List String) : String :=
  let headline := if meta.headline = "" then code ++ " 開示情報" else meta.headline
  if facts ≠ [] then
    clean_text (headline ++ "について確認。主な要点は " ++
      String.intercalate " / " (facts.take 2) ++ "。") 360
  else if has_substantive_full_text sp then
    clean_text (headline ++
      "について本文は取得済みですが、機械抽出で有効な要点が限定的でした。") 360
  else
    clean_text (headline ++
      "について開示は確認できましたが、本文の取得または抽出が不十分なため詳細分析は未完了です。") 360

/-- Payload dictionary produced by the chain (the eleven keys written by
_fallback and _merge_source_fields, in source order). -/
structure OutPayload where
  headline : String
  published_at : Option String
  source_url : String
  source_type : String
  summary : String
  facts : List String
  tags : List String
  risk_flags : List String
  critical_risk : Bool
  evidence_refs : List String
  data_gaps : List String

/-- Embedding of IntelLlmClient._fallback (payload part; the triple is built at
the call sites of the chain). -/
def fallbackPayload (code : String) (sp : List SourceRow)
    (reason : Option String) : OutPayload :=
  let meta := resolve_source_meta sp
  let facts := build_deterministic_facts sp 3
  let summary := build_deterministic_summary code sp meta facts
  let data_gaps :=
    (if ¬ has_substantive_full_text sp then ["報告書本文の取得または抽出が不十分"] else [])
    ++ (if ¬ has_xbrl_facts sp then ["XBRLの主要数値は未取得"] else [])
    ++ (match meta.published_at with
        | none => ["公開日時が未取得"]
        | some s => if s = "" then ["公開日時が未取得"] else [])
    ++ (match reason with
        | some r => if r ≠ "" then ["llm_error: " ++ clean_text r 140] else []
        | none => [])
    ++ (if facts = [] then ["本文から有効な要点を抽出できず"] else [])
  { headline := if meta.headline = "" then code ++ " 開示情報" else meta.headline,
    published_at := meta.published_at,
    source_url := meta.source_url,
    source_type := meta.source_type,
    summary := summary,
    facts := facts,
    tags := [],
    risk_flags := [],
    critical_risk := false,
    evidence_refs := meta.evidence_refs,
    data_gaps := normalize_text_list (some data_gaps) 4 140 }

/-- A model payload that passed validate_intel_payload, in typed form. -/
structure ValidatedIntel where
  headline : String
  published_at : Option String
  source_url : String
  source_type : String
  summary : Option String
  facts : List String
  tags : List String
  risk_flags : List String
  critical_risk : Bool
  evidence_refs : List String
  data_gaps : List String

/-- Evidence-reference merge loop of _merge_source_fields (capped at five). -/
def mergeRefsGo (acc : List String) : List String → List String
  | [] => acc
  | ref :: rest =>
    let acc2 := if ref ≠ "" ∧ ref ∉ acc then acc ++ [ref] else acc
    if 5 ≤ acc2.length then acc2 else mergeRefsGo acc2 rest

/-- Embedding of IntelLlmClient._merge_source_fields on a validated payload. -/
def merge_source_fields (code : String) (parsed : ValidatedIntel)
    (sp : List SourceRow) : OutPayload :=
  let meta := resolve_source_meta sp
  let facts0 := normalize_text_list (some parsed.facts) 3 120
  let facts := if facts0 = [] then build_deterministic_facts sp 3 else facts0
  let summary0 := clean_text (optStr parsed.summary) 360
  let summary := if summary0 = "" then
      build_deterministic_summary code sp meta facts
    else summary0
  let refs0 := normalize_text_list (some parsed.evidence_refs) 5 240
  let refs1 := mergeRefsGo refs0 meta.evidence_refs
  let evidence_refs := if refs1 = [] ∧ meta.source_url ≠ "unknown" then
      [meta.source_url]
    else refs1
  let gaps0 := normalize_text_list (some parsed.data_gaps) 4 140
  let gaps1 := if ¬ has_substantive_full_text sp ∧
      "報告書本文の取得または抽出が不十分" ∉ gaps0 then
      gaps0 ++ ["報告書本文の取得または抽出が不十分"]
    else gaps0
  let data_gaps := normalize_text_list (some gaps1) 4 140
  { headline :=
      (let h := clean_text parsed.headline 160
       if h ≠ "" then h
       else if meta.headline = "" then code ++ " 開示情報" else meta.headline),
    published_at := meta.published_at,
    source_url := meta.source_url,
    source_type := meta.source_type,
    summary := summary,
    facts := facts,
    tags := normalize_text_list (some parsed.tags) 8 40,
    risk_flags := normalize_text_list (some parsed.risk_flags) 8 40,
    critical_risk := parsed.critical_risk,
    evidence_refs := evidence_refs,
    data_gaps := data_gaps }

/-! Schema validation (intel/schema.py INTEL_ITEM_SCHEMA). -/

/-- First-match lookup in a JSON object (dict access). -/
def jlookup (fields : List (String × JVal)) (k : String) : Option JVal :=
  (fields.find? (fun p => p.1 == k)).map Prod.snd

/-- Array-of-strings check. -/
def isStrArr : JVal → Bool
  | JVal.jarr items => items.all (fun v =>
      match v with
      | JVal.jstr _ => true
      | _ => false)
  | _ => false

/-- Per-property schema check; unknown keys fail (additionalProperties false). -/
def propOk (k : String) (v : JVal) : Bool :=
  if k = "headline" then
    (match v with | JVal.jstr s => 1 ≤ s.length | _ => false)
  else if k = "published_at" then
    (match v with | JVal.jstr _ => true | JVal.jnull => true | _ => false)
  else if k = "source_url" then
    (match v with | JVal.jstr s => 1 ≤ s.length | _ => false)
  else if k = "source_type" then
    (match v with | JVal.jstr s => 1 ≤ s.length | _ => false)
  else if k = "summary" then
    (match v with | JVal.jstr _ => true | _ => false)
  else if k = "critical_risk" then
    (match v with | JVal.jbool _ => true | _ => false)
  else if k ∈ ["facts", "tags", "risk_flags", "evidence_refs", "data_gaps"] then
    isStrArr v
  else false

/-- The ten required field names of INTEL_ITEM_SCHEMA. -/
def requiredIntelFields : List String :=
  ["headline", "published_at", "source_url", "source_type", "facts", "tags",
   "risk_flags", "critical_risk", "evidence_refs", "data_gaps"]

/-- Embedding of validate_intel_payload (intel/schema.py): the payload must be
an object, every required field present, and every present key a schema
property of the right shape. -/
def validate_intel_payload (j : JVal) : Bool :=
  match j with
  | JVal.jobj fields =>
    requiredIntelFields.all (fun k => (jlookup fields k).isSome) &&
    fields.all (fun p =>
      match jlookup fields p.1 with
      | some v => propOk p.1 v
      | none => false)
  | _ => false

def asStr : JVal → Option String
  | JVal.jstr s => some s
  | _ => none

def asStrOrNull : JVal → Option (Option String)
  | JVal.jstr s => some (some s)
  | JVal.jnull => some none
  | _ => none

def asStrListGo : List JVal → Option (List String)
  | [] => some []
  | v :: rest =>
    match asStr v, asStrListGo rest with
    | some s, some l => some (s :: l)
    | _, _ => none

def asStrList : JVal → Option (List String)
  | JVal.jarr items => asStrListGo items
  | _ => none

def asBool : JVal → Option Bool
  | JVal.jbool b => some b
  | _ => none

/-- Typed extraction of a validated payload (defined exactly on objects whose
required fields have the schema types; the optional summary is read as a
string when present). -/
def toValidated (j : JVal) : Option ValidatedIntel :=
  match j with
  | JVal.jobj fields => do
    let h ← (jlookup fields "headline").bind asStr
    let pub ← (jlookup fields "published_at").bind asStrOrNull
    let su ← (jlookup fields "source_url").bind asStr
    let st ← (jlookup fields "source_type").bind asStr
    let summary := (jlookup fields "summary").bind asStr
    let facts ← (jlookup fields "facts").bind asStrList
    let tags ← (jlookup fields "tags").bind asStrList
    let rf ← (jlookup fields "risk_flags").bind asStrList
    let cr ← (jlookup fields "critical_risk").bind asBool
    let er ← (jlookup fields "evidence_refs").bind asStrList
    let dg ← (jlookup fields "data_gaps").bind asStrList
    pure ⟨h, pub, su, st, summary, facts, tags, rf, cr, er, dg⟩
  | _ => none

/-- Embedding of IntelLlmClient._parse_and_validate on a parse outcome (the
json.loads boundary); the jsonschema error text is abstracted to a fixed
non-empty message. The toValidated failure branch is provably unreachable
(see validate_implies_toValidated). -/
def parse_and_validate (p : Except String JVal) : Except String ValidatedIntel :=
  match p with
  | Except.error e => Except.error ("json_parse_error: " ++ e)
  | Except.ok j =>
    match j with
    | JVal.jobj fields =>
      if validate_intel_payload (JVal.jobj fields) then
        match toValidated (JVal.jobj fields) with
        | some v => Except.ok v
        | none => Except.error "intel payload failed schema validation"
      else Except.error "intel payload failed schema validation"
    | _ => Except.error "intel llm content not object"

/-- Behaviour of the model endpoint for one summarize call: for the initial
call and for the single repair attempt, either an exception message (transport
error, retry exhaustion, missing choices/content) or the json.loads outcome of
the extracted content. -/
structure LlmBehaviour where
  initial : Except String (Except String JVal)
  repair : Except String (Except String JVal)

/-- Embedding of IntelLlmClient.summarize_symbol_intel
(llm_client.py lines 49-205) over the endpoint behaviour. -/
def summarize_symbol_intel (code : String) (sp : List SourceRow)
    (beh : LlmBehaviour) : OutPayload × Bool × Option String :=
  match beh.initial with
  | Except.error e => (fallbackPayload code sp (some e), false, some e)
  | Except.ok parseOutcome =>
    match parse_and_validate parseOutcome with
    | Except.ok parsed => (merge_source_fields code parsed sp, true, none)
    | Except.error verr =>
      match beh.repair with
      | Except.error _ => (fallbackPayload code sp (some verr), false, some verr)
      | Except.ok rOutcome =>
        match parse_and_validate rOutcome with
        | Except.ok repaired => (merge_source_fields code repaired sp, true, none)
        | Except.error _ =>
          (fallbackPayload code sp (some verr), false, some verr)

/-- JSON form of an output payload (the dict literal written by the source,
keys in source order). -/
def outToJVal (p : OutPayload) : JVal :=
  JVal.jobj
    [("headline", JVal.jstr p.headline),
     ("published_at", match p.published_at with
       | some s => JVal.jstr s
       | none => JVal.jnull),
     ("source_url", JVal.jstr p.source_url),
     ("source_type", JVal.jstr p.source_type),
     ("summary", JVal.jstr p.summary),
     ("facts", JVal.jarr (p.facts.map JVal.jstr)),
     ("tags", JVal.jarr (p.tags.map JVal.jstr)),
     ("risk_flags", JVal.jarr (p.risk_flags.map JVal.jstr)),
     ("critical_risk", JVal.jbool p.critical_risk),
     ("evidence_refs", JVal.jarr (p.evidence_refs.map JVal.jstr)),
     ("data_gaps", JVal.jarr (p.data_gaps.map JVal.jstr))]

/-! Traceability of source fields (C2). -/

/-- First non-empty string of a list (analysis device for characterizing the
first-provided field resolution). -/
def firstNonempty : List String → Option String
  | [] => none
  | s :: rest => if s ≠ "" then some s else firstNonempty rest

/-- Prefix of the evidence rows actually examined by the _resolve_source_meta
loop before its five-reference break (analysis device). -/
def processedRowsGo (refs : List String) : List SourceRow → List SourceRow
  | [] => []
  | row :: rest =>
    if 5 ≤ (rowRefsStep refs row).length then [row]
    else row :: processedRowsGo (rowRefsStep refs row) rest

/-- Rows scanned by resolve_source_meta. -/
def processedRows (sp : List SourceRow) : List SourceRow :=
  processedRowsGo [] sp

/-! ## Evidence extractor file-type variant selection (intel/search.py, C3)

The HTTP download, the zipfile/decoding text extraction and the XBRL parse of
raw payload bytes are I/O and binary-format boundaries; they enter the model
as explicit behaviour oracles per payload. Every decision of
DefaultIntelSearchBackend.fetch between those calls is embedded. -/

/-- Byte strings as lists of byte values. -/
abbrev Bytes := List ℕ

/-- b"%PDF-". -/
def pdfMagic : Bytes := [37, 80, 68, 70, 45]

/-- b"PK". -/
def pkMagic : Bytes := [80, 75]

/-- Embedding of _is_expected_edinet_payload. -/
def is_expected_edinet_payload (payload : Bytes) (file_type : ℤ) : Bool :=
  if payload = [] then false
  else if file_type = 2 then pdfMagic.isPrefixOf payload
  else if file_type = 1 ∨ file_type = 3 ∨ file_type = 4 ∨ file_type = 5 then
    pkMagic.isPrefixOf payload
  else true

/-- Python str.startswith. -/
def pyStartsWith (pre s : String) : Bool :=
  pre.data.isPrefixOf s.data

/-- Tokens of the plain-text branch of _looks_like_error_snippet. -/
def errSnippetTokens : List String :=
  ["403 forbidden", "404 not found", "access denied"]

/-- Tokens of the html branch of _looks_like_error_snippet. -/
def errSnippetHtmlTokens : List String :=
  ["forbidden", "not found", "access denied", "service unavailable",
   "invalid_api_key", "invalid api key", "subscription-key", "error"]

/-- Embedding of _looks_like_error_snippet. -/
def looks_like_error_snippet (text : String) : Bool :=
  let t := pyLower (pyStrip text)
  if t = "" then true
  else if pySubstr "wzek0130.aspx" t then true
  else if errSnippetTokens.any (fun token => pySubstr token t) then true
  else if pySubstr "invalid_api_key" t || pySubstr "invalid api key" t then true
  else if pySubstr "subscription-key" t && pySubstr "required" t then true
  else if pyStartsWith "<?xml" t && pySubstr "<error" t then true
  else if pySubstr "<html" t &&
      errSnippetHtmlTokens.any (fun token => pySubstr token t) then true
  else false

/-- Count of control characters other than newline, carriage return and tab
(the generator expression of _has_substantive_snippet). -/
def ctrlCount (s : String) : ℕ :=
  (s.data.filter
    (fun ch => decide (ch.toNat < 32 ∧ ch ≠ '\n' ∧ ch ≠ '\r' ∧ ch ≠ '\t'))).length

/-- Embedding of _has_substantive_snippet. -/
def has_substantive_snippet (snippet headline : String) : Bool :=
  let s := pyStrip snippet
  let h := pyStrip headline
  if s = "" then false
  else if looks_like_error_snippet s then false
  else if pySubstr "\x00" s then false
  else if pyStartsWith "%PDF-" s then false
  else if 0 < ctrlCount s then false
  else if h = "" then decide (24 ≤ s.length)
  else if s = h then false
  else if pyStartsWith h s ∧ s.length ≤ h.length + 8 then false
  else decide (24 ≤ s.length)

/-- Embedding of _safe_text: collapse whitespace, strip, cut to limit. -/
def safe_text (raw : String) (limit : ℕ) : String :=
  ⟨(normSpace raw).data.take limit⟩

/-- Behaviour of the per-document I/O boundary: the bytes returned by
EdinetClient.download_document for each file type (none models a raised
exception), and the outcomes of extract_edinet_full_text (at the configured
headline fallback and limit) and extract_xbrl_key_facts on a payload — both
wrap zipfile/decoding machinery on raw bytes and are abstracted as oracles of
the payload. -/
structure FetchBehaviour where
  download : ℤ → Option Bytes
  extractFull : Bytes → String
  extractXbrl : Bytes → List String

/-- The per-variant loop of DefaultIntelSearchBackend.fetch: try the file
types in order; skip variants whose download raises, is empty, or fails the
binary-signature check; accept the first variant whose snippet is substantive
or whose XBRL fact list is non-empty, returning its file type, snippet, full
text and facts. -/
def tryFileTypes (beh : FetchBehaviour) (hl : String) :
    List ℤ → Option (ℤ × String × String × List String)
  | [] => none
  | ft :: rest =>
    match beh.download ft with
    | none => tryFileTypes beh hl rest
    | some payload =>
      if payload = [] then tryFileTypes beh hl rest
      else if is_expected_edinet_payload payload ft = false then
        tryFileTypes beh hl rest
      else if has_substantive_snippet (safe_text (beh.extractFull payload) 600)
            hl = false ∧ beh.extractXbrl payload = [] then
        tryFileTypes beh hl rest
      else some (ft, safe_text (beh.extractFull payload) 600,
        beh.extractFull payload, beh.extractXbrl payload)

/-- Acceptance test for a single file-type variant (analysis device). -/
def acceptsVariant (beh : FetchBehaviour) (hl : String) (ft : ℤ) : Bool :=
  match beh.download ft with
  | none => false
  | some payload =>
    if payload = [] then false
    else if is_expected_edinet_payload payload ft = false then false
    else if has_substantive_snippet (safe_text (beh.extractFull payload) 600) hl
          = false ∧ beh.extractXbrl payload = [] then false
    else true

/-- Extraction results of an accepted variant (analysis device). -/
def variantResult (beh : FetchBehaviour) (ft : ℤ) :
    String × String × List String :=
  match beh.download ft with
  | some payload =>
    (safe_text (beh.extractFull payload) 600, beh.extractFull payload,
      beh.extractXbrl payload)
  | none => ("", "", [])

/-- Python a or b on optional strings (empty string is falsy). -/
def pyOr (a b : Option String) : Option String :=
  match a with
  | some s => if s ≠ "" then some s else b
  | none => b

/-- Python truthiness filter on an optional string. -/
def truthyOpt (v : Option String) : Option String :=
  match v with
  | some s => if s = "" then none else some s
  | none => none

/-- Python a or default for an optional string against a string default. -/
def orStr (a : Option String) (b : String) : String :=
  match a with
  | some s => if s ≠ "" then s else b
  | none => b

/-- One EDINET document row of the seed (dict with possibly missing keys). -/
structure EdinetDoc where
  docID : Option String
  docDescription : Option String
  docTypeCode : Option String
  submitDateTime : Option String
  submitDate : Option String

/-- headline = str(doc.get(docDescription) or doc.get(docTypeCode)
or "EDINET filing"). -/
def docHeadline (doc : EdinetDoc) : String :=
  orStr doc.docDescription (orStr doc.docTypeCode "EDINET filing")

/-- Decimal digits of a natural number (fuel-driven). -/
def natToChars : ℕ → ℕ → List Char
  | 0, _ => []
  | fuel + 1, n =>
    if n < 10 then [Char.ofNat (48 + n)]
    else natToChars fuel (n / 10) ++ [Char.ofNat (48 + n % 10)]

/-- Decimal rendering of an integer (f-string interpolation of an int). -/
def intToStr (i : ℤ) : String :=
  if i < 0 then "-" ++ (⟨natToChars (i.natAbs + 1) i.natAbs⟩ : String)
  else ⟨natToChars (i.natAbs + 1) i.natAbs⟩

/-- The document URL f-string of fetch. -/
def buildDocUrl (base doc_id : String) (ft : ℤ) : String :=
  base ++ "/api/v2/documents/" ++ doc_id ++ "?type=" ++ intToStr ft

/-- File-type list normalization of the DefaultIntelSearchBackend constructor:
default order 5,1,2 when unset or empty, keep positive entries, fall back to
type 5 when nothing positive remains. -/
def mk_edinet_file_types (raw : Option (List ℤ)) : List ℤ :=
  let base := match raw with
    | none => [5, 1, 2]
    | some l => if l = [] then [5, 1, 2] else l
  let fts := base.filter (fun x => 0 < x)
  if fts = [] then [5] else fts

/-- The IntelSource dataclass of search.py. -/
structure IntelSrc where
  code : String
  source_url : String
  source_type : String
  headline : String
  published_at : Option String
  snippet : String
  evidence_refs : List String
  xbrl_facts : List String
  full_text : String

/-- Per-document body of DefaultIntelSearchBackend.fetch (after the doc-id and
whitelist guards): run the variant loop, then build the IntelSource, falling
back to headline metadata when no variant was accepted; the constructor
guarantees a non-empty file-type list, so the headD default 5 (the
constructor's own fallback type) is never consulted there. -/
def fetch_doc (beh : FetchBehaviour) (base : String) (doc : EdinetDoc)
    (fts : List ℤ) (full_limit : ℕ) (code : String) : IntelSrc :=
  match tryFileTypes beh (docHeadline doc) fts with
  | some (ft, snip, full, xbrl) =>
    { code := code,
      source_url := buildDocUrl base (pyStrip (optStr doc.docID)) ft,
      source_type := "edinet", headline := docHeadline doc,
      published_at := truthyOpt (pyOr doc.submitDateTime doc.submitDate),
      snippet := if xbrl ≠ [] then
          safe_text (snip ++ " XBRL key facts: " ++
            String.intercalate " / " xbrl) 700
        else snip,
      evidence_refs := [buildDocUrl base (pyStrip (optStr doc.docID)) ft],
      xbrl_facts := xbrl, full_text := full }
  | none =>
    { code := code,
      source_url := buildDocUrl base (pyStrip (optStr doc.docID)) (fts.headD 5),
      source_type := "edinet", headline := docHeadline doc,
      published_at := truthyOpt (pyOr doc.submitDateTime doc.submitDate),
      snippet := safe_text (docHeadline doc) 600,
      evidence_refs :=
        [buildDocUrl base (pyStrip (optStr doc.docID)) (fts.headD 5)],
      xbrl_facts := [], full_text := safe_text (docHeadline doc) full_limit }

/-- C3 counterexample ingredients: a type-2 PDF payload whose decoded text
keeps the PDF header. -/
def cexPdfBytes : Bytes := [37, 80, 68, 70, 45, 49, 46, 55]

/-- Decoded text of the counterexample payload. -/
def cexFull : String := "%PDF-1.7 1 0 obj annual securities report text"

/-- Counterexample behaviour: only file type 2 downloads, its extracted text
is the raw PDF text, and no XBRL facts are found. -/
def cexBeh : FetchBehaviour :=
  { download := fun ft => if ft = 2 then some cexPdfBytes else none,
    extractFull := fun _ => cexFull,
    extractXbrl := fun _ => [] }

/-- Witness payloads: a PDF-magic payload served for file type 5 and a
ZIP-magic payload for file type 1. -/
def wPdfBytes : Bytes := [37, 80, 68, 70, 45, 49]

/-- ZIP local-file-header magic payload of the witness. -/
def wZipBytes : Bytes := [80, 75, 3, 4]

/-- Substantive text extracted from the witness ZIP payload. -/
def wText : String :=
  "Quarterly securities report with consolidated financial statements"

/-- Witness behaviour: the primary file type 5 returns a payload with the
wrong binary signature, file type 1 returns a valid ZIP with readable text,
other types raise. -/
def wBeh : FetchBehaviour :=
  { download := fun ft =>
      if ft = 5 then some wPdfBytes
      else if ft = 1 then some wZipBytes
      else none,
    extractFull := fun p => if p = wZipBytes then wText else "",
    extractXbrl := fun _ => [] }

/-- Witness document row. -/
def wDoc : EdinetDoc :=
  { docID := some "S100TEST", docDescription := some "Quarterly report",
    docTypeCode := none, submitDateTime := some "2026-01-15 09:00",
    submitDate := none }

/-! ## XBRL key-fact extraction (intel/edinet_xbrl.py, C9)

The zipfile buffer iteration and ET.fromstring XML parse are I/O and parser
boundaries: the model receives the per-buffer parse outcomes directly (none
models a parse error, whose buffer is skipped). Elements are modeled as
trees of tag, attributes, text and children. Python floats are ℚ and
datetime.date is a year-month-day triple with the proleptic Gregorian
ordinal; date.fromisoformat is modeled on its dashed calendar-date form, the
only form EDINET instant/endDate/startDate values take. Decimal values are
sign-mantissa-exponent triples parsed by the finite-number grammar of the
Decimal constructor. -/

/-- An XML element: tag, attributes, text, children. -/
inductive XmlElem where
  | mk (tag : String) (attrib : List (String × String)) (text : Option String)
      (children : List XmlElem)

/-- Tag of an element. -/
def XmlElem.tag : XmlElem → String
  | .mk t _ _ _ => t

/-- Attribute list of an element. -/
def XmlElem.attrib : XmlElem → List (String × String)
  | .mk _ a _ _ => a

/-- Text of an element. -/
def XmlElem.text : XmlElem → Option String
  | .mk _ _ x _ => x

/-- Children of an element. -/
def XmlElem.children : XmlElem → List XmlElem
  | .mk _ _ _ cs => cs

mutual
/-- root.iter(): the element followed by all its descendants, in document
order. -/
def descElems : XmlElem → List XmlElem
  | .mk t a x cs => .mk t a x cs :: descList cs

/-- All elements of a forest in document order. -/
def descList : List XmlElem → List XmlElem
  | [] => []
  | e :: rest => descElems e ++ descList rest
end

/-- elem.attrib.get(k). -/
def attrGet (e : XmlElem) (k : String) : Option String :=
  (e.attrib.find? (fun p => p.1 == k)).map Prod.snd

/-- elem.find(tag): first direct child with the tag. -/
def findChild (e : XmlElem) (t : String) : Option XmlElem :=
  e.children.find? (fun c => c.tag == t)

/-- root.findall(".//tag"): all proper descendants with the tag. -/
def findallDesc (root : XmlElem) (t : String) : List XmlElem :=
  (descList root.children).filter (fun e => e.tag == t)

/-- Python dict assignment d[k] = v on an association list with unique keys
(every dict here is built from empty by this operation). -/
def pyDictSet {α : Type} : List (String × α) → String → α → List (String × α)
  | [], k, v => [(k, v)]
  | p :: rest, k, v =>
    if p.1 = k then (k, v) :: rest else p :: pyDictSet rest k v

/-- Python dict lookup d.get(k) on an association list. -/
def pyDictGet {α : Type} (l : List (String × α)) (k : String) : Option α :=
  (l.find? (fun p => p.1 == k)).map Prod.snd

/-- XBRLI_NS. -/
def XBRLI_NS : String := "http://www.xbrl.org/2003/instance"

/-- The f-string building a namespaced tag. -/
def nsTag (localPart : String) : String :=
  "\x7b" ++ XBRLI_NS ++ "\x7d" ++ localPart

/-- CONTEXT_TAG. -/
def CONTEXT_TAG : String := nsTag "context"

/-- PERIOD_TAG. -/
def PERIOD_TAG : String := nsTag "period"

/-- INSTANT_TAG. -/
def INSTANT_TAG : String := nsTag "instant"

/-- END_DATE_TAG. -/
def END_DATE_TAG : String := nsTag "endDate"

/-- START_DATE_TAG. -/
def START_DATE_TAG : String := nsTag "startDate"

/-- The ConceptRule dataclass. -/
structure ConceptRule where
  key : String
  label : String
  prefixes : List String
deriving DecidableEq

/-- The RULES table. -/
def RULES : List ConceptRule :=
  [⟨"net_sales", "売上高", ["NetSales", "Revenue", "Sales"]⟩,
   ⟨"operating_income", "営業利益", ["OperatingIncome", "OperatingProfit"]⟩,
   ⟨"ordinary_income", "経常利益", ["OrdinaryIncome"]⟩,
   ⟨"profit", "当期純利益",
     ["ProfitLossAttributableToOwnersOfParent", "ProfitLoss", "NetIncome"]⟩,
   ⟨"total_assets", "総資産", ["Assets"]⟩,
   ⟨"equity", "自己資本", ["Equity", "NetAssets"]⟩,
   ⟨"eps", "EPS", ["BasicEarningsPerShare", "EarningsPerShare"]⟩]

/-- RULE_ORDER. -/
def RULE_ORDER : List String := RULES.map (fun r => r.key)

/-- A proleptic Gregorian calendar date. -/
structure PyDate where
  year : ℕ
  month : ℕ
  day : ℕ
deriving DecidableEq

/-- Gregorian leap-year test. -/
def isLeapYear (y : ℕ) : Bool :=
  y % 4 = 0 && (y % 100 ≠ 0 || y % 400 = 0)

/-- Days in a month. -/
def monthDays (y m : ℕ) : ℕ :=
  if m = 2 then (if isLeapYear y then 29 else 28)
  else if m = 4 ∨ m = 6 ∨ m = 9 ∨ m = 11 then 30
  else 31

/-- Days in the year before the first of the month. -/
def daysBeforeMonth (y m : ℕ) : ℕ :=
  (List.range (m - 1)).foldl (fun acc i => acc + monthDays y (i + 1)) 0

/-- date.toordinal(): day number with 0001-01-01 as day one. -/
def toordinal (d : PyDate) : ℤ :=
  365 * ((d.year : ℤ) - 1) + ((d.year : ℤ) - 1) / 4 -
    ((d.year : ℤ) - 1) / 100 + ((d.year : ℤ) - 1) / 400 +
    daysBeforeMonth d.year d.month + d.day

/-- ASCII digit test. -/
def pyIsDigit (c : Char) : Bool :=
  decide ('0' ≤ c ∧ c ≤ '9')

/-- Value of a digit string. -/
def digitsToNat (l : List Char) : ℕ :=
  l.foldl (fun n c => 10 * n + (c.toNat - 48)) 0

/-- date.fromisoformat on the first ten characters, dashed calendar form. -/
def parseIsoChars : List Char → Option PyDate
  | [y1, y2, y3, y4, h1, m1, m2, h2, d1, d2] =>
    if ([y1, y2, y3, y4, m1, m2, d1, d2].all pyIsDigit ∧ h1 = '-' ∧ h2 = '-')
    then
      let y := digitsToNat [y1, y2, y3, y4]
      let m := digitsToNat [m1, m2]
      let dd := digitsToNat [d1, d2]
      if 1 ≤ y ∧ 1 ≤ m ∧ m ≤ 12 ∧ 1 ≤ dd ∧ dd ≤ monthDays y m then
        some ⟨y, m, dd⟩
      else none
    else none
  | _ => none

/-- Embedding of _try_parse_date. -/
def try_parse_date (value : Option String) : Option PyDate :=
  let text := pyStrip (optStr value)
  if text.length < 10 then none
  else parseIsoChars (text.data.take 10)

/-- date.isoformat(). -/
def padLeftZeros (len : ℕ) (l : List Char) : List Char :=
  List.replicate (len - l.length) '0' ++ l

/-- ISO rendering of a date. -/
def PyDate.iso (d : PyDate) : String :=
  (⟨padLeftZeros 4 (natToChars (d.year + 1) d.year)⟩ : String) ++ "-" ++
    (⟨padLeftZeros 2 (natToChars (d.month + 1) d.month)⟩ : String) ++ "-" ++
    (⟨padLeftZeros 2 (natToChars (d.day + 1) d.day)⟩ : String)

/-- A finite Decimal: sign, coefficient, exponent
(value = (-1)^neg * mant * 10^exp). -/
structure Dec where
  neg : Bool
  mant : ℕ
  exp : ℤ
deriving DecidableEq

/-- Leading sign of a Decimal literal. -/
def splitSign : List Char → Bool × List Char
  | '-' :: rest => (true, rest)
  | '+' :: rest => (false, rest)
  | l => (false, l)

/-- Tail of a Decimal literal after the mantissa: empty or an exponent part. -/
def decFinish (neg : Bool) (ip fp : List Char) : List Char → Option Dec
  | [] =>
    if ip = [] ∧ fp = [] then none
    else some ⟨neg, digitsToNat (ip ++ fp), -(fp.length : ℤ)⟩
  | e :: r =>
    if ip = [] ∧ fp = [] then none
    else if e = 'e' ∨ e = 'E' then
      let se := splitSign r
      let ed := se.2.takeWhile pyIsDigit
      if ed = [] ∨ se.2.dropWhile pyIsDigit ≠ [] then none
      else
        some ⟨neg, digitsToNat (ip ++ fp),
          (if se.1 then -(digitsToNat ed : ℤ) else (digitsToNat ed : ℤ)) -
            (fp.length : ℤ)⟩
    else none

/-- Decimal(text) on the finite-number grammar. -/
def decOfChars (l : List Char) : Option Dec :=
  let sn := splitSign l
  let ip := sn.2.takeWhile pyIsDigit
  let r2 := sn.2.dropWhile pyIsDigit
  match r2 with
  | '.' :: r3 =>
    decFinish sn.1 ip (r3.takeWhile pyIsDigit) (r3.dropWhile pyIsDigit)
  | _ => decFinish sn.1 ip [] r2

/-- text.replace(",", ""). -/
def stripCommas (s : String) : String :=
  ⟨s.data.filter (fun c => c ≠ ',')⟩

/-- Embedding of _parse_decimal. -/
def parse_decimal (text : String) : Option Dec :=
  let cleaned := pyStrip (stripCommas text)
  if cleaned = "" then none
  else decOfChars cleaned.data

/-- value == value.to_integral_value(). -/
def decIsIntegral (d : Dec) : Bool :=
  if 0 ≤ d.exp then true
  else decide (d.mant % 10 ^ (-d.exp).toNat = 0)

/-- int(value), truncation toward zero. -/
def decToInt (d : Dec) : ℤ :=
  let mag : ℤ :=
    if 0 ≤ d.exp then (d.mant : ℤ) * 10 ^ d.exp.toNat
    else ((d.mant / 10 ^ (-d.exp).toNat : ℕ) : ℤ)
  if d.neg then -mag else mag

/-- Thousands grouping over reversed digit characters. -/
def groupGo : List Char → ℕ → List Char
  | [], _ => []
  | c :: rest, cnt =>
    if cnt = 3 then ',' :: c :: groupGo rest 1
    else c :: groupGo rest (cnt + 1)

/-- f-string rendering with thousands separators of an int. -/
def intWithCommas (i : ℤ) : String :=
  let ds := natToChars (i.natAbs + 1) i.natAbs
  if i < 0 then "-" ++ (⟨(groupGo ds.reverse 0).reverse⟩ : String)
  else ⟨(groupGo ds.reverse 0).reverse⟩

/-- Decimal.normalize on the coefficient: drop trailing zeros. -/
def stripZeroGo : ℕ → ℕ → ℤ → ℕ × ℤ
  | 0, m, e => (m, e)
  | fuel + 1, m, e =>
    if m ≠ 0 ∧ m % 10 = 0 then stripZeroGo fuel (m / 10) (e + 1) else (m, e)

/-- Decimal.normalize of a finite Decimal. -/
def decNormalize (d : Dec) : Dec :=
  let me := stripZeroGo d.mant d.mant d.exp
  ⟨d.neg, me.1, me.2⟩

/-- format(value, "f"): fixed-point rendering. -/
def decFixedRender (d : Dec) : String :=
  let ds := natToChars (d.mant + 1) d.mant
  let body : List Char :=
    if 0 ≤ d.exp then ds ++ List.replicate d.exp.toNat '0'
    else
      let k := (-d.exp).toNat
      if ds.length ≤ k then
        '0' :: '.' :: (List.replicate (k - ds.length) '0' ++ ds)
      else ds.take (ds.length - k) ++ '.' :: ds.drop (ds.length - k)
  if d.neg then "-" ++ (⟨body⟩ : String) else ⟨body⟩

/-- txt.rstrip(chars) for a single-character set. -/
def pyRstripChar (s : String) (c : Char) : String :=
  ⟨(s.data.reverse.dropWhile (fun x => x = c)).reverse⟩

/-- Embedding of _format_decimal. -/
def format_decimal (d : Dec) : String :=
  if decIsIntegral d then intWithCommas (decToInt d)
  else
    let txt := decFixedRender (decNormalize d)
    if pySubstr "." txt then pyRstripChar (pyRstripChar txt '0') '.'
    else txt

/-- Embedding of _local_name. -/
def afterBrace : List Char → List Char
  | [] => []
  | c :: rest => if c = '\x7d' then rest else afterBrace rest

/-- tag.split(brace, 1)[1] when a closing brace occurs. -/
def local_name (tag : String) : String :=
  if pySubstr "\x7d" tag then ⟨afterBrace tag.data⟩ else tag

/-- Embedding of _match_rule. -/
def match_rule (localPart : String) : Option ConceptRule :=
  RULES.find? (fun rule =>
    rule.prefixes.any (fun p => localPart == p || pyStartsWith p localPart))

/-- Embedding of _context_score (float arithmetic as exact rationals). -/
def context_score (context_ref : String) (asof : Option PyDate) : ℚ :=
  let key := pyLower context_ref
  let s1 : ℚ :=
    if pySubstr "currentyear" key then 40
    else if pySubstr "currentquarter" key then 35
    else if pySubstr "current" key then 20
    else 0
  let s2 : ℚ := if pySubstr "duration" key then s1 + 8 else s1
  let s3 : ℚ := if pySubstr "instant" key then s2 + 8 else s2
  let s4 : ℚ := if pySubstr "prior" key then s3 - 20 else s3
  match asof with
  | some d => s4 + 5 + (toordinal d : ℚ) / 1000000
  | none => s4

/-- Date resolution of one context element (the loop body of
_collect_context_dates): instant child first, else endDate, else
startDate. -/
def ctxResolvedDate (ctx : XmlElem) : Option PyDate :=
  match findChild ctx PERIOD_TAG with
  | none => none
  | some period =>
    match findChild period INSTANT_TAG with
    | some instant => try_parse_date instant.text
    | none =>
      match findChild period END_DATE_TAG with
      | some endd => try_parse_date endd.text
      | none =>
        match findChild period START_DATE_TAG with
        | some startd => try_parse_date startd.text
        | none => try_parse_date none

/-- Stripped id attribute of a context element. -/
def ctxIdOf (ctx : XmlElem) : String :=
  pyStrip (optStr (attrGet ctx "id"))

/-- One iteration of the _collect_context_dates loop. -/
def ctxStep (out : List (String × Option PyDate)) (ctx : XmlElem) :
    List (String × Option PyDate) :=
  if ctxIdOf ctx = "" then out
  else pyDictSet out (ctxIdOf ctx) (ctxResolvedDate ctx)

/-- Embedding of _collect_context_dates. -/
def collect_context_dates (root : XmlElem) : List (String × Option PyDate) :=
  (findallDesc root CONTEXT_TAG).foldl ctxStep []

/-- The CandidateValue dataclass. -/
structure Cand where
  key : String
  label : String
  value : Dec
  asof : Option PyDate
  score : ℚ
deriving DecidableEq

/-- The candidate built from one element of root.iter() (the guarded loop
body of _parse_instance_root). -/
def elemCandidate (ctx_dates : List (String × Option PyDate))
    (elem : XmlElem) : Option Cand :=
  match match_rule (local_name elem.tag) with
  | none => none
  | some rule =>
    if pyStrip (optStr (attrGet elem "contextRef")) = "" then none
    else
      match elem.text with
      | none => none
      | some txt =>
        match parse_decimal txt with
        | none => none
        | some value =>
          some ⟨rule.key, rule.label, value,
            (match pyDictGet ctx_dates
                (pyStrip (optStr (attrGet elem "contextRef"))) with
             | some v => v
             | none => none),
            context_score (pyStrip (optStr (attrGet elem "contextRef")))
              (match pyDictGet ctx_dates
                  (pyStrip (optStr (attrGet elem "contextRef"))) with
               | some v => v
               | none => none)⟩

/-- best-dict update: keep the strictly higher score. -/
def bestIns (best : List (String × Cand)) (cand : Cand) :
    List (String × Cand) :=
  match pyDictGet best cand.key with
  | none => pyDictSet best cand.key cand
  | some prev =>
    if prev.score < cand.score then pyDictSet best cand.key cand else best

/-- Embedding of _parse_instance_root. -/
def parse_instance_root (root : XmlElem) : List (String × Cand) :=
  (descElems root).foldl
    (fun best elem =>
      match elemCandidate (collect_context_dates root) elem with
      | none => best
      | some cand => bestIns best cand)
    []

/-- The per-buffer merge loop of extract_xbrl_key_facts. -/
def mergeBest (merged : List (String × Cand)) (part : List (String × Cand)) :
    List (String × Cand) :=
  part.foldl
    (fun m kc =>
      match pyDictGet m kc.1 with
      | none => pyDictSet m kc.1 kc.2
      | some prev =>
        if prev.score < kc.2.score then pyDictSet m kc.1 kc.2 else m)
    merged

/-- Processing of one buffer parse outcome: skip parse errors, merge the
best candidates of a parsed root. -/
def extractStep (merged : List (String × Cand)) (r : Option XmlElem) :
    List (String × Cand) :=
  match r with
  | none => merged
  | some root => mergeBest merged (parse_instance_root root)

/-- The merged best-candidate dict across all parsed buffers. -/
def extract_merged (roots : List (Option XmlElem)) : List (String × Cand) :=
  roots.foldl extractStep []

/-- Output line for one kept candidate. -/
def fmtLine (cand : Cand) : String :=
  match cand.asof with
  | some d =>
    cand.label ++ "=" ++ format_decimal cand.value ++ " (" ++ d.iso ++ ")"
  | none => cand.label ++ "=" ++ format_decimal cand.value

/-- Output loop of extract_xbrl_key_facts over RULE_ORDER with the limit
break. -/
def factsOutGo (merged : List (String × Cand)) (limit : ℕ)
    (out : List String) : List String → List String
  | [] => out
  | key :: rest =>
    match pyDictGet merged key with
    | none => factsOutGo merged limit out rest
    | some cand =>
      if limit ≤ (out ++ [fmtLine cand]).length then out ++ [fmtLine cand]
      else factsOutGo merged limit (out ++ [fmtLine cand]) rest

/-- Embedding of extract_xbrl_key_facts over the parse outcomes of the
buffers. -/
def extract_xbrl_key_facts (roots : List (Option XmlElem)) (limit : ℕ) :
    List String :=
  factsOutGo (extract_merged roots) limit [] RULE_ORDER

/-- Candidates produced while scanning one root (analysis device). -/
def candidatesOf (root : XmlElem) : List Cand :=
  (descElems root).filterMap (elemCandidate (collect_context_dates root))

/-- Candidates across all parsed buffers (analysis device). -/
def allCandidates (roots : List (Option XmlElem)) : List Cand :=
  roots.foldr
    (fun r acc =>
      match r with
      | none => acc
      | some root => candidatesOf root ++ acc)
    []

/-- C9 counterexample input: an EPS concept fact with a non-integral value
and no context declaration. -/
def cexEpsElem : XmlElem :=
  .mk "\x7bhttp://example\x7dBasicEarningsPerShareSummaryOfBusinessResults"
    [("contextRef", "CurrentYearDuration")] (some "12.5") []

/-- C9 counterexample instance root. -/
def cexXbrlRoot : XmlElem :=
  .mk "xbrl" [] none [cexEpsElem]

/-- Witness context: close_date context with an endDate period child. -/
def wCtx : XmlElem :=
  .mk CONTEXT_TAG [("id", "CurrentYearDuration")] none
    [.mk PERIOD_TAG [] none
      [.mk END_DATE_TAG [] (some "2026-03-31") []]]

/-- Witness net-sales fact element. -/
def wSalesElem : XmlElem :=
  .mk "\x7bhttp://example\x7dNetSales" [("contextRef", "CurrentYearDuration")]
    (some "1,234,567") []

/-- Witness instance root. -/
def wXbrlRoot : XmlElem :=
  .mk "xbrl" [] none [wCtx, wSalesElem]

/-! ## Theorems -/

theorem perm_pair_cases {α : Type} {l : List α} {a b : α}
    (h : l.Perm [a, b]) : l = [a, b] ∨ l = [b, a] := by
  have hlen : l.length = 2 := by simpa using h.length_eq
  obtain ⟨x, y, rfl⟩ : ∃ x y, l = [x, y] := by
    match l, hlen with
    | [x, y], _ => exact ⟨x, y, rfl⟩
  have hx : x ∈ [a, b] := h.mem_iff.mp (by simp)
  rcases List.mem_pair.mp hx with rfl | rfl
  · have h2 : [y].Perm [b] := h.cons_inv
    have hy : y = b := by simpa using h2.mem_iff.mp (by simp)
    exact Or.inl (by simp [hy])
  · have hswap : [x, y].Perm [x, a] := h.trans (List.Perm.swap x a [])
    have h2 : [y].Perm [a] := hswap.cons_inv
    have hy : y = a := by simpa using h2.mem_iff.mp (by simp)
    exact Or.inr (by simp [hy])

/-- C4: the computed priority is the claimed formula with the code tail added,
except that the code additionally rounds the result to 6 decimal places; and
rank_priorities sorts by priority descending with code ascending tie-break. -/
theorem calculate_priority_eq_round6_spec :
    (∀ item : PriorityInput, pyUpper item.fund_state = item.fund_state →
      calculate_priority item =
        round6 (specPriorityScore item + priorityTail item.code)) ∧
    (∀ items : List PriorityInput,
      (rank_priorities items).Pairwise
        (fun a b => b.priority < a.priority ∨
          (a.priority = b.priority ∧ a.code ≤ b.code)) ∧
      (rank_priorities items).Perm
        (items.map fun i => ⟨i.code, calculate_priority i⟩)) := by
  constructor
  · intro item h
    have hw : stateWeight item.fund_state = specStateWeight item.fund_state := by
      simp only [stateWeight, specStateWeight, h]
    simp only [calculate_priority, specPriorityScore, specClamp, hw]
  · intro items
    constructor
    · exact List.sorted_insertionSort rowLeR
        (items.map fun i => ⟨i.code, calculate_priority i⟩)
    · exact List.perm_insertionSort rowLeR _

/-- Witness for calculate_priority_eq_round6_spec at a concrete WATCH input. -/
theorem calculate_priority_eq_round6_spec_witness :
    pyUpper (PriorityInput.mk "1332" "WATCH" (1/2) false (1/5) 0 false).fund_state
        = "WATCH" ∧
    calculate_priority (PriorityInput.mk "1332" "WATCH" (1/2) false (1/5) 0 false) =
      round6 (specPriorityScore (PriorityInput.mk "1332" "WATCH" (1/2) false (1/5) 0 false)
        + priorityTail "1332") :=
  ⟨by decide,
    calculate_priority_eq_round6_spec.1
      (PriorityInput.mk "1332" "WATCH" (1/2) false (1/5) 0 false) (by decide)⟩

/-- C4 counterexample: with fund_score 1/3 the rounding to 6 decimal places is
observable, so the priority does not equal the claimed formula plus any
code-derived offset: two inputs sharing the code "" differ in computed priority
by an amount different from the difference of the claimed formula values. -/
theorem calculate_priority_rounding_observable :
    calculate_priority (PriorityInput.mk "" "OUT" (1/3) false 0 0 false)
      - calculate_priority (PriorityInput.mk "" "OUT" 0 false 0 0 false)
    ≠ specPriorityScore (PriorityInput.mk "" "OUT" (1/3) false 0 0 false)
      - specPriorityScore (PriorityInput.mk "" "OUT" 0 false 0 0 false) := by
  have hsw : stateWeight "OUT" = 0.2 := by
    unfold stateWeight
    rw [if_neg (by decide : ¬ pyUpper "OUT" = "IN"),
        if_neg (by decide : ¬ pyUpper "OUT" = "WATCH")]
  have htail : priorityTail "" = 0 := by
    unfold priorityTail pyCharSum
    norm_num
  have h1 : calculate_priority (PriorityInput.mk "" "OUT" (1/3) false 0 0 false)
      = 116667 / 1000000 := by
    unfold calculate_priority
    rw [hsw, htail]
    unfold round6 roundHalfEven
    norm_num [Int.even_iff]
  have h2 : calculate_priority (PriorityInput.mk "" "OUT" 0 false 0 0 false)
      = 50000 / 1000000 := by
    unfold calculate_priority
    rw [hsw, htail]
    unfold round6 roundHalfEven
    norm_num [Int.even_iff]
  have hssw : specStateWeight "OUT" = 0.2 := by
    unfold specStateWeight
    rw [if_neg (by decide : ¬ ("OUT" : String) = "IN"),
        if_neg (by decide : ¬ ("OUT" : String) = "WATCH")]
  have h3 : specPriorityScore (PriorityInput.mk "" "OUT" (1/3) false 0 0 false)
      = 7 / 60 := by
    unfold specPriorityScore specClamp
    rw [hssw]
    norm_num
  have h4 : specPriorityScore (PriorityInput.mk "" "OUT" 0 false 0 0 false)
      = 1 / 20 := by
    unfold specPriorityScore specClamp
    rw [hssw]
    norm_num
  rw [h1, h2, h3, h4]
  norm_num

/-- C5 counterexample: the codes "12" and "21" are distinct, yet two otherwise
identical PriorityInputs built on them receive exactly equal scores, because the
tie-break tail only depends on the character-code sum mod 1000. -/
theorem distinct_codes_can_tie :
    (PriorityInput.mk "12" "WATCH" (1/2) false (1/5) 0 false).code ≠
      (PriorityInput.mk "21" "WATCH" (1/2) false (1/5) 0 false).code ∧
    calculate_priority (PriorityInput.mk "12" "WATCH" (1/2) false (1/5) 0 false) =
      calculate_priority (PriorityInput.mk "21" "WATCH" (1/2) false (1/5) 0 false) := by
  refine ⟨by decide, ?_⟩
  have htail : priorityTail "12" = priorityTail "21" := by
    unfold priorityTail
    rw [show pyCharSum "12" = 99 from by decide, show pyCharSum "21" = 99 from by decide]
  simp only [calculate_priority, htail]

/-- Evaluation of the two concrete scores used in the C5 instance. -/
theorem calculate_priority_1332_1333 :
    calculate_priority (PriorityInput.mk "1332" "WATCH" (1/2) false (1/5) 0 false)
      = 264201 / 1000000 ∧
    calculate_priority (PriorityInput.mk "1333" "WATCH" (1/2) false (1/5) 0 false)
      = 264202 / 1000000 := by
  have hw : stateWeight "WATCH" = 0.6 := by
    unfold stateWeight
    rw [if_neg (by decide : ¬ pyUpper "WATCH" = "IN"),
        if_pos (by decide : pyUpper "WATCH" = "WATCH")]
  have ht32 : priorityTail "1332" = 201 / 1000000 := by
    unfold priorityTail
    rw [show pyCharSum "1332" = 201 from by decide]
    norm_num
  have ht33 : priorityTail "1333" = 202 / 1000000 := by
    unfold priorityTail
    rw [show pyCharSum "1333" = 202 from by decide]
    norm_num
  constructor
  · unfold calculate_priority
    rw [hw, ht32]
    unfold round6 roundHalfEven
    norm_num [Int.even_iff]
  · unfold calculate_priority
    rw [hw, ht33]
    unfold round6 roundHalfEven
    norm_num [Int.even_iff]

/-- C5 amended: two otherwise identical inputs tie exactly whenever their code
character sums agree mod 1000 (so distinct codes do not guarantee distinct
scores); the concrete 1332/1333 pair does get distinct scores, and its ranking
deterministically puts 1333 first. -/
theorem priority_code_tie_characterization :
    (∀ i j : PriorityInput,
      i.fund_state = j.fund_state → i.fund_score = j.fund_score →
      i.has_new_edinet = j.has_new_edinet → i.theme_strength = j.theme_strength →
      i.theme_strength_delta = j.theme_strength_delta →
      i.has_high_signal_tag = j.has_high_signal_tag →
      pyCharSum i.code % 1000 = pyCharSum j.code % 1000 →
      calculate_priority i = calculate_priority j) ∧
    calculate_priority (PriorityInput.mk "1332" "WATCH" (1/2) false (1/5) 0 false) ≠
      calculate_priority (PriorityInput.mk "1333" "WATCH" (1/2) false (1/5) 0 false) ∧
    rank_priorities
        [PriorityInput.mk "1332" "WATCH" (1/2) false (1/5) 0 false,
         PriorityInput.mk "1333" "WATCH" (1/2) false (1/5) 0 false] =
      [⟨"1333", calculate_priority (PriorityInput.mk "1333" "WATCH" (1/2) false (1/5) 0 false)⟩,
       ⟨"1332", calculate_priority (PriorityInput.mk "1332" "WATCH" (1/2) false (1/5) 0 false)⟩] := by
  obtain ⟨hv32, hv33⟩ := calculate_priority_1332_1333
  refine ⟨?_, ?_, ?_⟩
  · intro i j h1 h2 h3 h4 h5 h6 hsum
    unfold calculate_priority priorityTail
    rw [h1, h2, h3, h4, h5, h6, hsum]
  · rw [hv32, hv33]
    norm_num
  · have hperm := List.perm_insertionSort rowLeR
      [(⟨"1332", calculate_priority (PriorityInput.mk "1332" "WATCH" (1/2) false (1/5) 0 false)⟩ : PriorityRow),
       ⟨"1333", calculate_priority (PriorityInput.mk "1333" "WATCH" (1/2) false (1/5) 0 false)⟩]
    have hsorted := List.sorted_insertionSort rowLeR
      [(⟨"1332", calculate_priority (PriorityInput.mk "1332" "WATCH" (1/2) false (1/5) 0 false)⟩ : PriorityRow),
       ⟨"1333", calculate_priority (PriorityInput.mk "1333" "WATCH" (1/2) false (1/5) 0 false)⟩]
    simp only [rank_priorities, List.map]
    rcases perm_pair_cases hperm with h | h
    · exfalso
      rw [h] at hsorted
      have hle := List.rel_of_pairwise_cons hsorted (List.mem_singleton_self _)
      rw [rowLeR] at hle
      rw [hv32, hv33] at hle
      rcases hle with hlt | ⟨heq, _⟩
      · norm_num at hlt
      · norm_num at heq
    · exact h

/-- Witness for priority_code_tie_characterization at the "12"/"21" tie. -/
theorem priority_code_tie_characterization_witness :
    pyCharSum "12" % 1000 = pyCharSum "21" % 1000 ∧
    calculate_priority (PriorityInput.mk "12" "IN" 1 true (1/5) 0 true) =
      calculate_priority (PriorityInput.mk "21" "IN" 1 true (1/5) 0 true) :=
  ⟨by decide,
    priority_code_tie_characterization.1
      (PriorityInput.mk "12" "IN" 1 true (1/5) 0 true)
      (PriorityInput.mk "21" "IN" 1 true (1/5) 0 true)
      rfl rfl rfl rfl rfl rfl (by decide)⟩

/-- Helper: the per-session checks implied by a successful sessionsCheck pass. -/
theorem sessionsCheck_some_forall {morning_done close_done : ℤ}
    {q : List (String × StatusCounts)} {sessions : List String} {req : ℤ}
    (h : sessionsCheck morning_done close_done q sessions = some req) :
    ∀ s ∈ sessions,
      let sc := (q.lookup s).getD []
      0 < (sc.map Prod.snd).sum ∧ scGet sc "pending" ≤ 0 ∧ scGet sc "failed" ≤ 0 ∧
        scGet sc "done" ≤ (if s = "morning" then morning_done else close_done) := by
  induction sessions generalizing req with
  | nil => intro s hs; simp at hs
  | cons hd tl ih =>
    intro s hs
    rw [sessionsCheck] at h
    by_cases h1 : ((((q.lookup hd).getD []).map Prod.snd).sum : ℤ) ≤ 0
    · simp [h1] at h
    by_cases h2 : 0 < scGet ((q.lookup hd).getD []) "pending"
    · simp [h1, h2] at h
    by_cases h3 : 0 < scGet ((q.lookup hd).getD []) "failed"
    · simp [h1, h2, h3] at h
    by_cases h4 : (if hd = "morning" then morning_done else close_done) <
        scGet ((q.lookup hd).getD []) "done"
    · simp [h1, h2, h3, h4] at h
    simp only [h1, h2, h3, h4, if_false, Option.map_eq_some'] at h
    rcases List.mem_cons.mp hs with rfl | hmem
    · exact ⟨lt_of_not_ge h1, le_of_not_gt h2, le_of_not_gt h3, le_of_not_gt h4⟩
    · obtain ⟨r2, hr2, _⟩ := h
      exact ih hr2 s hmem

/-- Helper: the total accumulated by sessionsCheck is the sum of the per-session
done counts. -/
theorem sessionsCheck_some_total {morning_done close_done : ℤ}
    {q : List (String × StatusCounts)} {sessions : List String} {req : ℤ}
    (h : sessionsCheck morning_done close_done q sessions = some req) :
    req = (sessions.map (fun s => scGet ((q.lookup s).getD []) "done")).sum := by
  induction sessions generalizing req with
  | nil => simp [sessionsCheck] at h; simp [h]
  | cons hd tl ih =>
    rw [sessionsCheck] at h
    by_cases h1 : ((((q.lookup hd).getD []).map Prod.snd).sum : ℤ) ≤ 0
    · simp [h1] at h
    by_cases h2 : 0 < scGet ((q.lookup hd).getD []) "pending"
    · simp [h1, h2] at h
    by_cases h3 : 0 < scGet ((q.lookup hd).getD []) "failed"
    · simp [h1, h2, h3] at h
    by_cases h4 : (if hd = "morning" then morning_done else close_done) <
        scGet ((q.lookup hd).getD []) "done"
    · simp [h1, h2, h3, h4] at h
    simp only [h1, h2, h3, h4, if_false, Option.map_eq_some'] at h
    obtain ⟨r2, hr2, hsum⟩ := h
    rw [List.map_cons, List.sum_cons, ← hsum, ih hr2]

/-- C8 amended: a day is classified complete only if every required session has
at least one queue row, no pending rows, no failed rows, and a session budget
counter at least the queue done count, with the total counter at least the
summed queue done counts; a missing budget row is incomplete, a day with zero
queue rows for a required session is incomplete, and a done_count=0 budget row
is incomplete whenever some required session has a positive done queue count
(all queue status counts being nonnegative). -/
theorem recovery_day_complete_characterization :
    (∀ sessions q (b : ℤ × ℤ × ℤ),
      is_intel_recovery_day_complete sessions (some b) q = true →
      (∀ s ∈ sessions,
        0 < ((((q.lookup s).getD []) : StatusCounts).map Prod.snd).sum ∧
        scGet ((q.lookup s).getD []) "pending" ≤ 0 ∧
        scGet ((q.lookup s).getD []) "failed" ≤ 0 ∧
        scGet ((q.lookup s).getD []) "done" ≤ (if s = "morning" then b.2.1 else b.2.2)) ∧
      (sessions.map (fun s => scGet ((q.lookup s).getD []) "done")).sum ≤ b.1) ∧
    (∀ sessions q, is_intel_recovery_day_complete sessions none q = false) ∧
    (∀ sessions q (b : ℤ × ℤ × ℤ) (s : String), s ∈ sessions →
      ((((q.lookup s).getD []) : StatusCounts).map Prod.snd).sum ≤ 0 →
      is_intel_recovery_day_complete sessions (some b) q = false) ∧
    (∀ sessions q (m c : ℤ) (s : String), s ∈ sessions →
      (∀ s2 ∈ sessions, 0 ≤ scGet ((q.lookup s2).getD []) "done") →
      0 < scGet ((q.lookup s).getD []) "done" →
      is_intel_recovery_day_complete sessions (some (0, m, c)) q = false) := by
  refine ⟨?_, ?_, ?_, ?_⟩
  · intro sessions q b hc
    rw [is_intel_recovery_day_complete] at hc
    rcases hck : sessionsCheck b.2.1 b.2.2 q sessions with _ | req
    · rw [hck] at hc; simp at hc
    · rw [hck] at hc
      simp only [decide_eq_true_eq, not_lt] at hc
      refine ⟨fun s hs => sessionsCheck_some_forall hck s hs, ?_⟩
      rw [← sessionsCheck_some_total hck]
      exact hc
  · intro sessions q
    rfl
  · intro sessions q b s hs hz
    rw [is_intel_recovery_day_complete]
    rcases hck : sessionsCheck b.2.1 b.2.2 q sessions with _ | req
    · rfl
    · exfalso
      have := (sessionsCheck_some_forall hck s hs).1
      omega
  · intro sessions q m c s hs hnn hpos
    rw [is_intel_recovery_day_complete]
    rcases hck : sessionsCheck m c q sessions with _ | req
    · rfl
    · have htot := sessionsCheck_some_total hck
      have hlt : (0:ℤ) < req := by
        rw [htot]
        have hmem : scGet ((q.lookup s).getD []) "done" ∈
            sessions.map (fun s2 => scGet ((q.lookup s2).getD []) "done") :=
          List.mem_map_of_mem _ hs
        have hle := List.single_le_sum (l := sessions.map
            (fun s2 => scGet ((q.lookup s2).getD []) "done"))
          (by intro x hx
              obtain ⟨s2, hs2, rfl⟩ := List.mem_map.mp hx
              exact hnn s2 hs2) _ hmem
        omega
      simp [hlt]

/-- Witness for recovery_day_complete_characterization on a concrete complete
day and a concrete skipped-only day. -/
theorem recovery_day_complete_characterization_witness :
    is_intel_recovery_day_complete ["close"] (some (1, 0, 1))
        [("close", [("done", 1)])] = true ∧
    (∀ s ∈ ["close"],
      0 < ((([("close", [("done", (1:ℤ))])].lookup s).getD []).map Prod.snd).sum ∧
      scGet (([("close", [("done", 1)])].lookup s).getD []) "pending" ≤ 0 ∧
      scGet (([("close", [("done", 1)])].lookup s).getD []) "failed" ≤ 0 ∧
      scGet (([("close", [("done", 1)])].lookup s).getD []) "done" ≤
        (if s = "morning" then ((1:ℤ), (0:ℤ), (1:ℤ)).2.1 else (1, 0, 1).2.2)) := by
  refine ⟨by decide, ?_⟩
  exact (recovery_day_complete_characterization.1 ["close"]
    [("close", [("done", 1)])] (1, 0, 1) (by decide)).1

/-- C8 counterexample: a business day whose DailyBudget row has done_count = 0
is classified COMPLETE when the only queue rows of the required session are
skipped rows, contradicting the claim that done_count = 0 forces incomplete. -/
theorem done_count_zero_day_can_be_complete :
    is_intel_recovery_day_complete ["close"] (some (0, 0, 0))
      [("close", [("skipped", 3)])] = true := by decide

/-! Helper lemmas about the queue-run embedding. -/

theorem processLoop_done_le (beh : RunBehaviour) :
    ∀ (rows : List IntelQueueEntry) (i : ℕ), (processLoop beh i rows).2 ≤ rows.length := by
  intro rows
  induction rows with
  | nil => intro i; simp [processLoop]
  | cons r rest ih =>
    intro i
    rw [processLoop]
    by_cases hp : beh.pause i
    · simp [hp]
    · simp only [hp, if_false]
      have hih := ih (i + 1)
      rcases ho : beh.outcome i with _ | _ | _ <;> simp [ho, List.length_cons] <;> omega

theorem processLoop_assign_key_mem (beh : RunBehaviour) :
    ∀ (rows : List IntelQueueEntry) (i : ℕ) (k : String) (st : QStatus),
      (k, st) ∈ (processLoop beh i rows).1 →
      k ∈ rows.map (fun e => e.idempotency_key) := by
  intro rows
  induction rows with
  | nil => intro i k st h; simp [processLoop] at h
  | cons r rest ih =>
    intro i k st h
    rw [processLoop] at h
    by_cases hp : beh.pause i
    · simp [hp] at h
    · simp only [hp, if_false] at h
      rcases ho : beh.outcome i with _ | _ | _ <;>
        rw [ho] at h <;>
        rcases List.mem_cons.mp h with heq | hmem <;>
        first
          | (simp only [Prod.mk.injEq] at heq; simp [heq.1])
          | exact List.mem_cons_of_mem _ (ih (i + 1) k st hmem)

theorem mem_updateFirst_of_pred_false {p : IntelQueueEntry → Bool}
    {f : IntelQueueEntry → IntelQueueEntry} :
    ∀ {l : List IntelQueueEntry} {e : IntelQueueEntry},
      e ∈ l → p e = false → e ∈ updateFirst p f l := by
  intro l
  induction l with
  | nil => intro e h; simp at h
  | cons x rest ih =>
    intro e he hpe
    rw [updateFirst]
    rcases List.mem_cons.mp he with rfl | hmem
    · rw [hpe]
      simp
    · by_cases hx : p x
      · simp [hx, hmem]
      · simp only [hx, if_false]
        exact List.mem_cons_of_mem _ (ih hmem hpe)

theorem mem_updateFirst_self {p : IntelQueueEntry → Bool}
    {f : IntelQueueEntry → IntelQueueEntry} :
    ∀ {l : List IntelQueueEntry} {e : IntelQueueEntry},
      e ∈ l → p e = true → (∀ x ∈ l, p x = true → x = e) →
      f e ∈ updateFirst p f l := by
  intro l
  induction l with
  | nil => intro e h; simp at h
  | cons x rest ih =>
    intro e he hpe huniq
    rw [updateFirst]
    by_cases hx : p x
    · have hxe : x = e := huniq x (by simp) hx
      subst hxe
      simp [hx]
    · simp only [hx, if_false]
      rcases List.mem_cons.mp he with rfl | hmem
      · exact absurd hpe hx
      · exact List.mem_cons_of_mem _
          (ih hmem hpe (fun y hy hpy => huniq y (List.mem_cons_of_mem _ hy) hpy))

theorem updateFirst_map_key {p : IntelQueueEntry → Bool}
    {f : IntelQueueEntry → IntelQueueEntry}
    (hf : ∀ e, (f e).idempotency_key = e.idempotency_key) :
    ∀ (l : List IntelQueueEntry),
      (updateFirst p f l).map (fun e => e.idempotency_key) =
        l.map (fun e => e.idempotency_key) := by
  intro l
  induction l with
  | nil => rfl
  | cons x rest ih =>
    rw [updateFirst]
    by_cases hx : p x
    · simp [hx, hf]
    · simp [hx, ih]

theorem updateFirst_nodup {p : IntelQueueEntry → Bool}
    {f : IntelQueueEntry → IntelQueueEntry}
    (hf : ∀ e, (f e).idempotency_key = e.idempotency_key)
    {l : List IntelQueueEntry}
    (h : (l.map (fun e => e.idempotency_key)).Nodup) :
    ((updateFirst p f l).map (fun e => e.idempotency_key)).Nodup := by
  rw [updateFirst_map_key hf l]
  exact h

theorem nodup_key_inj {q : List IntelQueueEntry}
    (hnd : (q.map (fun e => e.idempotency_key)).Nodup) :
    ∀ x ∈ q, ∀ y ∈ q, x.idempotency_key = y.idempotency_key → x = y := by
  intro x hx y hy hk
  exact List.inj_on_of_nodup_map hnd hx hy hk

theorem upsertCandidate_preserves (bd sess : String) (item : RankedCandidate)
    (q : List IntelQueueEntry) (n : ℕ) (e : IntelQueueEntry)
    (hnd : (q.map (fun x => x.idempotency_key)).Nodup)
    (he : e ∈ q) (hst : e.status = QStatus.skipped)
    (hseed : build_idempotency_key bd sess item.code = e.idempotency_key →
      item.seed_doc_ids = e.seed_doc_ids) :
    (((upsertCandidate bd sess (q, n) item).1.map
        (fun x => x.idempotency_key)).Nodup) ∧
    ∃ e2 ∈ (upsertCandidate bd sess (q, n) item).1,
      e2.idempotency_key = e.idempotency_key ∧ e2.status = QStatus.skipped ∧
      e2.seed_doc_ids = e.seed_doc_ids := by
  rcases hfind : q.find? (fun x => x.idempotency_key ==
      build_idempotency_key bd sess item.code) with _ | ex
  · have hnotin : ∀ x ∈ q,
        x.idempotency_key ≠ build_idempotency_key bd sess item.code := by
      intro x hx
      have := List.find?_eq_none.mp hfind x hx
      simpa using this
    simp only [upsertCandidate, hfind]
    constructor
    · simp only [List.map_append, List.map_cons, List.map_nil]
      refine List.Nodup.append hnd (List.nodup_singleton _) ?_
      intro k hk hk2
      obtain ⟨x, hx, rfl⟩ := List.mem_map.mp hk
      exact hnotin x hx (by simpa using hk2)
    · exact ⟨e, by simp [he], rfl, hst, rfl⟩
  · have hexq : ex ∈ q := List.mem_of_find?_eq_some hfind
    have hexkey : ex.idempotency_key = build_idempotency_key bd sess item.code := by
      have := List.find?_some hfind
      simpa using this
    simp only [upsertCandidate, hfind]
    by_cases hkey : build_idempotency_key bd sess item.code = e.idempotency_key
    · have hexe : ex = e := nodup_key_inj hnd ex hexq e he (hexkey.trans hkey)
      subst hexe
      have hsd : item.seed_doc_ids = ex.seed_doc_ids := hseed hkey
      rw [if_neg (by simp [hsd])]
      refine ⟨?_, ?_⟩
      · refine updateFirst_nodup ?_ hnd
        intro x
        rfl
      · refine ⟨{ ex with priority := item.priority }, ?_, rfl, hst, rfl⟩
        apply mem_updateFirst_self he (by simp [hexkey])
        intro x hx hpx
        exact nodup_key_inj hnd x hx ex he (by simpa [← hexkey] using hpx)
    · have hpe : (e.idempotency_key ==
          build_idempotency_key bd sess item.code) = false := by
        simp only [beq_eq_false_iff_ne, ne_eq]
        exact fun hcontra => hkey hcontra.symm
      by_cases hsd : item.seed_doc_ids ≠ ex.seed_doc_ids
      · rw [if_pos hsd]
        refine ⟨?_, ?_⟩
        · refine updateFirst_nodup ?_ hnd
          intro x
          rfl
        · exact ⟨e, mem_updateFirst_of_pred_false he hpe, rfl, hst, rfl⟩
      · rw [if_neg hsd]
        refine ⟨?_, ?_⟩
        · refine updateFirst_nodup ?_ hnd
          intro x
          rfl
        · exact ⟨e, mem_updateFirst_of_pred_false he hpe, rfl, hst, rfl⟩

theorem enqueueSelected_preserves (bd sess : String) :
    ∀ (items : List RankedCandidate) (q : List IntelQueueEntry) (n : ℕ)
      (e : IntelQueueEntry),
      (q.map (fun x => x.idempotency_key)).Nodup →
      e ∈ q → e.status = QStatus.skipped →
      (∀ item ∈ items,
        build_idempotency_key bd sess item.code = e.idempotency_key →
        item.seed_doc_ids = e.seed_doc_ids) →
      (((items.foldl (upsertCandidate bd sess) (q, n)).1.map
          (fun x => x.idempotency_key)).Nodup) ∧
      ∃ e2 ∈ (items.foldl (upsertCandidate bd sess) (q, n)).1,
        e2.idempotency_key = e.idempotency_key ∧ e2.status = QStatus.skipped ∧
        e2.seed_doc_ids = e.seed_doc_ids := by
  intro items
  induction items with
  | nil =>
    intro q n e hnd he hst _
    exact ⟨hnd, e, he, rfl, hst, rfl⟩
  | cons item rest ih =>
    intro q n e hnd he hst hseed
    obtain ⟨hnd2, e2, he2, hk2, hst2, hsd2⟩ :=
      upsertCandidate_preserves bd sess item q n e hnd he hst
        (hseed item (by simp))
    rw [List.foldl_cons]
    obtain ⟨hnd3, e3, he3, hk3, hst3, hsd3⟩ :=
      ih (upsertCandidate bd sess (q, n) item).1
        (upsertCandidate bd sess (q, n) item).2 e2 hnd2 he2 hst2
        (fun it hit hkey =>
          hsd2 ▸ hseed it (List.mem_cons_of_mem _ hit) (hk2 ▸ hkey))
    exact ⟨hnd3, e3, he3, hk3.trans hk2, hst3, hsd3.trans hsd2⟩

theorem lookup_eq_none_of_keys {assigns : List (String × QStatus)} {k : String}
    (h : ∀ p ∈ assigns, p.1 ≠ k) : assigns.lookup k = none := by
  induction assigns with
  | nil => rfl
  | cons a rest ih =>
    rw [List.lookup]
    have ha : a.1 ≠ k := h a (by simp)
    have : (k == a.1) = false := by
      simp only [beq_eq_false_iff_ne, ne_eq]
      exact fun hc => ha hc.symm
    rw [this]
    exact ih (fun p hp => h p (List.mem_cons_of_mem _ hp))

theorem lookup_mem {assigns : List (String × QStatus)} {k : String} {v : QStatus}
    (h : assigns.lookup k = some v) : (k, v) ∈ assigns := by
  induction assigns with
  | nil => simp [List.lookup] at h
  | cons a rest ih =>
    rw [List.lookup] at h
    by_cases hk : (k == a.1)
    · rw [hk] at h
      simp only [Option.some.injEq] at h
      have : k = a.1 := by simpa using hk
      subst this
      subst h
      simp
    · rw [Bool.not_eq_true] at hk
      rw [hk] at h
      exact List.mem_cons_of_mem _ (ih h)

theorem failedResetEntry_not_failed (bd sess : String) (pa : Bool)
    (e : IntelQueueEntry) (h : e.status ≠ QStatus.failed) :
    failedResetEntry bd sess pa e = e := by
  unfold failedResetEntry
  exact if_neg (fun hcond => h hcond.2.1)

theorem failedReset_map_key (bd sess : String) (pa : Bool)
    (q : List IntelQueueEntry) :
    (failedReset bd sess pa q).map (fun e => e.idempotency_key) =
      q.map (fun e => e.idempotency_key) := by
  unfold failedReset
  rw [List.map_map]
  congr 1
  funext e
  unfold failedResetEntry
  by_cases hcond : e.business_date = bd ∧ e.status = QStatus.failed ∧
      (pa = true ∨ e.session = sess)
  · simp [hcond]
  · simp [hcond]

theorem optTake_subset {α : Type} (n : Option ℕ) (l : List α) :
    ∀ x ∈ optTake n l, x ∈ l := by
  intro x hx
  rcases n with _ | k
  · exact hx
  · exact List.take_subset _ _ hx

theorem intelDeepdiveBody_preserves_skipped (cfg : DeepdiveConfig)
    (bd sess : String) (budget : IntelDailyBudget)
    (ranked : List RankedCandidate) (queue0 : List IntelQueueEntry)
    (beh : RunBehaviour) (mr : Option ℤ) (e : IntelQueueEntry)
    (hnd : (queue0.map (fun x => x.idempotency_key)).Nodup)
    (he : e ∈ queue0) (hst : e.status = QStatus.skipped)
    (hseed : ∀ item ∈ ranked,
      build_idempotency_key bd sess item.code = e.idempotency_key →
      item.seed_doc_ids = e.seed_doc_ids) :
    ∃ e2 ∈ (intelDeepdiveBody cfg bd sess budget ranked queue0 beh mr).queue,
      e2.idempotency_key = e.idempotency_key ∧ e2.status = QStatus.skipped := by
  simp only [intelDeepdiveBody]
  obtain ⟨hnd2, e2, he2, hk2, hst2, hsd2⟩ :=
    enqueueSelected_preserves bd sess (optTake (mr.map Int.toNat) ranked)
      queue0 0 e hnd he hst
      (fun item hit hkey =>
        hseed item (optTake_subset (mr.map Int.toNat) ranked item hit) hkey)
  have he2q : e2 ∈ (enqueueSelected bd sess queue0
      (optTake (mr.map Int.toNat) ranked)).1 := he2
  have hnd2q : ((enqueueSelected bd sess queue0
      (optTake (mr.map Int.toNat) ranked)).1.map
      (fun x => x.idempotency_key)).Nodup := hnd2
  have hre : failedResetEntry bd sess cfg.process_all_candidates e2 = e2 :=
    failedResetEntry_not_failed bd sess cfg.process_all_candidates e2
      (by rw [hst2]; intro hcontra; cases hcontra)
  have he3 : e2 ∈ failedReset bd sess cfg.process_all_candidates
      (enqueueSelected bd sess queue0 (optTake (mr.map Int.toNat) ranked)).1 := by
    unfold failedReset
    exact hre ▸ List.mem_map_of_mem _ he2q
  have hnd3 : ((failedReset bd sess cfg.process_all_candidates
      (enqueueSelected bd sess queue0
        (optTake (mr.map Int.toNat) ranked)).1).map
      (fun x => x.idempotency_key)).Nodup := by
    rw [failedReset_map_key]
    exact hnd2q
  refine ⟨e2, ?_, hk2, hst2⟩
  have hrows : ∀ row ∈ optTake (mr.map Int.toNat)
      ((pendingFilter bd sess cfg.process_all_candidates
        (failedReset bd sess cfg.process_all_candidates
          (enqueueSelected bd sess queue0
            (optTake (mr.map Int.toNat) ranked)).1)).insertionSort qRowLeR),
      row ∈ failedReset bd sess cfg.process_all_candidates
          (enqueueSelected bd sess queue0
            (optTake (mr.map Int.toNat) ranked)).1 ∧
        row.status = QStatus.pending := by
    intro row hrow
    have hrow2 : row ∈ pendingFilter bd sess cfg.process_all_candidates
        (failedReset bd sess cfg.process_all_candidates
          (enqueueSelected bd sess queue0
            (optTake (mr.map Int.toNat) ranked)).1) :=
      (List.perm_insertionSort qRowLeR _).mem_iff.mp
        (optTake_subset _ _ row hrow)
    obtain ⟨hmemq, hpred⟩ := List.mem_filter.mp hrow2
    exact ⟨hmemq, (of_decide_eq_true hpred).2.1⟩
  have hlook : (processLoop beh 0 (optTake (mr.map Int.toNat)
      ((pendingFilter bd sess cfg.process_all_candidates
        (failedReset bd sess cfg.process_all_candidates
          (enqueueSelected bd sess queue0
            (optTake (mr.map Int.toNat) ranked)).1)).insertionSort
        qRowLeR))).1.lookup e2.idempotency_key = none := by
    apply lookup_eq_none_of_keys
    intro p hp hkeq
    have hkmem := processLoop_assign_key_mem beh _ 0 p.1 p.2
      (by rw [← Prod.mk.eta (p := p)] at hp; exact hp)
    obtain ⟨row, hrowmem, hrowkey⟩ := List.mem_map.mp hkmem
    obtain ⟨hrowq2, hrowpending⟩ := hrows row hrowmem
    have hre2 : row = e2 := nodup_key_inj hnd3 row hrowq2 e2 he3
      (by rw [hrowkey, hkeq])
    rw [hre2, hst2] at hrowpending
    cases hrowpending
  unfold applyStatuses
  have happly : (fun e =>
      match (processLoop beh 0 (optTake (mr.map Int.toNat)
        ((pendingFilter bd sess cfg.process_all_candidates
          (failedReset bd sess cfg.process_all_candidates
            (enqueueSelected bd sess queue0
              (optTake (mr.map Int.toNat) ranked)).1)).insertionSort
          qRowLeR))).1.lookup e.idempotency_key with
      | some st => { e with status := st }
      | none => e) e2 = e2 := by
    simp only [hlook]
  exact happly ▸ List.mem_map_of_mem _ he3

/-- C6 amended: the start-of-run failed reset only moves failed entries to
pending and leaves skipped entries untouched; across a whole _intel_deepdive
run, a skipped entry whose seed document ids were not changed by a reselected
candidate keeps status skipped (the enqueue-upsert force reset on changed seed
document ids is the only path that re-pends a skipped entry). -/
theorem skipped_only_repended_by_reseed :
    (∀ bd sess pa (e : IntelQueueEntry), e.status ≠ QStatus.failed →
      failedResetEntry bd sess pa e = e) ∧
    (∀ bd sess pa (e : IntelQueueEntry),
      (failedResetEntry bd sess pa e).status = QStatus.pending →
      e.status = QStatus.pending ∨ e.status = QStatus.failed) ∧
    (∀ cfg bd sess budget0 ranked queue0 beh (e : IntelQueueEntry),
      (queue0.map (fun x => x.idempotency_key)).Nodup →
      e ∈ queue0 → e.status = QStatus.skipped →
      (∀ item ∈ ranked,
        build_idempotency_key bd sess item.code = e.idempotency_key →
        item.seed_doc_ids = e.seed_doc_ids) →
      ∃ e2 ∈ (intelDeepdive cfg bd sess budget0 ranked queue0 beh).queue,
        e2.idempotency_key = e.idempotency_key ∧ e2.status = QStatus.skipped) := by
  refine ⟨failedResetEntry_not_failed, ?_, ?_⟩
  · intro bd sess pa e h
    unfold failedResetEntry at h
    by_cases hcond : e.business_date = bd ∧ e.status = QStatus.failed ∧
        (pa = true ∨ e.session = sess)
    · exact Or.inr hcond.2.1
    · rw [if_neg hcond] at h
      exact Or.inl h
  · intro cfg bd sess budget0 ranked queue0 beh e hnd he hst hseed
    unfold intelDeepdive
    by_cases hc : cfg.process_all_candidates = false ∧ 0 < cfg.daily_budget ∧
        0 < sessionCapOf cfg sess
    · rw [if_pos hc]
      by_cases hm : compute_session_allowance cfg.daily_budget
          (sessionCapOf cfg sess) (budget0.getD ⟨0, 0, 0⟩).done_count
          (if sess = "morning" then (budget0.getD ⟨0, 0, 0⟩).morning_done
           else (budget0.getD ⟨0, 0, 0⟩).close_done) ≤ 0
      · rw [if_pos hm]
        exact ⟨e, he, rfl, hst⟩
      · rw [if_neg hm]
        exact intelDeepdiveBody_preserves_skipped cfg bd sess _ ranked queue0
          beh _ e hnd he hst hseed
    · rw [if_neg hc]
      exact intelDeepdiveBody_preserves_skipped cfg bd sess _ ranked queue0
        beh none e hnd he hst hseed

/-- C6 counterexample: a run whose discovery re-selects the same candidate with
a changed seed document-id set moves a skipped entry back to pending through
the enqueue upsert (here the run pauses before processing, so the entry is
still pending at the end of the run). -/
theorem run_repends_skipped_on_reseed :
    entrySk.status = QStatus.skipped ∧
    ((intelDeepdive cfgUnlimited "2026-02-13" "close" none [candReseed]
        [entrySk] behPauseNow).queue.map (fun e => e.status)) =
      [QStatus.pending] := by decide

/-- Witness for skipped_only_repended_by_reseed: a skipped entry survives a
full run that does not re-seed it. -/
theorem skipped_only_repended_by_reseed_witness :
    (([entrySk].map (fun x => x.idempotency_key)).Nodup) ∧
    entrySk ∈ [entrySk] ∧ entrySk.status = QStatus.skipped ∧
    ∃ e2 ∈ (intelDeepdive cfgUnlimited "2026-02-13" "close" none [] [entrySk]
        behAllOk).queue,
      e2.idempotency_key = entrySk.idempotency_key ∧
      e2.status = QStatus.skipped :=
  ⟨by decide, by decide, by decide,
    skipped_only_repended_by_reseed.2.2 cfgUnlimited "2026-02-13" "close" none
      [] [entrySk] behAllOk entrySk (by decide) (by decide) (by decide)
      (fun item hit => absurd hit (List.not_mem_nil item))⟩

/-! C7: budget counters. -/

theorem intelDeepdiveBody_budget_done (cfg : DeepdiveConfig) (bd sess : String)
    (budget : IntelDailyBudget) (ranked : List RankedCandidate)
    (queue0 : List IntelQueueEntry) (beh : RunBehaviour) (mr : Option ℤ) :
    (intelDeepdiveBody cfg bd sess budget ranked queue0 beh mr).budget.done_count
      = budget.done_count +
        ((intelDeepdiveBody cfg bd sess budget ranked queue0 beh mr).done : ℤ) :=
  rfl

theorem intelDeepdiveBody_sum (cfg : DeepdiveConfig) (bd sess : String)
    (budget : IntelDailyBudget) (ranked : List RankedCandidate)
    (queue0 : List IntelQueueEntry) (beh : RunBehaviour) (mr : Option ℤ)
    (h : budget.done_count = budget.morning_done + budget.close_done) :
    (intelDeepdiveBody cfg bd sess budget ranked queue0 beh mr).budget.done_count
      = (intelDeepdiveBody cfg bd sess budget ranked queue0 beh mr).budget.morning_done
      + (intelDeepdiveBody cfg bd sess budget ranked queue0 beh mr).budget.close_done := by
  simp only [intelDeepdiveBody]
  by_cases hs : sess = "morning" <;> simp [hs] <;> omega

theorem intelDeepdiveBody_done_le (cfg : DeepdiveConfig) (bd sess : String)
    (budget : IntelDailyBudget) (ranked : List RankedCandidate)
    (queue0 : List IntelQueueEntry) (beh : RunBehaviour) (m : ℤ) :
    (intelDeepdiveBody cfg bd sess budget ranked queue0 beh (some m)).done
      ≤ m.toNat := by
  refine le_trans (processLoop_done_le beh _ 0) ?_
  show (List.take m.toNat _).length ≤ m.toNat
  exact List.length_take_le _ _

theorem allowance_add_le (B C dt ds : ℤ)
    (h : ¬ compute_session_allowance B C dt ds ≤ 0) :
    dt + compute_session_allowance B C dt ds ≤ B := by
  simp only [compute_session_allowance, min_def, max_def] at h ⊢
  split_ifs at h ⊢ <;> omega

/-- C7 amended: after every run, done_count equals morning_done plus close_done
(given the row was consistent before, as every lazily created row is); and when
the budget gate is active (process_all_candidates false and both the daily
budget and the session cap positive), done_count never exceeds the configured
daily budget. In catch-up mode the caps are bypassed and done_count can exceed
the daily budget. -/
theorem daily_budget_sum_and_cap :
    (∀ cfg bd sess budget0 ranked queue0 beh,
      (budget0.getD ⟨0, 0, 0⟩).done_count =
        (budget0.getD ⟨0, 0, 0⟩).morning_done +
        (budget0.getD ⟨0, 0, 0⟩).close_done →
      (intelDeepdive cfg bd sess budget0 ranked queue0 beh).budget.done_count =
        (intelDeepdive cfg bd sess budget0 ranked queue0 beh).budget.morning_done +
        (intelDeepdive cfg bd sess budget0 ranked queue0 beh).budget.close_done) ∧
    (∀ cfg bd sess budget0 ranked queue0 beh,
      cfg.process_all_candidates = false →
      0 < cfg.daily_budget → 0 < sessionCapOf cfg sess →
      (budget0.getD ⟨0, 0, 0⟩).done_count ≤ cfg.daily_budget →
      (intelDeepdive cfg bd sess budget0 ranked queue0 beh).budget.done_count ≤
        cfg.daily_budget) := by
  constructor
  · intro cfg bd sess budget0 ranked queue0 beh h
    simp only [intelDeepdive]
    by_cases hc : cfg.process_all_candidates = false ∧ 0 < cfg.daily_budget ∧
        0 < sessionCapOf cfg sess
    · rw [if_pos hc]
      by_cases hm : compute_session_allowance cfg.daily_budget
          (sessionCapOf cfg sess) (budget0.getD ⟨0, 0, 0⟩).done_count
          (if sess = "morning" then (budget0.getD ⟨0, 0, 0⟩).morning_done
           else (budget0.getD ⟨0, 0, 0⟩).close_done) ≤ 0
      · rw [if_pos hm]
        exact h
      · rw [if_neg hm]
        exact intelDeepdiveBody_sum cfg bd sess _ ranked queue0 beh _ h
    · rw [if_neg hc]
      exact intelDeepdiveBody_sum cfg bd sess _ ranked queue0 beh none h
  · intro cfg bd sess budget0 ranked queue0 beh hpa hdb hcap hle
    simp only [intelDeepdive]
    rw [if_pos ⟨hpa, hdb, hcap⟩]
    by_cases hm : compute_session_allowance cfg.daily_budget
        (sessionCapOf cfg sess) (budget0.getD ⟨0, 0, 0⟩).done_count
        (if sess = "morning" then (budget0.getD ⟨0, 0, 0⟩).morning_done
         else (budget0.getD ⟨0, 0, 0⟩).close_done) ≤ 0
    · rw [if_pos hm]
      exact hle
    · rw [if_neg hm]
      have hd := intelDeepdiveBody_done_le cfg bd sess (budget0.getD ⟨0, 0, 0⟩)
        ranked queue0 beh (compute_session_allowance cfg.daily_budget
          (sessionCapOf cfg sess) (budget0.getD ⟨0, 0, 0⟩).done_count
          (if sess = "morning" then (budget0.getD ⟨0, 0, 0⟩).morning_done
           else (budget0.getD ⟨0, 0, 0⟩).close_done))
      have h1 := allowance_add_le cfg.daily_budget (sessionCapOf cfg sess)
        (budget0.getD ⟨0, 0, 0⟩).done_count
        (if sess = "morning" then (budget0.getD ⟨0, 0, 0⟩).morning_done
         else (budget0.getD ⟨0, 0, 0⟩).close_done) hm
      rw [intelDeepdiveBody_budget_done]
      omega

/-- C7 counterexample: in catch-up mode (process_all_candidates) the budget
gate is bypassed, and done_count exceeds the configured daily budget of 1. -/
theorem done_count_can_exceed_daily_budget :
    cfgUnlimited.daily_budget = 1 ∧
    (intelDeepdive cfgUnlimited "2026-02-13" "close"
        (some ⟨1, 1, 0⟩) [] [entryPend] behAllOk).budget.done_count = 2 := by
  decide

/-- Witness for daily_budget_sum_and_cap on a concrete gated run with one
pending candidate. -/
theorem daily_budget_sum_and_cap_witness :
    ((some (IntelDailyBudget.mk 1 1 0)).getD ⟨0, 0, 0⟩).done_count =
      ((some (IntelDailyBudget.mk 1 1 0)).getD ⟨0, 0, 0⟩).morning_done +
      ((some (IntelDailyBudget.mk 1 1 0)).getD ⟨0, 0, 0⟩).close_done ∧
    (intelDeepdive cfgGated "2026-02-13" "close" (some ⟨1, 1, 0⟩) [] [entryPend]
        behAllOk).budget.done_count =
      (intelDeepdive cfgGated "2026-02-13" "close" (some ⟨1, 1, 0⟩) [] [entryPend]
        behAllOk).budget.morning_done +
      (intelDeepdive cfgGated "2026-02-13" "close" (some ⟨1, 1, 0⟩) [] [entryPend]
        behAllOk).budget.close_done ∧
    (intelDeepdive cfgGated "2026-02-13" "close" (some ⟨1, 1, 0⟩) [] [entryPend]
        behAllOk).budget.done_count ≤ cfgGated.daily_budget :=
  ⟨by decide,
    daily_budget_sum_and_cap.1 cfgGated "2026-02-13" "close" (some ⟨1, 1, 0⟩)
      [] [entryPend] behAllOk (by decide),
    daily_budget_sum_and_cap.2 cfgGated "2026-02-13" "close" (some ⟨1, 1, 0⟩)
      [] [entryPend] behAllOk (by decide) (by decide) (by decide) (by decide)⟩

/-! String lemmas for the LLM-chain theorems. -/

theorem mem_dropWhile_of_false {p : Char → Bool} {c : Char} :
    ∀ {l : List Char}, c ∈ l → p c = false → c ∈ l.dropWhile p := by
  intro l
  induction l with
  | nil => intro h; simp at h
  | cons x rest ih =>
    intro h hpc
    rw [List.dropWhile]
    by_cases hx : p x
    · rw [hx]
      rcases List.mem_cons.mp h with rfl | hmem
      · rw [hx] at hpc; cases hpc
      · exact ih hmem hpc
    · rw [Bool.not_eq_true] at hx
      rw [hx]
      exact h

theorem collapseGo_mem {c : Char} :
    ∀ {l : List Char} (b : Bool), c ∈ l → isPySpace c = false →
      c ∈ collapseGo b l := by
  intro l
  induction l with
  | nil => intro b h _; simp at h
  | cons x rest ih =>
    intro b h hc
    rcases List.mem_cons.mp h with rfl | hmem
    · have hstep : collapseGo b (c :: rest) = c :: collapseGo false rest := by
        simp only [collapseGo]
        rw [if_neg (by simp [hc])]
      rw [hstep]
      simp
    · by_cases hx : isPySpace x
      · cases b
        · have hstep : collapseGo false (x :: rest) =
              ' ' :: collapseGo true rest := by
            simp only [collapseGo]
            simp [hx]
          rw [hstep]
          exact List.mem_cons_of_mem _ (ih true hmem hc)
        · have hstep : collapseGo true (x :: rest) = collapseGo true rest := by
            simp only [collapseGo]
            simp [hx]
          rw [hstep]
          exact ih true hmem hc
      · have hstep : collapseGo b (x :: rest) = x :: collapseGo false rest := by
          simp only [collapseGo]
          rw [if_neg (by simp [hx])]
        rw [hstep]
        exact List.mem_cons_of_mem _ (ih false hmem hc)

theorem collapseChars_mem {c : Char} :
    ∀ {l : List Char}, c ∈ l → isPySpace c = false → c ∈ collapseChars l := by
  intro l h hc
  exact collapseGo_mem false h hc

theorem stripChars_mem {c : Char} {l : List Char}
    (h : c ∈ l) (hc : isPySpace c = false) : c ∈ stripChars l := by
  unfold stripChars
  rw [List.mem_reverse]
  apply mem_dropWhile_of_false _ hc
  rw [List.mem_reverse]
  exact mem_dropWhile_of_false h hc

theorem normSpace_ne_empty {s : String} {c : Char}
    (h : c ∈ s.data) (hc : isPySpace c = false) : normSpace s ≠ "" := by
  intro hcontra
  have hmem : c ∈ (normSpace s).data :=
    stripChars_mem (collapseChars_mem h hc) hc
  rw [hcontra] at hmem
  simp at hmem

theorem str_append_data (a b : String) : (a ++ b).data = a.data ++ b.data :=
  String.data_append a b

theorem clean_text_ne_empty {s : String} {limit : ℕ}
    (h : ∃ c ∈ s.data, isPySpace c = false) (hl : 4 ≤ limit) :
    clean_text s limit ≠ "" := by
  obtain ⟨c, hmem, hc⟩ := h
  have hns : normSpace s ≠ "" := normSpace_ne_empty hmem hc
  unfold clean_text
  rw [if_neg hns]
  by_cases hlen : (normSpace s).length ≤ limit
  · rw [if_pos hlen]
    exact hns
  · rw [if_neg hlen, if_neg (by omega)]
    intro hcontra
    have hdata : ((⟨(normSpace s).data.take (limit - 3)⟩ : String) ++ "...").data
        = [] := by rw [hcontra]
    rw [str_append_data] at hdata
    have h3 : ("...".data).length = 3 := rfl
    have hlen0 := congrArg List.length hdata
    rw [List.length_append, h3] at hlen0
    simp at hlen0

theorem dropWhile_append_last {p : Char → Bool} {c : Char} (hc : p c = false) :
    ∀ (xs : List Char), (xs ++ [c]).dropWhile p = xs.dropWhile p ++ [c] := by
  intro xs
  induction xs with
  | nil => simp [List.dropWhile, hc]
  | cons x rest ih =>
    by_cases hx : p x
    · rw [List.cons_append, List.dropWhile_cons_of_pos hx,
          List.dropWhile_cons_of_pos hx]
      exact ih
    · rw [List.cons_append, List.dropWhile_cons_of_neg hx,
          List.dropWhile_cons_of_neg hx, List.cons_append]

theorem stripChars_cons_head {c : Char} {l : List Char}
    (hc : isPySpace c = false) :
    ∃ l2, stripChars (c :: l) = c :: l2 := by
  unfold stripChars
  rw [List.dropWhile_cons_of_neg (by simp [hc])]
  have : (c :: l).reverse = l.reverse ++ [c] := by simp
  rw [this, dropWhile_append_last hc l.reverse]
  exact ⟨((l.reverse.dropWhile isPySpace).reverse : List Char), by simp⟩

theorem collapseChars_cons_head {c : Char} {l : List Char}
    (hc : isPySpace c = false) :
    collapseChars (c :: l) = c :: collapseChars l := by
  unfold collapseChars
  simp only [collapseGo]
  rw [if_neg (by simp [hc])]

theorem normSpace_head {s : String} {c : Char} {rest : List Char}
    (hdata : s.data = c :: rest) (hc : isPySpace c = false) :
    ∃ t, (normSpace s).data = c :: t := by
  unfold normSpace
  rw [hdata, collapseChars_cons_head hc]
  obtain ⟨l2, hl2⟩ := stripChars_cons_head (l := collapseChars rest) hc
  exact ⟨l2, by rw [hl2]⟩

theorem clean_text_head {s : String} {c : Char} {rest : List Char} {limit : ℕ}
    (hdata : s.data = c :: rest) (hc : isPySpace c = false) (hl : 4 ≤ limit) :
    ∃ t, (clean_text s limit).data = c :: t := by
  obtain ⟨t, ht⟩ := normSpace_head hdata hc
  unfold clean_text
  rw [if_neg (by intro hcontra; rw [hcontra] at ht; cases ht)]
  by_cases hlen : (normSpace s).length ≤ limit
  · rw [if_pos hlen]
    exact ⟨t, ht⟩
  · rw [if_neg hlen, if_neg (by omega)]
    refine ⟨t.take (limit - 3 - 1) ++ "...".data, ?_⟩
    rw [str_append_data]
    simp only [ht]
    rw [List.take_cons (by omega)]
    simp

theorem normTextGo_superset {item_limit limit : ℕ} {x : String} :
    ∀ {items : List String} {out : List String}, x ∈ out →
      x ∈ normTextGo item_limit limit out items := by
  intro items
  induction items with
  | nil => intro out h; exact h
  | cons item rest ih =>
    intro out h
    rw [normTextGo]
    by_cases h1 : clean_text item item_limit = ""
    · rw [if_pos h1]; exact ih h
    · rw [if_neg h1]
      by_cases h2 : pyLower (clean_text item item_limit) ∈ normDropList
      · rw [if_pos h2]; exact ih h
      · rw [if_neg h2]
        by_cases h3 : clean_text item item_limit ∈ out
        · simp only [if_pos h3]
          by_cases h4 : limit ≤ out.length
          · rw [if_pos h4]; exact h
          · rw [if_neg h4]; exact ih h
        · simp only [if_neg h3]
          by_cases h4 : limit ≤ (out ++ [clean_text item item_limit]).length
          · rw [if_pos h4]; exact List.mem_append_left _ h
          · rw [if_neg h4]; exact ih (List.mem_append_left _ h)

theorem normTextGo_mem_early {item_limit limit : ℕ} {x : String} :
    ∀ (pre : List String) {post out : List String},
      clean_text x item_limit ≠ "" →
      pyLower (clean_text x item_limit) ∉ normDropList →
      out.length + pre.length < limit →
      clean_text x item_limit ∈
        normTextGo item_limit limit out (pre ++ x :: post) := by
  intro pre
  induction pre with
  | nil =>
    intro post out hx1 hx2 hcount
    rw [List.nil_append, normTextGo, if_neg hx1, if_neg hx2]
    by_cases h3 : clean_text x item_limit ∈ out
    · simp only [if_pos h3]
      by_cases h4 : limit ≤ out.length
      · rw [if_pos h4]; exact h3
      · rw [if_neg h4]; exact normTextGo_superset h3
    · simp only [if_neg h3]
      have hx : clean_text x item_limit ∈ out ++ [clean_text x item_limit] := by
        simp
      by_cases h4 : limit ≤ (out ++ [clean_text x item_limit]).length
      · rw [if_pos h4]; exact hx
      · rw [if_neg h4]; exact normTextGo_superset hx
  | cons p pre2 ih =>
    intro post out hx1 hx2 hcount
    rw [List.cons_append, normTextGo]
    by_cases h1 : clean_text p item_limit = ""
    · rw [if_pos h1]
      exact ih hx1 hx2 (by simp at hcount ⊢; omega)
    · rw [if_neg h1]
      by_cases h2 : pyLower (clean_text p item_limit) ∈ normDropList
      · rw [if_pos h2]
        exact ih hx1 hx2 (by simp at hcount ⊢; omega)
      · rw [if_neg h2]
        by_cases h3 : clean_text p item_limit ∈ out
        · simp only [if_pos h3]
          rw [if_neg (by simp at hcount ⊢; omega)]
          exact ih hx1 hx2 (by simp at hcount ⊢; omega)
        · simp only [if_neg h3]
          rw [if_neg (by simp at hcount ⊢; omega)]
          exact ih hx1 hx2 (by simp at hcount ⊢; omega)

theorem build_deterministic_summary_ne_empty (code : String)
    (sp : List SourceRow) (meta : SourceMeta) (facts : List String) :
    build_deterministic_summary code sp meta facts ≠ "" := by
  simp only [build_deterministic_summary]
  by_cases hf : facts ≠ []
  · rw [if_pos hf]
    apply clean_text_ne_empty _ (by norm_num)
    refine ⟨'に', ?_, by decide⟩
    simp only [str_append_data, List.mem_append]
    left; left; right
    decide
  · rw [if_neg hf]
    by_cases hs : has_substantive_full_text sp
    · rw [if_pos hs]
      apply clean_text_ne_empty _ (by norm_num)
      refine ⟨'に', ?_, by decide⟩
      simp only [str_append_data, List.mem_append]
      right
      decide
    · rw [if_neg hs]
      apply clean_text_ne_empty _ (by norm_num)
      refine ⟨'に', ?_, by decide⟩
      simp only [str_append_data, List.mem_append]
      right
      decide

theorem ite_singleton_length_le {c : Prop} [Decidable c] (a : String) :
    (if c then [a] else []).length ≤ 1 := by
  split <;> simp

theorem fallback_data_gaps_llm_error (code : String) (sp : List SourceRow)
    (r : String) (hr : r ≠ "") :
    clean_text ("llm_error: " ++ clean_text r 140) 140 ∈
      (fallbackPayload code sp (some r)).data_gaps := by
  have hxdata : ("llm_error: " ++ clean_text r 140).data =
      'l' :: ("lm_error: ".data ++ (clean_text r 140).data) := by
    rw [str_append_data]
    rfl
  have hx1 : clean_text ("llm_error: " ++ clean_text r 140) 140 ≠ "" := by
    apply clean_text_ne_empty _ (by norm_num)
    exact ⟨'l', by rw [hxdata]; simp, by decide⟩
  obtain ⟨t, ht⟩ := clean_text_head hxdata (by decide) (by norm_num : (4:ℕ) ≤ 140)
  have hx2 : pyLower (clean_text ("llm_error: " ++ clean_text r 140) 140) ∉
      normDropList := by
    intro hcontra
    have hld : (pyLower (clean_text ("llm_error: " ++ clean_text r 140) 140)).data
        = 'l' :: t.map Char.toLower := by
      show ((clean_text ("llm_error: " ++ clean_text r 140) 140).data.map
        Char.toLower) = 'l' :: t.map Char.toLower
      rw [ht]
      rfl
    have hhead : ∀ w ∈ normDropList,
        pyLower (clean_text ("llm_error: " ++ clean_text r 140) 140) ≠ w := by
      intro w hw heq
      have h2 := congrArg (fun s => s.data.head?) heq
      simp only [hld] at h2
      simp only [normDropList, List.mem_cons, List.not_mem_nil, or_false] at hw
      rcases hw with rfl | rfl | rfl | rfl | rfl | rfl <;>
        (simp only [List.head?_cons] at h2; exact absurd h2 (by decide))
    exact hhead _ hcontra rfl
  show clean_text ("llm_error: " ++ clean_text r 140) 140 ∈
    normalize_text_list (some _) 4 140
  unfold normalize_text_list
  have hshape :
      (if ¬ has_substantive_full_text sp then ["報告書本文の取得または抽出が不十分"] else [])
      ++ (if ¬ has_xbrl_facts sp then ["XBRLの主要数値は未取得"] else [])
      ++ (match (resolve_source_meta sp).published_at with
          | none => ["公開日時が未取得"]
          | some s => if s = "" then ["公開日時が未取得"] else [])
      ++ (match (some r : Option String) with
          | some r => if r ≠ "" then ["llm_error: " ++ clean_text r 140] else []
          | none => [])
      ++ (if build_deterministic_facts sp 3 = [] then ["本文から有効な要点を抽出できず"] else [])
      =
      ((if ¬ has_substantive_full_text sp then ["報告書本文の取得または抽出が不十分"] else [])
       ++ (if ¬ has_xbrl_facts sp then ["XBRLの主要数値は未取得"] else [])
       ++ (match (resolve_source_meta sp).published_at with
           | none => ["公開日時が未取得"]
           | some s => if s = "" then ["公開日時が未取得"] else []))
      ++ ("llm_error: " ++ clean_text r 140)
      :: (if build_deterministic_facts sp 3 = [] then ["本文から有効な要点を抽出できず"] else []) := by
    simp [hr, List.append_assoc]
  show clean_text ("llm_error: " ++ clean_text r 140) 140 ∈ normTextGo 140 4 [] _
  rw [hshape]
  apply normTextGo_mem_early _ hx1 hx2
  have l1 := ite_singleton_length_le
    (c := ¬ has_substantive_full_text sp) "報告書本文の取得または抽出が不十分"
  have l2 := ite_singleton_length_le (c := ¬ has_xbrl_facts sp) "XBRLの主要数値は未取得"
  have l3 : (match (resolve_source_meta sp).published_at with
      | none => ["公開日時が未取得"]
      | some s => if s = "" then ["公開日時が未取得"] else []).length ≤ 1 := by
    rcases (resolve_source_meta sp).published_at with _ | s
    · simp
    · simp only []
      split <;> simp
  simp only [List.length_nil, List.length_append]
  omega

/-- C1: the chain is a total function of the endpoint behaviour (it never
raises); on a transport/extraction error, and when validation fails on both
the initial output and on the single repair attempt, it returns exactly the
deterministic Stage-4 fallback triple with valid false; and the fallback
payload always has a non-empty summary and, for a non-empty underlying error,
a data_gaps entry naming that error. -/
theorem summarize_never_raises_and_falls_back :
    (∀ code sp beh e, beh.initial = Except.error e →
      summarize_symbol_intel code sp beh =
        (fallbackPayload code sp (some e), false, some e)) ∧
    (∀ code sp beh po verr, beh.initial = Except.ok po →
      parse_and_validate po = Except.error verr →
      (∀ ro, beh.repair = Except.ok ro →
        ∃ e2, parse_and_validate ro = Except.error e2) →
      summarize_symbol_intel code sp beh =
        (fallbackPayload code sp (some verr), false, some verr)) ∧
    (∀ code sp (r : String), r ≠ "" →
      (fallbackPayload code sp (some r)).summary ≠ "" ∧
      clean_text ("llm_error: " ++ clean_text r 140) 140 ∈
        (fallbackPayload code sp (some r)).data_gaps) := by
  refine ⟨?_, ?_, ?_⟩
  · intro code sp beh e h
    unfold summarize_symbol_intel
    rw [h]
  · intro code sp beh po verr h1 h2 h3
    unfold summarize_symbol_intel
    simp only [h1, h2]
    rcases hrep : beh.repair with e2 | ro
    · simp only [hrep]
    · obtain ⟨e3, he3⟩ := h3 ro hrep
      simp only [hrep, he3]
  · intro code sp r hr
    exact ⟨build_deterministic_summary_ne_empty code sp _ _,
      fallback_data_gaps_llm_error code sp r hr⟩

/-- Witness for summarize_never_raises_and_falls_back on a behaviour whose
initial call raises and whose repair also raises. -/
theorem summarize_never_raises_and_falls_back_witness :
    (LlmBehaviour.mk (Except.error "connect timeout") (Except.error "x")).initial
        = Except.error "connect timeout" ∧
    summarize_symbol_intel "7203" []
        (LlmBehaviour.mk (Except.error "connect timeout") (Except.error "x")) =
      (fallbackPayload "7203" [] (some "connect timeout"), false,
        some "connect timeout") ∧
    (fallbackPayload "7203" [] (some "connect timeout")).summary ≠ "" ∧
    clean_text ("llm_error: " ++ clean_text "connect timeout" 140) 140 ∈
      (fallbackPayload "7203" [] (some "connect timeout")).data_gaps :=
  ⟨rfl,
    summarize_never_raises_and_falls_back.1 "7203" []
      (LlmBehaviour.mk (Except.error "connect timeout") (Except.error "x"))
      "connect timeout" rfl,
    (summarize_never_raises_and_falls_back.2.2 "7203" [] "connect timeout"
      (by decide)).1,
    (summarize_never_raises_and_falls_back.2.2 "7203" [] "connect timeout"
      (by decide)).2⟩

/-! Schema validity of the chain outputs (C10). -/

theorem str_ne_empty_data {s : String} (h : s ≠ "") : s.data ≠ [] := by
  intro hc
  cases s
  simp only at hc
  subst hc
  exact h rfl

theorem one_le_length_of_ne_empty (s : String) (h : s ≠ "") : 1 ≤ s.length :=
  List.length_pos.mpr (str_ne_empty_data h)

theorem append_ne_empty_of_right {a b : String} (h : b ≠ "") : a ++ b ≠ "" := by
  intro hc
  have := congrArg String.data hc
  rw [str_append_data] at this
  simp at this
  exact str_ne_empty_data h this.2

theorem resolve_source_meta_url_ne_empty (sp : List SourceRow) :
    (resolve_source_meta sp).source_url ≠ "" := by
  simp only [resolve_source_meta]
  split
  · decide
  · assumption

theorem resolve_source_meta_type_ne_empty (sp : List SourceRow) :
    (resolve_source_meta sp).source_type ≠ "" := by
  simp only [resolve_source_meta]
  split
  · decide
  · assumption

theorem fallbackPayload_headline_ne_empty (code : String) (sp : List SourceRow)
    (reason : Option String) :
    (fallbackPayload code sp reason).headline ≠ "" := by
  simp only [fallbackPayload]
  split
  · exact append_ne_empty_of_right (by decide)
  · assumption

theorem merge_headline_ne_empty (code : String) (parsed : ValidatedIntel)
    (sp : List SourceRow) :
    (merge_source_fields code parsed sp).headline ≠ "" := by
  simp only [merge_source_fields]
  by_cases h1 : clean_text parsed.headline 160 ≠ ""
  · simp [h1]
  · simp only [h1, if_false]
    split
    · exact append_ne_empty_of_right (by decide)
    · assumption

theorem isStrArr_map (l : List String) :
    isStrArr (JVal.jarr (l.map JVal.jstr)) = true := by
  simp [isStrArr, List.all_map]

set_option maxHeartbeats 1000000 in
theorem validate_outToJVal (p : OutPayload) (h1 : p.headline ≠ "")
    (h2 : p.source_url ≠ "") (h3 : p.source_type ≠ "") :
    validate_intel_payload (outToJVal p) = true := by
  have l1 := one_le_length_of_ne_empty _ h1
  have l2 := one_le_length_of_ne_empty _ h2
  have l3 := one_le_length_of_ne_empty _ h3
  obtain ⟨hd, pub, su, st, sm, fa, ta, rf, cr, er, dg⟩ := p
  simp only at l1 l2 l3
  rcases pub with _ | ps <;>
    simp [validate_intel_payload, outToJVal, jlookup, List.find?,
      requiredIntelFields, propOk, isStrArr_map, l1, l2, l3]

/-- C10: every payload the chain can return — the deterministic fallback and
the merge of a validated model output — satisfies the fixed intel schema
(validate_intel_payload accepts its JSON form); in particular the headline,
source_url and source_type are non-empty and no key outside the schema's
property set appears. -/
theorem chain_output_schema_valid :
    (∀ code sp reason,
      validate_intel_payload (outToJVal (fallbackPayload code sp reason)) = true) ∧
    (∀ code parsed sp,
      validate_intel_payload (outToJVal (merge_source_fields code parsed sp)) = true) ∧
    (∀ code sp beh,
      validate_intel_payload
        (outToJVal (summarize_symbol_intel code sp beh).1) = true) := by
  have hfall : ∀ code sp reason,
      validate_intel_payload (outToJVal (fallbackPayload code sp reason)) = true := by
    intro code sp reason
    exact validate_outToJVal _ (fallbackPayload_headline_ne_empty code sp reason)
      (resolve_source_meta_url_ne_empty sp) (resolve_source_meta_type_ne_empty sp)
  have hmerge : ∀ code parsed sp,
      validate_intel_payload (outToJVal (merge_source_fields code parsed sp)) = true := by
    intro code parsed sp
    exact validate_outToJVal _ (merge_headline_ne_empty code parsed sp)
      (resolve_source_meta_url_ne_empty sp) (resolve_source_meta_type_ne_empty sp)
  refine ⟨hfall, hmerge, ?_⟩
  intro code sp beh
  unfold summarize_symbol_intel
  rcases hi : beh.initial with e | po
  · simp only [hi]
    exact hfall code sp (some e)
  · rcases hpv : parse_and_validate po with verr | parsed
    · rcases hr : beh.repair with e2 | ro
      · simp only [hi, hpv, hr]
        exact hfall code sp (some verr)
      · rcases hpv2 : parse_and_validate ro with e3 | repaired
        · simp only [hi, hpv, hr, hpv2]
          exact hfall code sp (some verr)
        · simp only [hi, hpv, hr, hpv2]
          exact hmerge code repaired sp
    · simp only [hi, hpv]
      exact hmerge code parsed sp

theorem asStrList_of_all_str :
    ∀ (items : List JVal), (∀ x ∈ items, ∃ s, x = JVal.jstr s) →
      ∃ l, asStrListGo items = some l := by
  intro items
  induction items with
  | nil => exact fun _ => ⟨[], rfl⟩
  | cons it rest ih =>
    intro h
    obtain ⟨s, rfl⟩ := h it (by simp)
    obtain ⟨l, hl⟩ := ih (fun x hx => h x (List.mem_cons_of_mem _ hx))
    exact ⟨s :: l, by simp [asStrListGo, asStr, hl]⟩

theorem isStrArr_asStrList {v : JVal} (hv : isStrArr v = true) :
    ∃ l, asStrList v = some l := by
  rcases v with _ | _ | _ | _ | items | _ <;> simp [isStrArr] at hv
  rw [asStrList]
  apply asStrList_of_all_str
  intro x hx
  have h2 := hv x hx
  rcases x with _ | _ | _ | sx | _ | _ <;> simp at h2
  exact ⟨sx, rfl⟩

/-- Unreachability of the defensive branch of parse_and_validate: a payload
accepted by the schema always extracts to a typed ValidatedIntel. -/
theorem validate_implies_toValidated {fields : List (String × JVal)}
    (h : validate_intel_payload (JVal.jobj fields) = true) :
    (toValidated (JVal.jobj fields)).isSome = true := by
  rw [validate_intel_payload] at h
  rw [Bool.and_eq_true] at h
  obtain ⟨hreq, hprops⟩ := h
  have hall := List.all_eq_true.mp hprops
  have hlook : ∀ k v, jlookup fields k = some v → propOk k v = true := by
    intro k v hv
    rcases hfind : fields.find? (fun p => p.1 == k) with _ | pair
    · rw [jlookup, hfind] at hv
      cases hv
    · have hveq : pair.2 = v := by
        rw [jlookup, hfind] at hv
        simpa using hv
      have hpmem := List.mem_of_find?_eq_some hfind
      have hpk : pair.1 = k := by simpa using List.find?_some hfind
      have hthis := hall pair hpmem
      rw [hpk] at hthis
      simp only [hv] at hthis
      simpa using hthis
  have hreqs := List.all_eq_true.mp hreq
  have hget : ∀ k, k ∈ requiredIntelFields →
      ∃ v, jlookup fields k = some v ∧ propOk k v = true := by
    intro k hk
    have := hreqs k hk
    simp only [Option.isSome_iff_exists, decide_eq_true_eq] at this
    obtain ⟨v, hv⟩ := this
    exact ⟨v, hv, hlook k v hv⟩
  obtain ⟨v1, hv1, hp1⟩ := hget "headline" (by simp [requiredIntelFields])
  obtain ⟨v2, hv2, hp2⟩ := hget "published_at" (by simp [requiredIntelFields])
  obtain ⟨v3, hv3, hp3⟩ := hget "source_url" (by simp [requiredIntelFields])
  obtain ⟨v4, hv4, hp4⟩ := hget "source_type" (by simp [requiredIntelFields])
  obtain ⟨v5, hv5, hp5⟩ := hget "facts" (by simp [requiredIntelFields])
  obtain ⟨v6, hv6, hp6⟩ := hget "tags" (by simp [requiredIntelFields])
  obtain ⟨v7, hv7, hp7⟩ := hget "risk_flags" (by simp [requiredIntelFields])
  obtain ⟨v8, hv8, hp8⟩ := hget "critical_risk" (by simp [requiredIntelFields])
  obtain ⟨v9, hv9, hp9⟩ := hget "evidence_refs" (by simp [requiredIntelFields])
  obtain ⟨v10, hv10, hp10⟩ := hget "data_gaps" (by simp [requiredIntelFields])
  have hget2 : ∀ k, k ∈ requiredIntelFields →
      ∃ v, jlookup fields k = some v ∧ propOk k v = true := hget
  rcases v1 with _ | _ | _ | s1 | _ | _ <;> simp [propOk] at hp1
  rcases v3 with _ | _ | _ | s3 | _ | _ <;> simp [propOk] at hp3
  rcases v4 with _ | _ | _ | s4 | _ | _ <;> simp [propOk] at hp4
  rcases v8 with _ | b8 | _ | _ | _ | _ <;> simp [propOk] at hp8
  simp only [propOk] at hp5 hp6 hp7 hp9 hp10
  norm_num at hp5 hp6 hp7 hp9 hp10
  obtain ⟨l5, hl5⟩ := isStrArr_asStrList hp5
  obtain ⟨l6, hl6⟩ := isStrArr_asStrList hp6
  obtain ⟨l7, hl7⟩ := isStrArr_asStrList hp7
  obtain ⟨l9, hl9⟩ := isStrArr_asStrList hp9
  obtain ⟨l10, hl10⟩ := isStrArr_asStrList hp10
  rcases v2 with _ | _ | _ | s2 | _ | _ <;> simp [propOk] at hp2 <;>
    simp [toValidated, hv1, hv2, hv3, hv4, hv5, hv6, hv7, hv8, hv9, hv10,
      hl5, hl6, hl7, hl9, hl10, asStr, asStrOrNull, asBool]

theorem resolveMetaGo_url :
    ∀ (sp : List SourceRow) (acc : MetaAcc),
      (resolveMetaGo acc sp).source_url =
        (if acc.source_url = "" then
          (firstNonempty ((processedRowsGo acc.evidence_refs sp).map
            (fun row => clean_text (optStr row.source_url) 240))).getD ""
         else acc.source_url) := by
  intro sp
  induction sp with
  | nil =>
    intro acc
    by_cases h : acc.source_url = "" <;>
      simp [resolveMetaGo, processedRowsGo, firstNonempty, h]
  | cons row rest ih =>
    intro acc
    simp only [resolveMetaGo, processedRowsGo]
    by_cases hbrk : 5 ≤ (rowRefsStep acc.evidence_refs row).length
    · rw [if_pos hbrk, if_pos hbrk]
      by_cases hacc : acc.source_url = "" <;>
        by_cases hrow : clean_text (optStr row.source_url) 240 = "" <;>
          simp [firstNonempty, hacc, hrow]
    · rw [if_neg hbrk, if_neg hbrk, ih]
      by_cases hacc : acc.source_url = "" <;>
        by_cases hrow : clean_text (optStr row.source_url) 240 = "" <;>
          simp [firstNonempty, hacc, hrow]

theorem resolveMetaGo_type :
    ∀ (sp : List SourceRow) (acc : MetaAcc),
      (resolveMetaGo acc sp).source_type =
        (if acc.source_type = "" then
          (firstNonempty ((processedRowsGo acc.evidence_refs sp).map
            (fun row => clean_text (optStr row.source_type) 40))).getD ""
         else acc.source_type) := by
  intro sp
  induction sp with
  | nil =>
    intro acc
    by_cases h : acc.source_type = "" <;>
      simp [resolveMetaGo, processedRowsGo, firstNonempty, h]
  | cons row rest ih =>
    intro acc
    simp only [resolveMetaGo, processedRowsGo]
    by_cases hbrk : 5 ≤ (rowRefsStep acc.evidence_refs row).length
    · rw [if_pos hbrk, if_pos hbrk]
      by_cases hacc : acc.source_type = "" <;>
        by_cases hrow : clean_text (optStr row.source_type) 40 = "" <;>
          simp [firstNonempty, hacc, hrow]
    · rw [if_neg hbrk, if_neg hbrk, ih]
      by_cases hacc : acc.source_type = "" <;>
        by_cases hrow : clean_text (optStr row.source_type) 40 = "" <;>
          simp [firstNonempty, hacc, hrow]

theorem resolveMetaGo_published :
    ∀ (sp : List SourceRow) (acc : MetaAcc),
      (resolveMetaGo acc sp).published_at =
        (match acc.published_at with
         | some x => some x
         | none => firstNonempty ((processedRowsGo acc.evidence_refs sp).map
             (fun row => clean_text (optStr row.published_at) 40))) := by
  intro sp
  induction sp with
  | nil =>
    intro acc
    rcases h : acc.published_at with _ | x <;>
      simp [resolveMetaGo, processedRowsGo, firstNonempty, h]
  | cons row rest ih =>
    intro acc
    simp only [resolveMetaGo, processedRowsGo]
    by_cases hbrk : 5 ≤ (rowRefsStep acc.evidence_refs row).length
    · rw [if_pos hbrk, if_pos hbrk]
      rcases hacc : acc.published_at with _ | x <;>
        by_cases hrow : clean_text (optStr row.published_at) 40 = "" <;>
          simp [firstNonempty, hacc, hrow]
    · rw [if_neg hbrk, if_neg hbrk, ih]
      rcases hacc : acc.published_at with _ | x <;>
        by_cases hrow : clean_text (optStr row.published_at) 40 = "" <;>
          simp [firstNonempty, hacc, hrow]

theorem mergeRefsGo_superset {x : String} :
    ∀ {l a : List String}, x ∈ a → x ∈ mergeRefsGo a l := by
  intro l
  induction l with
  | nil => intro a h; exact h
  | cons ref rest ih =>
    intro a h
    rw [mergeRefsGo]
    by_cases hc : ref ≠ "" ∧ ref ∉ a
    · simp only [if_pos hc]
      by_cases h5 : 5 ≤ (a ++ [ref]).length
      · rw [if_pos h5]
        exact List.mem_append_left _ h
      · rw [if_neg h5]
        exact ih (List.mem_append_left _ h)
    · simp only [if_neg hc]
      by_cases h5 : 5 ≤ a.length
      · rw [if_pos h5]
        exact h
      · rw [if_neg h5]
        exact ih h

theorem mergeRefsGo_mem_or_cap {r : String} (hr : r ≠ "") :
    ∀ {l a : List String}, r ∈ l →
      r ∈ mergeRefsGo a l ∨ 5 ≤ (mergeRefsGo a l).length := by
  intro l
  induction l with
  | nil => intro a h; simp at h
  | cons ref rest ih =>
    intro a h
    rw [mergeRefsGo]
    rcases List.mem_cons.mp h with rfl | hmem
    · by_cases hc : r ∉ a
      · simp only [if_pos (And.intro hr hc)]
        by_cases h5 : 5 ≤ (a ++ [r]).length
        · rw [if_pos h5]
          exact Or.inl (by simp)
        · rw [if_neg h5]
          exact Or.inl (mergeRefsGo_superset (by simp))
      · rw [Decidable.not_not] at hc
        have hnc : ¬ (r ≠ "" ∧ r ∉ a) := fun hx => hx.2 hc
        simp only [if_neg hnc]
        by_cases h5 : 5 ≤ a.length
        · rw [if_pos h5]
          exact Or.inl hc
        · rw [if_neg h5]
          exact Or.inl (mergeRefsGo_superset hc)
    · by_cases hc : ref ≠ "" ∧ ref ∉ a
      · simp only [if_pos hc]
        by_cases h5 : 5 ≤ (a ++ [ref]).length
        · rw [if_pos h5]
          exact Or.inr h5
        · rw [if_neg h5]
          exact ih hmem
      · simp only [if_neg hc]
        by_cases h5 : 5 ≤ a.length
        · rw [if_pos h5]
          exact Or.inr h5
        · rw [if_neg h5]
          exact ih hmem

theorem firstNonempty_some_ne :
    ∀ {l : List String} {u : String}, firstNonempty l = some u → u ≠ "" := by
  intro l
  induction l with
  | nil => intro u h; simp [firstNonempty] at h
  | cons s rest ih =>
    intro u h
    rw [firstNonempty] at h
    by_cases hs : s ≠ ""
    · rw [if_pos hs] at h
      cases h
      exact hs
    · rw [if_neg hs] at h
      exact ih h

/-- C2 counterexample, in two parts at concrete inputs: (a) with no evidence
item providing a publish date, the merged record's published_at is null even
though the validated model output offered one, refuting never-left-null;
(b) with the model output already holding five evidence_refs and the evidence
providing two URLs, the second evidence URL is dropped at the cap, refuting
always-merged. -/
theorem merged_published_can_be_null_and_refs_capped :
    ((merge_source_fields "7203"
        (ValidatedIntel.mk "h" (some "2025-01-01") "http://model.example/x"
          "model" none [] [] [] false [] [])
        [SourceRow.mk (some "http://ev.example/a") (some "edinet") (some "hl")
          none none none none none]).published_at = none) ∧
    ("u2" ∈ (resolve_source_meta
        [SourceRow.mk (some "u1") (some "edinet") (some "hl") (some "2025-01-01")
          none none none (some ["u2"])]).evidence_refs ∧
     "u2" ∉ (merge_source_fields "7203"
        (ValidatedIntel.mk "h" none "http://model.example/x" "model" none
          [] [] [] false ["r1", "r2", "r3", "r4", "r5"] [])
        [SourceRow.mk (some "u1") (some "edinet") (some "hl") (some "2025-01-01")
          none none none (some ["u2"])]).evidence_refs) := by
  refine ⟨?_, ?_, ?_⟩ <;> decide

/-- C2 amended: source_url, source_type and published_at of the merged record
always come from the evidence metadata resolver and never from the model
output; source_url and source_type are never empty (they default to unknown),
while published_at is null exactly when no scanned evidence item provides a
date; the resolver takes the first value provided among the evidence items it
scans before the five-reference break; and each evidence URL is merged into
evidence_refs unless the five-entry cap has been reached. -/
theorem merge_source_fields_traceability :
    (∀ code parsed sp,
      (merge_source_fields code parsed sp).source_url =
        (resolve_source_meta sp).source_url ∧
      (merge_source_fields code parsed sp).source_type =
        (resolve_source_meta sp).source_type ∧
      (merge_source_fields code parsed sp).published_at =
        (resolve_source_meta sp).published_at ∧
      (merge_source_fields code parsed sp).source_url ≠ "" ∧
      (merge_source_fields code parsed sp).source_type ≠ "") ∧
    (∀ sp,
      (resolve_source_meta sp).source_url =
        (match firstNonempty ((processedRows sp).map
            (fun row => clean_text (optStr row.source_url) 240)) with
         | some u => u
         | none => "unknown") ∧
      (resolve_source_meta sp).source_type =
        (match firstNonempty ((processedRows sp).map
            (fun row => clean_text (optStr row.source_type) 40)) with
         | some u => u
         | none => "unknown") ∧
      (resolve_source_meta sp).published_at =
        firstNonempty ((processedRows sp).map
          (fun row => clean_text (optStr row.published_at) 40))) ∧
    (∀ code parsed sp (r : String),
      r ∈ (resolve_source_meta sp).evidence_refs → r ≠ "" →
      r ∈ (merge_source_fields code parsed sp).evidence_refs ∨
      5 ≤ (merge_source_fields code parsed sp).evidence_refs.length) := by
  refine ⟨?_, ?_, ?_⟩
  · intro code parsed sp
    exact ⟨rfl, rfl, rfl, resolve_source_meta_url_ne_empty sp,
      resolve_source_meta_type_ne_empty sp⟩
  · intro sp
    refine ⟨?_, ?_, ?_⟩
    · show (if (resolveMetaGo ⟨"", "", none, "", []⟩ sp).source_url = ""
          then "unknown" else (resolveMetaGo ⟨"", "", none, "", []⟩ sp).source_url) = _
      rw [resolveMetaGo_url sp ⟨"", "", none, "", []⟩]
      rcases h : firstNonempty ((processedRowsGo ([] : List String) sp).map
          (fun row => clean_text (optStr row.source_url) 240)) with _ | u
      · simp [processedRows, h]
      · simp [processedRows, h, firstNonempty_some_ne h]
    · show (if (resolveMetaGo ⟨"", "", none, "", []⟩ sp).source_type = ""
          then "unknown" else (resolveMetaGo ⟨"", "", none, "", []⟩ sp).source_type) = _
      rw [resolveMetaGo_type sp ⟨"", "", none, "", []⟩]
      rcases h : firstNonempty ((processedRowsGo ([] : List String) sp).map
          (fun row => clean_text (optStr row.source_type) 40)) with _ | u
      · simp [processedRows, h]
      · simp [processedRows, h, firstNonempty_some_ne h]
    · show (resolveMetaGo ⟨"", "", none, "", []⟩ sp).published_at = _
      rw [resolveMetaGo_published sp ⟨"", "", none, "", []⟩]
      simp [processedRows]
  · intro code parsed sp r hr hrne
    have heq : (merge_source_fields code parsed sp).evidence_refs =
        (if mergeRefsGo (normalize_text_list (some parsed.evidence_refs) 5 240)
            (resolve_source_meta sp).evidence_refs = [] ∧
            (resolve_source_meta sp).source_url ≠ "unknown" then
          [(resolve_source_meta sp).source_url]
        else mergeRefsGo (normalize_text_list (some parsed.evidence_refs) 5 240)
            (resolve_source_meta sp).evidence_refs) := rfl
    rw [heq]
    rcases mergeRefsGo_mem_or_cap hrne
        (a := normalize_text_list (some parsed.evidence_refs) 5 240) hr with hm | hc
    · have hne : mergeRefsGo (normalize_text_list (some parsed.evidence_refs) 5 240)
          (resolve_source_meta sp).evidence_refs ≠ [] := List.ne_nil_of_mem hm
      rw [if_neg (fun hx => hne hx.1)]
      exact Or.inl hm
    · have hne : mergeRefsGo (normalize_text_list (some parsed.evidence_refs) 5 240)
          (resolve_source_meta sp).evidence_refs ≠ [] := by
        intro hx
        rw [hx] at hc
        simp at hc
      rw [if_neg (fun hx => hne hx.1)]
      exact Or.inr hc

/-- Witness for merge_source_fields_traceability at concrete inputs. -/
theorem merge_source_fields_traceability_witness :
    ("u1" : String) ∈ (resolve_source_meta
        [SourceRow.mk (some "u1") (some "edinet") (some "hl") none
          none none none none]).evidence_refs ∧
    ("u1" : String) ≠ "" ∧
    (("u1" : String) ∈ (merge_source_fields "7203"
        (ValidatedIntel.mk "h" none "http://model.example/x" "model" none
          [] [] [] false [] [])
        [SourceRow.mk (some "u1") (some "edinet") (some "hl") none
          none none none none]).evidence_refs ∨
     5 ≤ (merge_source_fields "7203"
        (ValidatedIntel.mk "h" none "http://model.example/x" "model" none
          [] [] [] false [] [])
        [SourceRow.mk (some "u1") (some "edinet") (some "hl") none
          none none none none]).evidence_refs.length) := by
  refine ⟨by decide, by decide, ?_⟩
  exact merge_source_fields_traceability.2.2 "7203"
    (ValidatedIntel.mk "h" none "http://model.example/x" "model" none
      [] [] [] false [] [])
    [SourceRow.mk (some "u1") (some "edinet") (some "hl") none
      none none none none] "u1" (by decide) (by decide)

theorem filter_default_ne_nil (l : List ℤ) :
    (if List.filter (fun x => decide (0 < x)) l = [] then ([5] : List ℤ)
     else List.filter (fun x => decide (0 < x)) l) ≠ [] := by
  split
  · simp
  · assumption

theorem mk_edinet_file_types_ne_nil (raw : Option (List ℤ)) :
    mk_edinet_file_types raw ≠ [] := by
  cases raw with
  | none => exact filter_default_ne_nil [5, 1, 2]
  | some l => exact filter_default_ne_nil (if l = [] then [5, 1, 2] else l)

theorem tryFileTypes_eq_find (beh : FetchBehaviour) (hl : String) :
    ∀ fts : List ℤ,
      tryFileTypes beh hl fts =
        (fts.find? (fun ft => acceptsVariant beh hl ft)).map
          (fun ft => (ft, variantResult beh ft)) := by
  intro fts
  induction fts with
  | nil => rfl
  | cons ft rest ih =>
    cases hd : beh.download ft with
    | none =>
      rw [tryFileTypes]
      simp only [hd]
      rw [List.find?_cons_of_neg _ (by simp [acceptsVariant, hd])]
      exact ih
    | some payload =>
      rw [tryFileTypes]
      simp only [hd]
      by_cases hp : payload = []
      · rw [if_pos hp,
          List.find?_cons_of_neg _ (by simp [acceptsVariant, hd, hp])]
        exact ih
      · rw [if_neg hp]
        by_cases hm : is_expected_edinet_payload payload ft = false
        · rw [if_pos hm,
            List.find?_cons_of_neg _ (by simp [acceptsVariant, hd, hp, hm])]
          exact ih
        · rw [if_neg hm]
          by_cases hacc : has_substantive_snippet
              (safe_text (beh.extractFull payload) 600) hl = false ∧
              beh.extractXbrl payload = []
          · rw [if_pos hacc,
              List.find?_cons_of_neg _
                (by simp [acceptsVariant, hd, hp, hm, hacc])]
            exact ih
          · rw [if_neg hacc,
              List.find?_cons_of_pos _
                (by simp [acceptsVariant, hd, hp, hm, hacc])]
            simp [variantResult, hd]

theorem has_substantive_snippet_iff (snippet headline : String) :
    has_substantive_snippet snippet headline = true ↔
      (24 ≤ (pyStrip snippet).length ∧
       looks_like_error_snippet (pyStrip snippet) = false ∧
       pySubstr "\x00" (pyStrip snippet) = false ∧
       pyStartsWith "%PDF-" (pyStrip snippet) = false ∧
       ctrlCount (pyStrip snippet) = 0 ∧
       (pyStrip headline ≠ "" →
         pyStrip snippet ≠ pyStrip headline ∧
         ¬(pyStartsWith (pyStrip headline) (pyStrip snippet) = true ∧
           (pyStrip snippet).length ≤ (pyStrip headline).length + 8))) := by
  simp only [has_substantive_snippet]
  split_ifs with h1 h2 h3 h4 h5 h6 h7 h8
  all_goals simp_all
  all_goals omega

set_option maxRecDepth 10000 in
/-- C3 counterexample: a decoded PDF payload text that meets every condition
of the claimed substantive-snippet characterization (length at least 24, no
error-phrase match, no embedded NUL, not identical to or a near-duplicate of
the headline) is nonetheless rejected by _has_substantive_snippet, because
the code additionally rejects snippets keeping the PDF header; consequently a
type-2 variant yielding it (and no XBRL facts) is not accepted by the fetch
loop. -/
theorem pdf_prefixed_snippet_rejected :
    (24 ≤ (pyStrip cexFull).length ∧
     looks_like_error_snippet (pyStrip cexFull) = false ∧
     pySubstr "\x00" (pyStrip cexFull) = false ∧
     pyStrip cexFull ≠ pyStrip "Annual Report" ∧
     ¬(pyStartsWith (pyStrip "Annual Report") (pyStrip cexFull) = true ∧
       (pyStrip cexFull).length ≤ (pyStrip "Annual Report").length + 8)) ∧
    has_substantive_snippet cexFull "Annual Report" = false ∧
    tryFileTypes cexBeh "Annual Report" [2] = none := by
  refine ⟨?_, ?_, ?_⟩ <;> decide

/-- C3 amended: the fetch loop tries the configured file-type variants in
order and returns the first accepted one (characterized by List.find?); a
payload failing its binary-signature check (PDF magic for type 2, ZIP magic
for types 1/3/4/5, empty payloads always rejected) is never accepted; a
variant is accepted exactly when its snippet is substantive — at least 24
characters after stripping, no error-phrase match, no NUL or other control
characters besides tab/CR/LF, not starting with the PDF header, and (for a
non-empty headline) neither equal to nor a near-duplicate of it — or its
XBRL fact list is non-empty; and when some variant is accepted, the returned
item's source_url and evidence_refs reference exactly the accepted file
type. -/
theorem fetch_doc_variant_selection :
    (∀ (beh : FetchBehaviour) (hl : String) (fts : List ℤ),
      tryFileTypes beh hl fts =
        (fts.find? (fun ft => acceptsVariant beh hl ft)).map
          (fun ft => (ft, variantResult beh ft))) ∧
    (∀ payload : Bytes, payload ≠ [] →
      is_expected_edinet_payload payload 2 = pdfMagic.isPrefixOf payload ∧
      (∀ ft : ℤ, ft = 1 ∨ ft = 3 ∨ ft = 4 ∨ ft = 5 →
        is_expected_edinet_payload payload ft = pkMagic.isPrefixOf payload)) ∧
    (∀ (beh : FetchBehaviour) (hl : String) (ft : ℤ) (payload : Bytes),
      beh.download ft = some payload →
      is_expected_edinet_payload payload ft = false →
      acceptsVariant beh hl ft = false) ∧
    (∀ s h, has_substantive_snippet s h = true ↔
      (24 ≤ (pyStrip s).length ∧
       looks_like_error_snippet (pyStrip s) = false ∧
       pySubstr "\x00" (pyStrip s) = false ∧
       pyStartsWith "%PDF-" (pyStrip s) = false ∧
       ctrlCount (pyStrip s) = 0 ∧
       (pyStrip h ≠ "" →
         pyStrip s ≠ pyStrip h ∧
         ¬(pyStartsWith (pyStrip h) (pyStrip s) = true ∧
           (pyStrip s).length ≤ (pyStrip h).length + 8)))) ∧
    (∀ (beh : FetchBehaviour) (base : String) (doc : EdinetDoc)
        (raw : Option (List ℤ)) (full_limit : ℕ) (code : String) (ft : ℤ),
      (mk_edinet_file_types raw).find?
          (fun t => acceptsVariant beh (docHeadline doc) t) = some ft →
      acceptsVariant beh (docHeadline doc) ft = true ∧
      (fetch_doc beh base doc (mk_edinet_file_types raw) full_limit
          code).source_url =
        buildDocUrl base (pyStrip (optStr doc.docID)) ft ∧
      (fetch_doc beh base doc (mk_edinet_file_types raw) full_limit
          code).evidence_refs =
        [buildDocUrl base (pyStrip (optStr doc.docID)) ft]) := by
  refine ⟨tryFileTypes_eq_find, ?_, ?_, has_substantive_snippet_iff, ?_⟩
  · intro payload hne
    constructor
    · unfold is_expected_edinet_payload
      rw [if_neg hne, if_pos rfl]
    · intro ft hft
      unfold is_expected_edinet_payload
      rw [if_neg hne, if_neg (by rcases hft with rfl | rfl | rfl | rfl <;> decide),
        if_pos hft]
  · intro beh hl ft payload hd hm
    unfold acceptsVariant
    simp only [hd]
    by_cases hp : payload = []
    · rw [if_pos hp]
    · rw [if_neg hp, if_pos hm]
  · intro beh base doc raw full_limit code ft hf
    have hT := tryFileTypes_eq_find beh (docHeadline doc)
      (mk_edinet_file_types raw)
    rw [hf] at hT
    simp only [Option.map_some'] at hT
    rcases hres : variantResult beh ft with ⟨snip, full, xbrl⟩
    rw [hres] at hT
    refine ⟨List.find?_some hf, ?_, ?_⟩ <;>
      · unfold fetch_doc
        rw [hT]

set_option maxRecDepth 10000 in
/-- Witness for fetch_doc_variant_selection: the primary type-5 payload has a
PDF signature and is rejected, the type-1 ZIP with substantive text wins, and
the returned URLs reference type 1. -/
theorem fetch_doc_variant_selection_witness :
    ((wBeh.download 5 = some wPdfBytes ∧
      is_expected_edinet_payload wPdfBytes 5 = false ∧
      acceptsVariant wBeh (docHeadline wDoc) 5 = false) ∧
     (mk_edinet_file_types (some [5, 1, 2])).find?
        (fun t => acceptsVariant wBeh (docHeadline wDoc) t) = some 1 ∧
     acceptsVariant wBeh (docHeadline wDoc) 1 = true ∧
     (fetch_doc wBeh "https://api.edinet-fsa.go.jp" wDoc
         (mk_edinet_file_types (some [5, 1, 2])) 30000 "7203").source_url =
       buildDocUrl "https://api.edinet-fsa.go.jp" (pyStrip (optStr wDoc.docID))
         1 ∧
     (fetch_doc wBeh "https://api.edinet-fsa.go.jp" wDoc
         (mk_edinet_file_types (some [5, 1, 2])) 30000 "7203").evidence_refs =
       [buildDocUrl "https://api.edinet-fsa.go.jp" (pyStrip (optStr wDoc.docID))
         1]) ∧
    (24 ≤ (pyStrip wText).length ∧ has_substantive_snippet wText
        (docHeadline wDoc) = true) := by
  refine ⟨⟨⟨rfl, by decide, fetch_doc_variant_selection.2.2.1 wBeh
      (docHeadline wDoc) 5 wPdfBytes rfl (by decide)⟩, ?_⟩, by decide, by decide⟩
  have h := fetch_doc_variant_selection.2.2.2.2 wBeh
    "https://api.edinet-fsa.go.jp" wDoc (some [5, 1, 2]) 30000 "7203" 1
    (by decide)
  exact ⟨by decide, h.1, h.2.1, h.2.2⟩

theorem pyDictGet_nil {α : Type} (k : String) :
    pyDictGet ([] : List (String × α)) k = none := rfl

theorem pyDictGet_set_self {α : Type} :
    ∀ (l : List (String × α)) (k : String) (v : α),
      pyDictGet (pyDictSet l k v) k = some v := by
  intro l k v
  induction l with
  | nil => simp [pyDictSet, pyDictGet, List.find?]
  | cons p rest ih =>
    by_cases hp : p.1 = k
    · rw [pyDictSet, if_pos hp]
      simp [pyDictGet, List.find?]
    · rw [pyDictSet, if_neg hp]
      rw [pyDictGet, List.find?]
      rw [show (p.1 == k) = false from beq_eq_false_iff_ne.mpr hp]
      exact ih

theorem pyDictGet_set_other {α : Type} :
    ∀ (l : List (String × α)) (k k2 : String) (v : α), k2 ≠ k →
      pyDictGet (pyDictSet l k v) k2 = pyDictGet l k2 := by
  intro l k k2 v hne
  induction l with
  | nil =>
    simp [pyDictSet, pyDictGet, List.find?,
      show (k == k2) = false from beq_eq_false_iff_ne.mpr (Ne.symm hne)]
  | cons p rest ih =>
    by_cases hp : p.1 = k
    · rw [pyDictSet, if_pos hp]
      rw [pyDictGet, pyDictGet, List.find?, List.find?]
      rw [show (k == k2) = false from beq_eq_false_iff_ne.mpr (Ne.symm hne),
        show (p.1 == k2) = false from
          beq_eq_false_iff_ne.mpr (by rw [hp]; exact Ne.symm hne)]
    · rw [pyDictSet, if_neg hp]
      rw [pyDictGet, pyDictGet, List.find?, List.find?]
      cases hk2 : p.1 == k2 with
      | true => rfl
      | false => exact ih

theorem pyDictGet_some_mem {α : Type} :
    ∀ {l : List (String × α)} {k : String} {v : α},
      pyDictGet l k = some v → (k, v) ∈ l := by
  intro l k v h
  rw [pyDictGet] at h
  rcases Option.map_eq_some'.mp h with ⟨p, hfind, hsnd⟩
  have hmem := List.mem_of_find?_eq_some hfind
  have hkey := List.find?_some hfind
  rw [beq_iff_eq] at hkey
  cases p with
  | mk pk pv =>
    simp only at hkey hsnd
    subst hkey
    subst hsnd
    exact hmem

theorem pyDictGet_of_mem_nodup {α : Type} :
    ∀ {l : List (String × α)} {k : String} {v : α},
      (l.map Prod.fst).Nodup → (k, v) ∈ l → pyDictGet l k = some v := by
  intro l
  induction l with
  | nil => intro k v _ h; exact absurd h (List.not_mem_nil _)
  | cons p rest ih =>
    intro k v hnd hm
    rw [List.map_cons, List.nodup_cons] at hnd
    rcases List.mem_cons.mp hm with rfl | hm2
    · simp [pyDictGet, List.find?]
    · have hp1 : p.1 ≠ k := by
        intro hc
        exact hnd.1 (hc ▸ List.mem_map_of_mem Prod.fst hm2)
      rw [pyDictGet, List.find?,
        show (p.1 == k) = false from beq_eq_false_iff_ne.mpr hp1]
      exact ih hnd.2 hm2

theorem mem_pyDictSet {α : Type} :
    ∀ {l : List (String × α)} {k : String} {v : α} {p : String × α},
      p ∈ pyDictSet l k v → p ∈ l ∨ p = (k, v) := by
  intro l
  induction l with
  | nil =>
    intro k v p h
    rw [pyDictSet] at h
    rcases List.mem_cons.mp h with rfl | h2
    · exact Or.inr rfl
    · exact absurd h2 (List.not_mem_nil _)
  | cons q rest ih =>
    intro k v p h
    by_cases hq : q.1 = k
    · rw [pyDictSet, if_pos hq] at h
      rcases List.mem_cons.mp h with rfl | h2
      · exact Or.inr rfl
      · exact Or.inl (List.mem_cons_of_mem _ h2)
    · rw [pyDictSet, if_neg hq] at h
      rcases List.mem_cons.mp h with rfl | h2
      · exact Or.inl (List.mem_cons_self _ _)
      · rcases ih h2 with h3 | h3
        · exact Or.inl (List.mem_cons_of_mem _ h3)
        · exact Or.inr h3

theorem keys_pyDictSet {α : Type} :
    ∀ (l : List (String × α)) (k : String) (v : α),
      (pyDictSet l k v).map Prod.fst =
        if k ∈ l.map Prod.fst then l.map Prod.fst
        else l.map Prod.fst ++ [k] := by
  intro l k v
  induction l with
  | nil => simp [pyDictSet]
  | cons p rest ih =>
    by_cases hp : p.1 = k
    · rw [pyDictSet, if_pos hp]
      simp [hp]
    · rw [pyDictSet, if_neg hp]
      rw [List.map_cons, List.map_cons, ih]
      by_cases hk : k ∈ rest.map Prod.fst
      · rw [if_pos hk, if_pos (List.mem_cons_of_mem _ hk)]
      · rw [if_neg hk,
          if_neg (by
            intro hc
            rcases List.mem_cons.mp hc with hc2 | hc2
            · exact hp hc2.symm
            · exact hk hc2)]
        rfl

theorem keys_nodup_pyDictSet {α : Type} {l : List (String × α)} {k : String}
    {v : α} (hnd : (l.map Prod.fst).Nodup) :
    ((pyDictSet l k v).map Prod.fst).Nodup := by
  rw [keys_pyDictSet]
  split
  · exact hnd
  · rw [List.nodup_append]
    exact ⟨hnd, List.nodup_singleton k, by
      intro a ha hb
      rw [List.mem_singleton] at hb
      subst hb
      exact (by assumption : ¬ _) ha⟩

theorem bestIns_get_other {m : List (String × Cand)} {c : Cand} {k : String}
    (hk : k ≠ c.key) : pyDictGet (bestIns m c) k = pyDictGet m k := by
  cases hg : pyDictGet m c.key with
  | none =>
    unfold bestIns
    simp only [hg]
    exact pyDictGet_set_other m c.key k c hk
  | some prev =>
    unfold bestIns
    simp only [hg]
    split
    · exact pyDictGet_set_other m c.key k c hk
    · rfl

theorem bestIns_get_self (m : List (String × Cand)) (c : Cand) :
    ∃ d, pyDictGet (bestIns m c) c.key = some d ∧ c.score ≤ d.score ∧
      (d = c ∨ pyDictGet m c.key = some d) := by
  cases hg : pyDictGet m c.key with
  | none =>
    unfold bestIns
    simp only [hg]
    exact ⟨c, pyDictGet_set_self m c.key c, le_refl _, Or.inl rfl⟩
  | some prev =>
    unfold bestIns
    simp only [hg]
    by_cases hlt : prev.score < c.score
    · rw [if_pos hlt]
      exact ⟨c, pyDictGet_set_self m c.key c, le_refl _, Or.inl rfl⟩
    · rw [if_neg hlt]
      exact ⟨prev, hg, le_of_not_lt hlt, Or.inr rfl⟩

theorem bestIns_ge {m : List (String × Cand)} {c p : Cand}
    (hp : pyDictGet m c.key = some p) :
    ∃ d, pyDictGet (bestIns m c) c.key = some d ∧ p.score ≤ d.score := by
  unfold bestIns
  simp only [hp]
  by_cases hlt : p.score < c.score
  · rw [if_pos hlt]
    exact ⟨c, pyDictGet_set_self m c.key c, le_of_lt hlt⟩
  · rw [if_neg hlt]
    exact ⟨p, hp, le_refl _⟩

theorem bestIns_inv_get {m : List (String × Cand)} {c : Cand}
    (hm : ∀ k2 c2, pyDictGet m k2 = some c2 → c2.key = k2) :
    ∀ k2 c2, pyDictGet (bestIns m c) k2 = some c2 → c2.key = k2 := by
  intro k2 c2 h
  by_cases hk : k2 = c.key
  · subst hk
    obtain ⟨d, hd, _, hsrc⟩ := bestIns_get_self m c
    rw [hd] at h
    cases h
    rcases hsrc with rfl | hsrc
    · rfl
    · exact hm _ _ hsrc
  · rw [bestIns_get_other hk] at h
    exact hm _ _ h

theorem bestIns_entries {m : List (String × Cand)} {c : Cand}
    (hm : ∀ p ∈ m, (p.2).key = p.1) :
    ∀ p ∈ bestIns m c, (p.2).key = p.1 := by
  intro p hp
  have hset : p ∈ pyDictSet m c.key c → (p.2).key = p.1 := by
    intro hs
    rcases mem_pyDictSet hs with h2 | h2
    · exact hm p h2
    · rw [h2]
  cases hg : pyDictGet m c.key with
  | none =>
    unfold bestIns at hp
    simp only [hg] at hp
    exact hset hp
  | some prev =>
    unfold bestIns at hp
    simp only [hg] at hp
    by_cases hlt : prev.score < c.score
    · rw [if_pos hlt] at hp
      exact hset hp
    · rw [if_neg hlt] at hp
      exact hm p hp

theorem bestIns_keys_nodup {m : List (String × Cand)} {c : Cand}
    (hnd : (m.map Prod.fst).Nodup) :
    ((bestIns m c).map Prod.fst).Nodup := by
  cases hg : pyDictGet m c.key with
  | none =>
    unfold bestIns
    simp only [hg]
    exact keys_nodup_pyDictSet hnd
  | some prev =>
    unfold bestIns
    simp only [hg]
    split
    · exact keys_nodup_pyDictSet hnd
    · exact hnd

theorem bestIns_isSome {m : List (String × Cand)} {c : Cand} {k : String}
    (h : (pyDictGet m k).isSome) : (pyDictGet (bestIns m c) k).isSome := by
  by_cases hk : k = c.key
  · subst hk
    obtain ⟨d, hd, _, _⟩ := bestIns_get_self m c
    rw [hd]
    rfl
  · rw [bestIns_get_other hk]
    exact h

theorem bestFold_get :
    ∀ (l : List Cand) (m : List (String × Cand)),
      (∀ k2 c2, pyDictGet m k2 = some c2 → c2.key = k2) →
      ∀ k c, pyDictGet (l.foldl bestIns m) k = some c →
        c.key = k ∧ (c ∈ l ∨ pyDictGet m k = some c) ∧
        (∀ x ∈ l, x.key = k → x.score ≤ c.score) ∧
        (∀ p, pyDictGet m k = some p → p.score ≤ c.score) := by
  intro l
  induction l with
  | nil =>
    intro m hm k c h
    simp only [List.foldl_nil] at h
    refine ⟨hm _ _ h, Or.inr h, by simp, ?_⟩
    intro p hp
    rw [h] at hp
    cases hp
    exact le_refl _
  | cons hd tl ih =>
    intro m hm k c h
    rw [List.foldl_cons] at h
    obtain ⟨hkey, hmem, hmax, hinit⟩ := ih (bestIns m hd)
      (bestIns_inv_get hm) k c h
    obtain ⟨d, hdget, hdge, hdsrc⟩ := bestIns_get_self m hd
    refine ⟨hkey, ?_, ?_, ?_⟩
    · rcases hmem with htl | hbest
      · exact Or.inl (List.mem_cons_of_mem _ htl)
      · by_cases hk : k = hd.key
        · subst hk
          rw [hdget] at hbest
          cases hbest
          rcases hdsrc with rfl | hsrc
          · exact Or.inl (List.mem_cons_self _ _)
          · exact Or.inr hsrc
        · rw [bestIns_get_other hk] at hbest
          exact Or.inr hbest
    · intro x hx hxk
      rcases List.mem_cons.mp hx with rfl | hxtl
      · subst hxk
        have := hinit d hdget
        exact le_trans hdge this
      · exact hmax x hxtl hxk
    · intro p hp
      by_cases hk : k = hd.key
      · subst hk
        obtain ⟨d2, hd2get, hd2ge⟩ := bestIns_ge hp
        exact le_trans hd2ge (hinit d2 hd2get)
      · refine hinit p ?_
        rw [bestIns_get_other hk]
        exact hp

theorem bestFold_isSome :
    ∀ (l : List Cand) (m : List (String × Cand)) (k : String),
      (pyDictGet m k).isSome → (pyDictGet (l.foldl bestIns m) k).isSome := by
  intro l
  induction l with
  | nil => intro m k h; exact h
  | cons hd tl ih =>
    intro m k h
    rw [List.foldl_cons]
    exact ih _ _ (bestIns_isSome h)

theorem bestFold_mem_isSome :
    ∀ (l : List Cand) (m : List (String × Cand)) (x : Cand), x ∈ l →
      (pyDictGet (l.foldl bestIns m) x.key).isSome := by
  intro l
  induction l with
  | nil => intro m x h; exact absurd h (List.not_mem_nil _)
  | cons hd tl ih =>
    intro m x hx
    rw [List.foldl_cons]
    rcases List.mem_cons.mp hx with rfl | htl
    · obtain ⟨d, hd2, _, _⟩ := bestIns_get_self m x
      exact bestFold_isSome tl _ _ (by rw [hd2]; rfl)
    · exact ih _ _ htl

theorem bestFold_entries :
    ∀ (l : List Cand) (m : List (String × Cand)),
      (∀ p ∈ m, (p.2).key = p.1) →
      ∀ p ∈ l.foldl bestIns m, (p.2).key = p.1 := by
  intro l
  induction l with
  | nil => intro m hm; exact hm
  | cons hd tl ih =>
    intro m hm
    rw [List.foldl_cons]
    exact ih _ (bestIns_entries hm)

theorem bestFold_keys_nodup :
    ∀ (l : List Cand) (m : List (String × Cand)),
      ((m.map Prod.fst)).Nodup →
      (((l.foldl bestIns m).map Prod.fst)).Nodup := by
  intro l
  induction l with
  | nil => intro m hm; exact hm
  | cons hd tl ih =>
    intro m hm
    rw [List.foldl_cons]
    exact ih _ (bestIns_keys_nodup hm)

theorem bestFold_inv_get :
    ∀ (l : List Cand) (m : List (String × Cand)),
      (∀ k2 c2, pyDictGet m k2 = some c2 → c2.key = k2) →
      ∀ k2 c2, pyDictGet (l.foldl bestIns m) k2 = some c2 → c2.key = k2 := by
  intro l
  induction l with
  | nil => intro m hm; exact hm
  | cons hd tl ih =>
    intro m hm
    rw [List.foldl_cons]
    exact ih _ (bestIns_inv_get hm)

theorem foldl_skip_filterMap {β : Type} (f : β → Option Cand) :
    ∀ (l : List β) (m : List (String × Cand)),
      l.foldl (fun b e => match f e with | none => b | some c => bestIns b c)
        m = (l.filterMap f).foldl bestIns m := by
  intro l
  induction l with
  | nil => intro m; rfl
  | cons hd tl ih =>
    intro m
    rw [List.foldl_cons, List.filterMap_cons]
    cases hf : f hd with
    | none => exact ih m
    | some c =>
      rw [List.foldl_cons]
      exact ih _

theorem parse_instance_eq (root : XmlElem) :
    parse_instance_root root = (candidatesOf root).foldl bestIns [] := by
  unfold parse_instance_root candidatesOf
  exact foldl_skip_filterMap _ (descElems root) []

theorem mergeBest_eq :
    ∀ (part : List (String × Cand)) (m : List (String × Cand)),
      (∀ p ∈ part, (p.2).key = p.1) →
      mergeBest m part = (part.map Prod.snd).foldl bestIns m := by
  intro part
  induction part with
  | nil => intro m _; rfl
  | cons p rest ih =>
    intro m hinv
    rw [mergeBest, List.foldl_cons, List.map_cons, List.foldl_cons]
    have hk : (p.2).key = p.1 := hinv p (List.mem_cons_self _ _)
    have hstep : (match pyDictGet m p.1 with
        | none => pyDictSet m p.1 p.2
        | some prev =>
          if prev.score < (p.2).score then pyDictSet m p.1 p.2 else m) =
        bestIns m p.2 := by
      rw [bestIns, hk]
    rw [hstep]
    have := ih (bestIns m p.2) (fun q hq => hinv q (List.mem_cons_of_mem _ hq))
    rw [mergeBest] at this
    exact this

theorem parse_entries (root : XmlElem) :
    ∀ p ∈ parse_instance_root root, (p.2).key = p.1 := by
  rw [parse_instance_eq]
  exact bestFold_entries _ []
    (by intro p hp; exact absurd hp (List.not_mem_nil _))

theorem parse_keys_nodup (root : XmlElem) :
    ((parse_instance_root root).map Prod.fst).Nodup := by
  rw [parse_instance_eq]
  exact bestFold_keys_nodup _ [] (by simp)

theorem parse_inv_get (root : XmlElem) :
    ∀ k c, pyDictGet (parse_instance_root root) k = some c → c.key = k := by
  rw [parse_instance_eq]
  refine bestFold_inv_get _ [] ?_
  intro k2 c2 h
  rw [pyDictGet_nil] at h
  cases h

theorem parse_get (root : XmlElem) :
    ∀ k c, pyDictGet (parse_instance_root root) k = some c →
      c.key = k ∧ c ∈ candidatesOf root ∧
      (∀ x ∈ candidatesOf root, x.key = k → x.score ≤ c.score) := by
  intro k c h
  rw [parse_instance_eq] at h
  obtain ⟨hkey, hmem, hmax, _⟩ := bestFold_get (candidatesOf root) []
    (by intro k2 c2 h2; rw [pyDictGet_nil] at h2; cases h2) k c h
  rcases hmem with hm | hm
  · exact ⟨hkey, hm, hmax⟩
  · rw [pyDictGet_nil] at hm
    cases hm

theorem parse_mem_isSome (root : XmlElem) :
    ∀ x ∈ candidatesOf root,
      (pyDictGet (parse_instance_root root) x.key).isSome := by
  intro x hx
  rw [parse_instance_eq]
  exact bestFold_mem_isSome _ [] x hx

theorem extractStep_eq (m : List (String × Cand)) (root : XmlElem) :
    extractStep m (some root) =
      ((parse_instance_root root).map Prod.snd).foldl bestIns m := by
  simp only [extractStep]
  exact mergeBest_eq _ m (parse_entries root)

theorem extractStep_inv_get {m : List (String × Cand)} {r : Option XmlElem}
    (hm : ∀ k2 c2, pyDictGet m k2 = some c2 → c2.key = k2) :
    ∀ k2 c2, pyDictGet (extractStep m r) k2 = some c2 → c2.key = k2 := by
  cases r with
  | none => exact hm
  | some root =>
    rw [extractStep_eq]
    exact bestFold_inv_get _ m hm

theorem extractStep_isSome {m : List (String × Cand)} {r : Option XmlElem}
    {k : String} (h : (pyDictGet m k).isSome) :
    (pyDictGet (extractStep m r) k).isSome := by
  cases r with
  | none => exact h
  | some root =>
    rw [extractStep_eq]
    exact bestFold_isSome _ m k h

theorem values_mem_candidates {root : XmlElem} {c : Cand}
    (h : c ∈ (parse_instance_root root).map Prod.snd) :
    c ∈ candidatesOf root := by
  obtain ⟨q, hq, hq2⟩ := List.mem_map.mp h
  have hget : pyDictGet (parse_instance_root root) q.1 = some q.2 :=
    pyDictGet_of_mem_nodup (parse_keys_nodup root)
      (by rw [show ((q.1, q.2) : String × Cand) = q from rfl]; exact hq)
  obtain ⟨_, hmem, _⟩ := parse_get root q.1 q.2 hget
  rw [← hq2]
  exact hmem

theorem extractFold_get :
    ∀ (roots : List (Option XmlElem)) (m : List (String × Cand)),
      (∀ k2 c2, pyDictGet m k2 = some c2 → c2.key = k2) →
      ∀ k c, pyDictGet (roots.foldl extractStep m) k = some c →
        c.key = k ∧ (c ∈ allCandidates roots ∨ pyDictGet m k = some c) ∧
        (∀ x ∈ allCandidates roots, x.key = k → x.score ≤ c.score) ∧
        (∀ p, pyDictGet m k = some p → p.score ≤ c.score) := by
  intro roots
  induction roots with
  | nil =>
    intro m hm k c h
    simp only [List.foldl_nil] at h
    refine ⟨hm _ _ h, Or.inr h, ?_, ?_⟩
    · intro x hx _
      exact absurd hx (List.not_mem_nil _)
    · intro p hp
      rw [h] at hp
      cases hp
      exact le_refl _
  | cons r rest ih =>
    intro m hm k c h
    rw [List.foldl_cons] at h
    obtain ⟨hkey, hmem, hmax, hinit⟩ := ih (extractStep m r)
      (extractStep_inv_get hm) k c h
    cases r with
    | none =>
      exact ⟨hkey, hmem, hmax, hinit⟩
    | some root =>
      have hAC : allCandidates (some root :: rest) =
          candidatesOf root ++ allCandidates rest := rfl
      rw [hAC]
      refine ⟨hkey, ?_, ?_, ?_⟩
      · rcases hmem with hrest | hstep
        · exact Or.inl (List.mem_append_right _ hrest)
        · rw [extractStep_eq] at hstep
          obtain ⟨_, hsrc, _, _⟩ := bestFold_get _ m hm k c hstep
          rcases hsrc with hvalmem | hmm
          · exact Or.inl (List.mem_append_left _
              (values_mem_candidates hvalmem))
          · exact Or.inr hmm
      · intro x hx hxk
        rcases List.mem_append.mp hx with hxr | hxrest
        · subst hxk
          obtain ⟨v0, hv0⟩ := Option.isSome_iff_exists.mp
            (parse_mem_isSome root x hxr)
          obtain ⟨hv0key, _, hv0max⟩ := parse_get root x.key v0 hv0
          have hx_le : x.score ≤ v0.score := hv0max x hxr rfl
          have hv0val : v0 ∈ (parse_instance_root root).map Prod.snd :=
            List.mem_map_of_mem Prod.snd (pyDictGet_some_mem hv0)
          have hsome : (pyDictGet
              (((parse_instance_root root).map Prod.snd).foldl bestIns m)
              x.key).isSome := by
            have := bestFold_mem_isSome
              ((parse_instance_root root).map Prod.snd) m v0 hv0val
            rw [hv0key] at this
            exact this
          obtain ⟨w, hw⟩ := Option.isSome_iff_exists.mp hsome
          obtain ⟨_, _, hwmax, _⟩ := bestFold_get _ m hm x.key w hw
          have hv0_le : v0.score ≤ w.score := hwmax v0 hv0val hv0key
          have hstep_get : pyDictGet (extractStep m (some root)) x.key =
              some w := by
            rw [extractStep_eq]
            exact hw
          exact le_trans hx_le (le_trans hv0_le (hinit w hstep_get))
        · exact hmax x hxrest hxk
      · intro p hp
        have h1 : (pyDictGet (extractStep m (some root)) k).isSome := by
          rw [extractStep_eq]
          exact bestFold_isSome _ m k (by rw [hp]; rfl)
        obtain ⟨w, hw⟩ := Option.isSome_iff_exists.mp h1
        have hw2 : pyDictGet
            (((parse_instance_root root).map Prod.snd).foldl bestIns m) k =
            some w := by
          rw [← extractStep_eq]
          exact hw
        obtain ⟨_, _, _, hwinit⟩ := bestFold_get _ m hm k w hw2
        exact le_trans (hwinit p hp) (hinit w hw)

theorem extractFold_isSome :
    ∀ (roots : List (Option XmlElem)) (m : List (String × Cand)) (k : String),
      (pyDictGet m k).isSome →
      (pyDictGet (roots.foldl extractStep m) k).isSome := by
  intro roots
  induction roots with
  | nil => intro m k h; exact h
  | cons r rest ih =>
    intro m k h
    rw [List.foldl_cons]
    exact ih _ k (extractStep_isSome h)

theorem extractFold_mem_isSome :
    ∀ (roots : List (Option XmlElem)) (m : List (String × Cand)) (x : Cand),
      x ∈ allCandidates roots →
      (pyDictGet (roots.foldl extractStep m) x.key).isSome := by
  intro roots
  induction roots with
  | nil => intro m x h; exact absurd h (List.not_mem_nil _)
  | cons r rest ih =>
    intro m x hx
    rw [List.foldl_cons]
    cases r with
    | none => exact ih _ x hx
    | some root =>
      rcases List.mem_append.mp hx with hxr | hxrest
      · obtain ⟨v0, hv0⟩ := Option.isSome_iff_exists.mp
          (parse_mem_isSome root x hxr)
        have hv0key := parse_inv_get root x.key v0 hv0
        have hv0val : v0 ∈ (parse_instance_root root).map Prod.snd :=
          List.mem_map_of_mem Prod.snd (pyDictGet_some_mem hv0)
        refine extractFold_isSome rest _ x.key ?_
        rw [extractStep_eq]
        have := bestFold_mem_isSome
          ((parse_instance_root root).map Prod.snd) m v0 hv0val
        rw [hv0key] at this
        exact this
      · exact ih _ x hxrest

theorem ctxFold_skip :
    ∀ (l : List XmlElem) (out : List (String × Option PyDate)) (k : String),
      (∀ ctx ∈ l, ctxIdOf ctx ≠ k) →
      pyDictGet (l.foldl ctxStep out) k = pyDictGet out k := by
  intro l
  induction l with
  | nil => intro out k _; rfl
  | cons c0 rest ih =>
    intro out k hne
    rw [List.foldl_cons]
    rw [ih _ k (fun c hc => hne c (List.mem_cons_of_mem _ hc))]
    unfold ctxStep
    split
    · rfl
    · exact pyDictGet_set_other out (ctxIdOf c0) k (ctxResolvedDate c0)
        (fun hc => hne c0 (List.mem_cons_self _ _) hc.symm)

theorem ctxFold_get :
    ∀ (l : List XmlElem) (out : List (String × Option PyDate)),
      ((l.map ctxIdOf).filter (fun s => s ≠ "")).Nodup →
      ∀ ctx ∈ l, ctxIdOf ctx ≠ "" →
      pyDictGet (l.foldl ctxStep out) (ctxIdOf ctx) =
        some (ctxResolvedDate ctx) := by
  intro l
  induction l with
  | nil => intro out _ ctx h; exact absurd h (List.not_mem_nil _)
  | cons c0 rest ih =>
    intro out hnd ctx hmem hid
    rw [List.map_cons, List.filter_cons] at hnd
    rw [List.foldl_cons]
    rcases List.mem_cons.mp hmem with rfl | hrest
    · rw [if_pos (by simpa using hid)] at hnd
      rw [List.nodup_cons] at hnd
      have hothers : ∀ c ∈ rest, ctxIdOf c ≠ ctxIdOf ctx := by
        intro c hc hceq
        apply hnd.1
        rw [← hceq]
        rw [List.mem_filter]
        exact ⟨List.mem_map_of_mem ctxIdOf hc, by
          rw [hceq]; simpa using hid⟩
      rw [ctxFold_skip rest _ _ hothers]
      unfold ctxStep
      rw [if_neg hid]
      exact pyDictGet_set_self out (ctxIdOf ctx) (ctxResolvedDate ctx)
    · have hnd2 : ((rest.map ctxIdOf).filter (fun s => s ≠ "")).Nodup := by
        by_cases h0 : ctxIdOf c0 = ""
        · rw [if_neg (by simpa using h0)] at hnd
          exact hnd
        · rw [if_pos (by simpa using h0)] at hnd
          exact (List.nodup_cons.mp hnd).2
      exact ih _ hnd2 ctx hrest hid

theorem factsOutGo_take (merged : List (String × Cand)) (limit : ℕ) :
    ∀ (keys : List String) (out : List String), out.length < limit →
      factsOutGo merged limit out keys =
        out ++ (keys.filterMap
          (fun key => (pyDictGet merged key).map fmtLine)).take
            (limit - out.length) := by
  intro keys
  induction keys with
  | nil => intro out _; simp [factsOutGo]
  | cons key rest ih =>
    intro out h
    rw [factsOutGo]
    cases hg : pyDictGet merged key with
    | none =>
      simp only [hg]
      rw [List.filterMap_cons]
      simp only [hg]
      exact ih out h
    | some cand =>
      simp only [hg, Option.map_some']
      rw [List.filterMap_cons]
      simp only [hg, Option.map_some']
      by_cases hfull : limit ≤ (out ++ [fmtLine cand]).length
      · rw [if_pos hfull]
        have hlim : limit - out.length = 1 := by
          rw [List.length_append] at hfull
          simp at hfull
          omega
        rw [hlim, List.take_succ_cons, List.take_zero]
      · rw [if_neg hfull]
        have hlen : (out ++ [fmtLine cand]).length < limit := by
          omega
        rw [ih _ hlen]
        have hsplit : limit - out.length =
            (limit - (out ++ [fmtLine cand]).length) + 1 := by
          rw [List.length_append]
          simp
          omega
        rw [hsplit, List.take_succ_cons]
        simp

theorem natToChars_digit :
    ∀ (fuel n : ℕ) (c : Char), c ∈ natToChars fuel n →
      48 ≤ c.toNat ∧ c.toNat ≤ 57 := by
  intro fuel
  induction fuel with
  | zero => intro n c h; exact absurd h (List.not_mem_nil _)
  | succ fuel ih =>
    intro n c h
    rw [natToChars] at h
    by_cases hn : n < 10
    · rw [if_pos hn] at h
      rw [List.mem_singleton] at h
      subst h
      interval_cases n <;> decide
    · rw [if_neg hn] at h
      rcases List.mem_append.mp h with h2 | h2
      · exact ih _ _ h2
      · rw [List.mem_singleton] at h2
        subst h2
        set r := n % 10 with hr
        have h10 : r < 10 := by
          rw [hr]
          exact Nat.mod_lt _ (by norm_num)
        interval_cases r <;> decide

theorem comma_not_natToChars (fuel n : ℕ) : ',' ∉ natToChars fuel n := by
  intro h
  have hd := natToChars_digit fuel n ',' h
  have hc : (',' : Char).toNat = 44 := rfl
  omega

theorem comma_not_fixed (d : Dec) : ',' ∉ (decFixedRender d).data := by
  have hds := comma_not_natToChars (d.mant + 1) d.mant
  have hbody : ',' ∉
      (if 0 ≤ d.exp then
        natToChars (d.mant + 1) d.mant ++ List.replicate d.exp.toNat '0'
      else if (natToChars (d.mant + 1) d.mant).length ≤ (-d.exp).toNat then
        '0' :: '.' ::
          (List.replicate
            ((-d.exp).toNat - (natToChars (d.mant + 1) d.mant).length) '0' ++
            natToChars (d.mant + 1) d.mant)
      else
        (natToChars (d.mant + 1) d.mant).take
            ((natToChars (d.mant + 1) d.mant).length - (-d.exp).toNat) ++
          '.' :: (natToChars (d.mant + 1) d.mant).drop
            ((natToChars (d.mant + 1) d.mant).length - (-d.exp).toNat)) := by
    split_ifs with h1 h2 <;> intro h
    · rcases List.mem_append.mp h with h3 | h3
      · exact hds h3
      · exact absurd (List.eq_of_mem_replicate h3) (by decide)
    · rcases List.mem_cons.mp h with h3 | h3
      · exact absurd h3 (by decide)
      · rcases List.mem_cons.mp h3 with h4 | h4
        · exact absurd h4 (by decide)
        · rcases List.mem_append.mp h4 with h5 | h5
          · exact absurd (List.eq_of_mem_replicate h5) (by decide)
          · exact hds h5
    · rcases List.mem_append.mp h with h3 | h3
      · exact hds (List.take_subset _ _ h3)
      · rcases List.mem_cons.mp h3 with h4 | h4
        · exact absurd h4 (by decide)
        · exact hds (List.drop_subset _ _ h4)
  simp only [decFixedRender]
  split
  · intro h
    rw [str_append_data] at h
    rcases List.mem_append.mp h with h2 | h2
    · exact absurd h2 (by decide)
    · exact hbody h2
  · exact hbody

theorem comma_not_rstrip {s : String} {c : Char} (hs : ',' ∉ s.data) :
    ',' ∉ (pyRstripChar s c).data := by
  intro h
  apply hs
  unfold pyRstripChar at h
  rw [List.mem_reverse] at h
  have h2 := (List.dropWhile_sublist _).subset h
  rw [List.mem_reverse] at h2
  exact h2

theorem format_decimal_nonintegral {d : Dec} (h : decIsIntegral d = false) :
    ',' ∉ (format_decimal d).data := by
  unfold format_decimal
  simp only [h, Bool.false_eq_true, if_false]
  split
  · exact comma_not_rstrip (comma_not_rstrip (comma_not_fixed _))
  · exact comma_not_fixed _

theorem context_score_table (ref : String) (asof : Option PyDate) :
    context_score ref asof =
      (if pySubstr "currentyear" (pyLower ref) then (40 : ℚ)
       else if pySubstr "currentquarter" (pyLower ref) then 35
       else if pySubstr "current" (pyLower ref) then 20 else 0) +
      (if pySubstr "duration" (pyLower ref) then (8 : ℚ) else 0) +
      (if pySubstr "instant" (pyLower ref) then (8 : ℚ) else 0) +
      (if pySubstr "prior" (pyLower ref) then (-20 : ℚ) else 0) +
      (match asof with
       | some d => 5 + (toordinal d : ℚ) / 1000000
       | none => 0) := by
  rcases asof with _ | d <;>
    simp only [context_score] <;> split_ifs <;> ring

set_option maxRecDepth 10000 in
/-- C9 counterexample: a kept candidate whose value is non-integral and whose
context has no resolvable date is emitted as EPS=12.5 — without thousands
separators and without the parenthesized date — refuting the claim that each
kept value is formatted with thousands separators as label=value (date). -/
theorem nonintegral_fact_lacks_separators_and_date :
    extract_xbrl_key_facts [some cexXbrlRoot] 6 = ["EPS=12.5"] ∧
    (∀ c ∈ ("EPS=12.5" : String).data, c ≠ ',') ∧
    pySubstr "(" "EPS=12.5" = false := by
  refine ⟨?_, ?_, ?_⟩ <;> decide

/-- C9 amended: the as-of date of a context is the parsed instant child if
one exists, else the parsed endDate child, else the parsed startDate child
(none without a period child), and the context-dates dict binds each
non-empty context id to exactly that resolution (when ids are unambiguous);
the context score is the fixed additive table over the lowercased context
ref — currentyear 40 / currentquarter 35 / current 20 as an elif chain, plus
duration 8, instant 8, prior −20 and, when an as-of date exists, the recency
bonus 5 + toordinal/1e6; the merged dict keeps per concept key only a
highest-scoring candidate across all parsed buffers, and keeps one whenever
any candidate for that key exists; the output lists, in rule order and cut
to the limit, label=value lines where the parenthesized as-of date is
appended only when one was resolved; and thousands separators are applied
exactly to integral values. -/
theorem xbrl_extraction_characterization :
    (∀ ctx : XmlElem,
      (findChild ctx PERIOD_TAG = none → ctxResolvedDate ctx = none) ∧
      (∀ period instant, findChild ctx PERIOD_TAG = some period →
        findChild period INSTANT_TAG = some instant →
        ctxResolvedDate ctx = try_parse_date instant.text) ∧
      (∀ period endd, findChild ctx PERIOD_TAG = some period →
        findChild period INSTANT_TAG = none →
        findChild period END_DATE_TAG = some endd →
        ctxResolvedDate ctx = try_parse_date endd.text) ∧
      (∀ period, findChild ctx PERIOD_TAG = some period →
        findChild period INSTANT_TAG = none →
        findChild period END_DATE_TAG = none →
        ctxResolvedDate ctx =
          (match findChild period START_DATE_TAG with
           | some startd => try_parse_date startd.text
           | none => none))) ∧
    (∀ root : XmlElem,
      (((findallDesc root CONTEXT_TAG).map ctxIdOf).filter
        (fun s => s ≠ "")).Nodup →
      ∀ ctx ∈ findallDesc root CONTEXT_TAG, ctxIdOf ctx ≠ "" →
      pyDictGet (collect_context_dates root) (ctxIdOf ctx) =
        some (ctxResolvedDate ctx)) ∧
    (∀ (ref : String) (asof : Option PyDate),
      context_score ref asof =
        (if pySubstr "currentyear" (pyLower ref) then (40 : ℚ)
         else if pySubstr "currentquarter" (pyLower ref) then 35
         else if pySubstr "current" (pyLower ref) then 20 else 0) +
        (if pySubstr "duration" (pyLower ref) then (8 : ℚ) else 0) +
        (if pySubstr "instant" (pyLower ref) then (8 : ℚ) else 0) +
        (if pySubstr "prior" (pyLower ref) then (-20 : ℚ) else 0) +
        (match asof with
         | some d => 5 + (toordinal d : ℚ) / 1000000
         | none => 0)) ∧
    (∀ (roots : List (Option XmlElem)) (k : String) (c : Cand),
      pyDictGet (extract_merged roots) k = some c →
      c.key = k ∧ c ∈ allCandidates roots ∧
      (∀ x ∈ allCandidates roots, x.key = k → x.score ≤ c.score)) ∧
    (∀ (roots : List (Option XmlElem)) (x : Cand), x ∈ allCandidates roots →
      ∃ c, pyDictGet (extract_merged roots) x.key = some c) ∧
    (∀ (roots : List (Option XmlElem)) (limit : ℕ), 1 ≤ limit →
      extract_xbrl_key_facts roots limit =
        (RULE_ORDER.filterMap
          (fun key => (pyDictGet (extract_merged roots) key).map
            fmtLine)).take limit) ∧
    (∀ d : Dec,
      (decIsIntegral d = true →
        format_decimal d = intWithCommas (decToInt d)) ∧
      (decIsIntegral d = false → ',' ∉ (format_decimal d).data)) := by
  refine ⟨?_, ?_, context_score_table, ?_, ?_, ?_, ?_⟩
  · intro ctx
    refine ⟨?_, ?_, ?_, ?_⟩
    · intro hp
      unfold ctxResolvedDate
      simp only [hp]
    · intro period instant hp hi
      unfold ctxResolvedDate
      simp only [hp, hi]
    · intro period endd hp hi he
      unfold ctxResolvedDate
      simp only [hp, hi, he]
    · intro period hp hi he
      unfold ctxResolvedDate
      simp only [hp, hi, he]
      rcases hs : findChild period START_DATE_TAG with _ | startd
      · simp only [hs]
        decide
      · simp only [hs]
  · intro root hnd ctx hmem hid
    unfold collect_context_dates
    exact ctxFold_get _ [] hnd ctx hmem hid
  · intro roots k c h
    unfold extract_merged at h
    obtain ⟨hkey, hmem, hmax, _⟩ := extractFold_get roots []
      (by intro k2 c2 h2; rw [pyDictGet_nil] at h2; cases h2) k c h
    rcases hmem with hm | hm
    · exact ⟨hkey, hm, hmax⟩
    · rw [pyDictGet_nil] at hm
      cases hm
  · intro roots x hx
    have h := extractFold_mem_isSome roots [] x hx
    unfold extract_merged
    exact Option.isSome_iff_exists.mp h
  · intro roots limit hl
    unfold extract_xbrl_key_facts
    rw [factsOutGo_take (extract_merged roots) limit RULE_ORDER []
      (by simpa using hl)]
    simp
  · intro d
    constructor
    · intro h
      unfold format_decimal
      rw [if_pos h]
    · intro h
      exact format_decimal_nonintegral h

set_option maxRecDepth 10000 in
/-- Witness for xbrl_extraction_characterization: the single context id is
bound to its endDate resolution, and the output equals the rule-order
filterMap cut to the limit, concretely one integral net-sales line with
thousands separators and the endDate as-of date. -/
theorem xbrl_extraction_characterization_witness :
    pyDictGet (collect_context_dates wXbrlRoot) (ctxIdOf wCtx) =
      some (ctxResolvedDate wCtx) ∧
    extract_xbrl_key_facts [some wXbrlRoot] 6 =
      (RULE_ORDER.filterMap
        (fun key => (pyDictGet (extract_merged [some wXbrlRoot]) key).map
          fmtLine)).take 6 ∧
    extract_xbrl_key_facts [some wXbrlRoot] 6 =
      ["売上高=1,234,567 (2026-03-31)"] := by
  refine ⟨?_, ?_, by decide⟩
  · exact xbrl_extraction_characterization.2.1 wXbrlRoot (by decide) wCtx
      (by rw [show findallDesc wXbrlRoot CONTEXT_TAG = [wCtx] from rfl]
          exact List.mem_singleton.mpr rfl)
      (by decide)
  · exact xbrl_extraction_characterization.2.2.2.2.2.1 [some wXbrlRoot] 6
      (by decide)

end StockSearch